import Mathlib

/-!
# Ripes assembler: a shallow embedding of `src/assembler.cpp`

Conventions of the embedding.

* `QString` is `String`, `QStringList` is `List String`, `QByteArray` is `List Nat`
  (every element below 256).
* `int` is `Int`; results of shifts and multiplications are wrapped to 32 bits with
  `wrapInt`.  `uint32_t` is `Nat`, reduced modulo `2^32` where a carry can leave the word.
* `QMap<K, V>` is an association list kept in ascending key order.  The non-const
  `operator[]` used for reading inserts a default value under a missing key, as Qt does.
* Indexing a `QStringList` outside its bounds is undefined behaviour in C++; the embedding
  returns `none` there, so every function that reads `fields[i]` lives in `Option`.
* `Q_ASSERT` is compiled out (release build): the statements around it are kept.
-/

namespace Ripes

/-! ## Machine integers -/

/-- Two's-complement wrap of an integer into the range of a 32-bit `int`. -/
def wrapInt (x : Int) : Int := (x + 2147483648) % 4294967296 - 2147483648

/-- Conversion of an integer to `uint32_t`. -/
def toUInt32 (x : Int) : Nat := (x % 4294967296).toNat

/-- Left shift of a `uint32_t`; bits shifted past bit 31 are lost. -/
def shl32 (x n : Nat) : Nat := (x <<< n) % 4294967296

/-- Modelled from the spec: `signextend<int32_t, 12>` of binutils.h, which is not under src/.
The spec writes it `signext(imm[11:0])`: the low 12 bits of the argument read as a
two's-complement number. -/
def signextend12 (x : Nat) : Int :=
  if x % 4096 < 2048 then ((x % 4096 : Nat) : Int) else ((x % 4096 : Nat) : Int) - 4096

/-! ## Qt string functions -/

/-- Characters skipped by Qt around a number (`QChar::isSpace`, ASCII part). -/
def isSpace (c : Char) : Bool :=
  c.toNat = 32 || (9 ≤ c.toNat && c.toNat ≤ 13)

/-- `QString::trimmed` on the characters of a string. -/
def trimmed (cs : List Char) : List Char :=
  ((cs.dropWhile isSpace).reverse.dropWhile isSpace).reverse

/-- Value of a character as a digit (`0-9`, `a-z`, `A-Z`), as `strtoll` reads it. -/
def digitValue (c : Char) : Option Nat :=
  if 48 ≤ c.toNat ∧ c.toNat ≤ 57 then some (c.toNat - 48)
  else if 97 ≤ c.toNat ∧ c.toNat ≤ 122 then some (c.toNat - 87)
  else if 65 ≤ c.toNat ∧ c.toNat ≤ 90 then some (c.toNat - 55)
  else none

/-- Reads a whole list of characters as digits in `base`, most significant first. -/
def parseDigits (base : Nat) : List Char → Nat → Option Nat
  | [], acc => some acc
  | c :: cs, acc =>
    match digitValue c with
    | some d => if d < base then parseDigits base cs (acc * base + d) else none
    | none => none

/-- Reads a non-empty run of digits in `base`. -/
def parseNumber (base : Nat) (cs : List Char) : Option Nat :=
  match cs with
  | [] => none
  | _ :: _ => parseDigits base cs 0

/-- `QString::toInt(&ok, 10)`: surrounding white space is skipped, one sign is accepted, the
digits must be decimal and the value must fit an `int`; on failure the value is 0. -/
def toInt (s : String) : Int × Bool :=
  let cs := trimmed s.data
  let signed : Bool × List Char :=
    match cs with
    | c :: rest => if c = '-' then (true, rest) else if c = '+' then (false, rest) else (false, cs)
    | [] => (false, [])
  match parseNumber 10 signed.2 with
  | some v =>
    let i : Int := if signed.1 then -(v : Int) else (v : Int)
    if -2147483648 ≤ i ∧ i ≤ 2147483647 then (i, true) else (0, false)
  | none => (0, false)

/-- `QString::toUInt(&ok, base)` for base 16 or 2: surrounding white space is skipped, a `+`
is accepted and a `-` is not, base 16 accepts a `0x` or `0X` before the digits, and the value
must fit a `uint`; on failure the value is 0. -/
def toUInt (cs0 : List Char) (base : Nat) : Nat × Bool :=
  let cs := trimmed cs0
  let unsigned : List Char :=
    match cs with
    | c :: rest => if c = '+' then rest else cs
    | [] => []
  let digits : List Char :=
    match unsigned with
    | z :: x :: d :: rest =>
      if base = 16 ∧ z = '0' ∧ (x = 'x' ∨ x = 'X') ∧ (digitValue d).any (· < 16)
      then d :: rest else unsigned
    | _ => unsigned
  match parseNumber base digits with
  | some v => if v ≤ 4294967295 then (v, true) else (0, false)
  | none => (0, false)

/-- `QString::remove(const QString&)` for a two-character pattern: every occurrence of the
pattern is deleted, scanning from the left. -/
def removeAll2 (a b : Char) : List Char → List Char
  | [] => []
  | [x] => [x]
  | x :: y :: rest =>
    if x = a ∧ y = b then removeAll2 a b rest else x :: removeAll2 a b (y :: rest)

/-- `QString::split(QChar)` with empty parts kept. -/
def splitChars (sep : Char → Bool) : List Char → List (List Char)
  | [] => [[]]
  | c :: cs =>
    if sep c then [] :: splitChars sep cs
    else
      match splitChars sep cs with
      | [] => [[c]]
      | h :: t => (c :: h) :: t

/-- `QString::split` returning strings. -/
def split (sep : Char → Bool) (s : String) : List String :=
  (splitChars sep s.data).map String.mk

/-- `QStringList::removeAll("")`. -/
def removeAllEmpty (l : List String) : List String := l.filter (fun s => s ≠ "")

/-- `QString::number` of an `int`. -/
def numberInt (i : Int) : String := toString i

/-- `QString::number` of a `uint`. -/
def numberUInt (n : Nat) : String := toString n

/-! ## QMap -/

/-- `QMap::contains`. -/
def mapContains {κ ν : Type} [DecidableEq κ] (m : List (κ × ν)) (k : κ) : Bool :=
  m.any (fun e => e.1 = k)

/-- `QMap::find`: the value stored under a key, if any. -/
def mapFind {κ ν : Type} [DecidableEq κ] : List (κ × ν) → κ → Option ν
  | [], _ => none
  | e :: rest, k => if e.1 = k then some e.2 else mapFind rest k

/-- The assignment `m[k] = v` for a map ordered by `lt`: the value under `k` is replaced, or
the pair is inserted at the place its key has in ascending order. -/
def mapSetBy {κ ν : Type} [DecidableEq κ] (lt : κ → κ → Bool) :
    List (κ × ν) → κ → ν → List (κ × ν)
  | [], k, v => [(k, v)]
  | e :: rest, k, v =>
    if lt k e.1 then (k, v) :: e :: rest
    else if k = e.1 then (k, v) :: rest
    else e :: mapSetBy lt rest k v

/-- Order of `QString` keys: lexicographic on the characters. -/
def stringLt : List Char → List Char → Bool
  | _, [] => false
  | [], _ :: _ => true
  | a :: as, b :: bs =>
    if a.toNat < b.toNat then true
    else if a.toNat = b.toNat then stringLt as bs
    else false

/-- The assignment `m[k] = v` on a `QMap<int, V>`. -/
def rowSet {ν : Type} (m : List (Int × ν)) (k : Int) (v : ν) : List (Int × ν) :=
  mapSetBy (fun a b => decide (a < b)) m k v

/-- The assignment `m[k] = v` on a `QMap<QString, V>`. -/
def labelSet {ν : Type} (m : List (String × ν)) (k : String) (v : ν) : List (String × ν) :=
  mapSetBy (fun a b => stringLt a.data b.data) m k v

/-! ## Assembler state -/

/-- The member variables of `Assembler`. -/
structure Assembler where
  m_error : Bool
  m_hasData : Bool
  m_inDataSegment : Bool
  m_instructionsMap : List (Int × List String)
  m_lineLabelUsageMap : List (Int × String)
  m_labelPosMap : List (String × Int)
  m_textSegment : List Nat
  m_dataSegment : List Nat
  deriving DecidableEq, Repr

/-- The expression `m_labelPosMap[key]` read as a value: Qt's non-const `operator[]` inserts
a default-constructed 0 under a key that is not in the map. -/
def labelPosAt (s : Assembler) (key : String) : Int × Assembler :=
  match mapFind s.m_labelPosMap key with
  | some v => (v, s)
  | none => (0, { s with m_labelPosMap := labelSet s.m_labelPosMap key 0 })

/-! ## Instruction groupings and constants -/

def pseudoOps : List String :=
  ["nop", "la", "nop", "li", "mv", "not", "neg", "seqz", "snez", "sltz", "sgtz", "begz",
   "bnez", "blez", "bltz", "bgtz", "bgt", "ble", "bgtu", "bleu", "j", "jal", "jr", "jalr",
   "ret", "call", "tail", "lb", "lh", "lw", "sb", "sh", "sw"]

def opsWithOffsets : List String :=
  ["beq", "bne", "bge", "blt", "bltu", "bgeu", "jal", "auipc", "jalr"]

def opImmInstructions : List String :=
  ["addi", "slli", "slti", "xori", "sltiu", "srli", "srai", "ori", "andi"]

def opInstructions : List String :=
  ["add", "sub", "mul", "mulh", "sll", "mulhsu", "slt", "mulhu", "sltu", "div", "xor", "srl",
   "sra", "divu", "rem", "or", "remu", "and"]

def storeInstructions : List String := ["sb", "sh", "sw"]

def loadInstructions : List String := ["lb", "lh", "lw", "lbu", "lhu"]

def branchInstructions : List String := ["beq", "bne", "blt", "bge", "bltu", "bgeu"]

/-- Modelled from the spec: the opcode constants of defines.h, which is not under src/
(section 6 of the spec lists their values). -/
def OP : Nat := 0x33
/-- Modelled from the spec: opcode constant of defines.h. -/
def OP_IMM : Nat := 0x13
/-- Modelled from the spec: opcode constant of defines.h. -/
def LOAD : Nat := 0x03
/-- Modelled from the spec: opcode constant of defines.h. -/
def STORE : Nat := 0x23
/-- Modelled from the spec: opcode constant of defines.h. -/
def BRANCH : Nat := 0x63
/-- Modelled from the spec: opcode constant of defines.h. -/
def LUI : Nat := 0x37
/-- Modelled from the spec: opcode constant of defines.h. -/
def AUIPC : Nat := 0x17
/-- Modelled from the spec: opcode constant of defines.h. -/
def JAL : Nat := 0x6F
/-- Modelled from the spec: opcode constant of defines.h. -/
def JALR : Nat := 0x67
/-- Modelled from the spec: opcode constant of defines.h. -/
def ECALL : Nat := 0x73

/-- Modelled from the spec: the table `ABInames` of defines.h, which is not under src/.
Section 4.7 of the spec names the aliases; the numbers are those of the RISC-V calling
convention. -/
def ABInames : List (String × Nat) :=
  [("zero", 0), ("ra", 1), ("sp", 2), ("gp", 3), ("tp", 4), ("t0", 5), ("t1", 6), ("t2", 7),
   ("s0", 8), ("fp", 8), ("s1", 9), ("a0", 10), ("a1", 11), ("a2", 12), ("a3", 13),
   ("a4", 14), ("a5", 15), ("a6", 16), ("a7", 17), ("s2", 18), ("s3", 19), ("s4", 20),
   ("s5", 21), ("s6", 22), ("s7", 23), ("s8", 24), ("s9", 25), ("s10", 26), ("s11", 27),
   ("t3", 28), ("t4", 29), ("t5", 30), ("t6", 31)]

/-! ## Registers and immediates -/

/-- `Assembler::getRegisterNumber`.  A name that starts with `x` loses every `x` and is read
as a decimal `int` (0 when that fails), converted to `uint32_t`; any other name is looked up
in `ABInames`, a missing name giving the default 0. -/
def getRegisterNumber (reg : String) : Nat :=
  if reg.data.head? = some 'x' then
    toUInt32 (toInt (String.mk (reg.data.filter (fun c => c ≠ 'x')))).1
  else
    (mapFind ABInames reg).getD 0

/-- `Assembler::getImmediate`: the value and the flag `canConvert`. -/
def getImmediate (string : String) : Int × Bool :=
  let direct := toInt string
  if direct.2 then (direct.1, true)
  else
    let c0 := string.data.head?
    let sign : Int := if c0 = some '-' then -1 else 1
    let rest : List Char :=
      if c0 = some '-' ∨ c0 = some '+' then string.data.drop 1 else string.data
    if "0x".data.isPrefixOf rest then
      let u := toUInt (removeAll2 '0' 'x' rest) 16
      (wrapInt (sign * wrapInt u.1), u.2)
    else if "0b".data.isPrefixOf rest then
      let u := toUInt (removeAll2 '0' 'b' rest) 2
      (wrapInt (sign * wrapInt u.1), u.2)
    else (wrapInt (sign * direct.1), false)

/-! ## Encoders -/

/-- Loop of `Assembler::uintToByteArr`: `n` more bytes of `w`, least significant first. -/
def uintToByteArrLoop : Nat → Nat → List Nat → List Nat
  | 0, _, out => out
  | n + 1, w, out => uintToByteArrLoop n (w >>> 8) (out ++ [w &&& 0xff])

/-- `Assembler::uintToByteArr`. -/
def uintToByteArr (w : Nat) : List Nat := uintToByteArrLoop 4 w []

/-- `Assembler::assembleOpImmInstruction`. -/
def assembleOpImmInstruction (fields : List String) (row : Int) (s : Assembler) :
    Option (List Nat × Assembler) := do
  let f0 ← fields[0]?
  let f1 ← fields[1]?
  let f2 ← fields[2]?
  let f3 ← fields[3]?
  let imm := getImmediate f3
  let r : (Nat × Int) × Assembler :=
    if f0 = "addi" then
      if imm.2 then ((0b000, imm.1), s)
      else
        let s1 := { s with m_error := s.m_error || !mapContains s.m_labelPosMap f3 }
        let p := labelPosAt s1 f3
        ((0b000, wrapInt ((p.1 - row + 1) * 4)), p.2)
    else if f0 = "slli" then ((0b001, imm.1), s)
    else if f0 = "slti" then ((0b010, imm.1), s)
    else if f0 = "xori" then ((0b100, imm.1), s)
    else if f0 = "sltiu" then ((0b011, imm.1), s)
    else if f0 = "srli" then ((0b101, imm.1), s)
    else if f0 = "srai" then ((0b101, imm.1), s)
    else if f0 = "ori" then ((0b110, imm.1), s)
    else if f0 = "andi" then ((0b111, imm.1), s)
    else ((0, imm.1), { s with m_error := true })
  pure (uintToByteArr (OP_IMM ||| shl32 r.1.1 12 ||| shl32 (getRegisterNumber f1) 7 |||
      shl32 (getRegisterNumber f2) 15 ||| shl32 (toUInt32 r.1.2) 20), r.2)

/-- `Assembler::assembleOpInstruction`; the pair is `(funct3, funct7)`. -/
def assembleOpInstruction (fields : List String) (_row : Int) (s : Assembler) :
    Option (List Nat × Assembler) := do
  let f0 ← fields[0]?
  let f1 ← fields[1]?
  let f2 ← fields[2]?
  let f3 ← fields[3]?
  let r : (Nat × Nat) × Assembler :=
    if f0 = "add" then ((0b000, 0), s)
    else if f0 = "sub" then ((0b000, 0b0100000), s)
    else if f0 = "mul" then ((0b000, 0b0000001), s)
    else if f0 = "mulh" then ((0b001, 0b0000001), s)
    else if f0 = "sll" then ((0b001, 0), s)
    else if f0 = "mulhsu" then ((0b010, 0b0000001), s)
    else if f0 = "slt" then ((0b010, 0), s)
    else if f0 = "mulhu" then ((0b011, 0b0000001), s)
    else if f0 = "sltu" then ((0b011, 0), s)
    else if f0 = "div" then ((0b100, 0b0000001), s)
    else if f0 = "xor" then ((0b100, 0), s)
    else if f0 = "srl" then ((0b000, 0), s)
    else if f0 = "sra" then ((0b101, 0b0100000), s)
    else if f0 = "divu" then ((0b101, 0b0000001), s)
    else if f0 = "rem" then ((0b110, 0b0000001), s)
    else if f0 = "or" then ((0b110, 0), s)
    else if f0 = "remu" then ((0b111, 0b0000001), s)
    else if f0 = "and" then ((0b111, 0), s)
    else ((0, 0), { s with m_error := true })
  pure (uintToByteArr (OP ||| shl32 r.1.1 12 ||| shl32 r.1.2 25 |||
      shl32 (getRegisterNumber f1) 7 ||| shl32 (getRegisterNumber f2) 15 |||
      shl32 (getRegisterNumber f3) 20), r.2)

/-- The immediate of a load or store row: the decimal number in `field`, or else the offset
`(m_labelPosMap[field] - row + 1) * 4` of the label named there. -/
def offsetOrLabel (field : String) (row : Int) (s : Assembler) : Int × Assembler :=
  let direct := toInt field
  if direct.2 then (direct.1, s)
  else
    let s1 := { s with m_error := s.m_error || !mapContains s.m_labelPosMap field }
    let p := labelPosAt s1 field
    (wrapInt ((p.1 - row + 1) * 4), p.2)

/-- `Assembler::assembleStoreInstruction`. -/
def assembleStoreInstruction (fields : List String) (row : Int) (s : Assembler) :
    Option (List Nat × Assembler) := do
  let f0 ← fields[0]?
  let f1 ← fields[1]?
  let f2 ← fields[2]?
  let f3 ← fields[3]?
  let r : Nat × Assembler :=
    if f0 = "sb" then (0b000, s)
    else if f0 = "sh" then (0b001, s)
    else if f0 = "sw" then (0b010, s)
    else (0, { s with m_error := true })
  let imm := offsetOrLabel f2 row r.2
  pure (uintToByteArr (STORE ||| shl32 (getRegisterNumber f3) 15 |||
      shl32 (getRegisterNumber f1) 20 ||| shl32 r.1 12 |||
      shl32 (toUInt32 imm.1 &&& 0b11111) 7 ||| shl32 (toUInt32 imm.1 &&& 0xFE0) 20), imm.2)

/-- `Assembler::assembleLoadInstruction`. -/
def assembleLoadInstruction (fields : List String) (row : Int) (s : Assembler) :
    Option (List Nat × Assembler) := do
  let f0 ← fields[0]?
  let f1 ← fields[1]?
  let f2 ← fields[2]?
  let f3 ← fields[3]?
  let r : Nat × Assembler :=
    if f0 = "lb" then (0b000, s)
    else if f0 = "lh" then (0b001, s)
    else if f0 = "lw" then (0b010, s)
    else if f0 = "lbu" then (0b100, s)
    else if f0 = "lhu" then (0b101, s)
    else (0, { s with m_error := true })
  let imm := offsetOrLabel f2 row r.2
  pure (uintToByteArr (LOAD ||| shl32 r.1 12 ||| shl32 (getRegisterNumber f1) 7 |||
      shl32 (toUInt32 imm.1) 20 ||| shl32 (getRegisterNumber f3) 15), imm.2)

/-- `Assembler::assembleBranchInstruction`. -/
def assembleBranchInstruction (fields : List String) (row : Int) (s : Assembler) :
    Option (List Nat × Assembler) := do
  let f0 ← fields[0]?
  let f1 ← fields[1]?
  let f2 ← fields[2]?
  let f3 ← fields[3]?
  let p := labelPosAt s f3
  let offset : Nat := toUInt32 (wrapInt ((p.1 - row) * 4))
  let r : Nat × Assembler :=
    if f0 = "beq" then (0b000, p.2)
    else if f0 = "bne" then (0b001, p.2)
    else if f0 = "blt" then (0b100, p.2)
    else if f0 = "bge" then (0b101, p.2)
    else if f0 = "bltu" then (0b110, p.2)
    else if f0 = "bgeu" then (0b111, p.2)
    else (0, { p.2 with m_error := true })
  pure (uintToByteArr (BRANCH ||| shl32 (getRegisterNumber f1) 15 |||
      shl32 (getRegisterNumber f2) 20 ||| shl32 (offset &&& 0b11110) 7 |||
      (offset &&& 0x800) >>> 4 ||| shl32 (offset &&& 0x7E0) 20 |||
      shl32 (offset &&& 0x1000) 19 ||| shl32 r.1 12), r.2)

/-- `Assembler::assembleAuipcInstruction`. -/
def assembleAuipcInstruction (fields : List String) (row : Int) (s : Assembler) :
    Option (List Nat × Assembler) := do
  let f1 ← fields[1]?
  let f2 ← fields[2]?
  let parsed := getImmediate f2
  let r : Int × Assembler :=
    if parsed.2 then (wrapInt (parsed.1 * 4096), s)
    else
      let s1 := { s with m_error := s.m_error || !mapContains s.m_labelPosMap f2 }
      let p := labelPosAt s1 f2
      let imm := wrapInt ((p.1 - row) * 4)
      if imm < 0 then (wrapInt ((imm >>> 12 + 1) * 4096), p.2) else (imm, p.2)
  pure (uintToByteArr (AUIPC ||| shl32 (getRegisterNumber f1) 7 |||
      (toUInt32 r.1 &&& 0xfffff000)), r.2)

/-- `Assembler::assembleJalrInstruction`. -/
def assembleJalrInstruction (fields : List String) (row : Int) (s : Assembler) :
    Option (List Nat × Assembler) := do
  let f1 ← fields[1]?
  let f2 ← fields[2]?
  let f3 ← fields[3]?
  let parsed := getImmediate f3
  let r : Int × Assembler :=
    if parsed.2 then (parsed.1, s)
    else
      let s1 := { s with m_error := s.m_error || !mapContains s.m_labelPosMap f3 }
      let p := labelPosAt s1 f3
      (wrapInt ((p.1 - row + 1) * 4), p.2)
  pure (uintToByteArr (JALR ||| shl32 (getRegisterNumber f1) 7 |||
      shl32 (getRegisterNumber f2) 15 ||| shl32 (toUInt32 r.1 &&& 0xfff) 20), r.2)

/-- The result of one of the `assemble...Instruction` helpers appended to the text segment. -/
def appendText (r : Option (List Nat × Assembler)) : Option Assembler :=
  r.map (fun p => { p.2 with m_textSegment := p.2.m_textSegment ++ p.1 })

/-- `Assembler::assembleInstruction`. -/
def assembleInstruction (fields : List String) (row : Int) (s : Assembler) :
    Option Assembler := do
  let instruction ← fields[0]?
  if instruction ∈ opImmInstructions then
    appendText (assembleOpImmInstruction fields row s)
  else if instruction ∈ opInstructions then
    appendText (assembleOpInstruction fields row s)
  else if instruction ∈ storeInstructions then
    appendText (assembleStoreInstruction fields row s)
  else if instruction ∈ loadInstructions then
    appendText (assembleLoadInstruction fields row s)
  else if instruction ∈ branchInstructions then
    appendText (assembleBranchInstruction fields row s)
  else if instruction = "jalr" then
    appendText (assembleJalrInstruction fields row s)
  else if instruction = "lui" then do
    let f1 ← fields[1]?
    let f2 ← fields[2]?
    appendText (some (uintToByteArr (LUI ||| shl32 (getRegisterNumber f1) 7 |||
      shl32 (toUInt32 (toInt f2).1) 12), s))
  else if instruction = "auipc" then
    appendText (assembleAuipcInstruction fields row s)
  else if instruction = "jal" then do
    let f1 ← fields[1]?
    let f2 ← fields[2]?
    let p := labelPosAt s f2
    let imm : Nat := toUInt32 (wrapInt ((p.1 - row) * 4))
    let enc : Nat := shl32 (imm &&& 0x7fe) 20 ||| shl32 (imm &&& 0x800) 9 |||
      (imm &&& 0xff000) ||| shl32 (imm &&& 0x100000) 11
    appendText (some (uintToByteArr (JAL ||| shl32 (getRegisterNumber f1) 7 ||| enc), p.2))
  else if instruction = "ecall" then
    appendText (some (uintToByteArr ECALL, s))
  else
    some { s with m_error := true }

/-! ## First pass -/

/-- The assignment `m_instructionsMap[pos] = row`. -/
def setRow (s : Assembler) (pos : Int) (row : List String) : Assembler :=
  { s with m_instructionsMap := rowSet s.m_instructionsMap pos row }

/-- The assignment `m_lineLabelUsageMap[pos] = label`. -/
def setUsage (s : Assembler) (pos : Int) (label : String) : Assembler :=
  { s with m_lineLabelUsageMap := rowSet s.m_lineLabelUsageMap pos label }

/-- `Assembler::unpackPseudoOp`; the result is the new value of `pos` and the new state. -/
def unpackPseudoOp (fields : List String) (pos : Int) (s : Assembler) :
    Option (Int × Assembler) := do
  let first ← fields[0]?
  if first = "la" then do
    let f1 ← fields[1]?
    let f2 ← fields[2]?
    let s := setRow s pos ["auipc", f1, f2]
    let s := setRow s (pos + 1) ["addi", f1, f1, f2]
    let s := setUsage s pos f2
    some (pos + 2, s)
  else if first = "nop" then
    some (pos + 1, setRow s pos ["addi", "x0", "x0", "0"])
  else if first = "li" then do
    let f1 ← fields[1]?
    let f2 ← fields[2]?
    let immediate := (getImmediate f2).1
    if immediate > 2047 ∨ immediate < -2048 then
      let posOffset : Nat := if immediate < 0 then 0 else 1
      let s := setRow s pos ["lui", f1, numberUInt ((toUInt32 immediate >>> 12) + posOffset)]
      let s := setRow s (pos + 1)
        ["addi", f1, f1, numberInt (signextend12 (toUInt32 immediate &&& 0xfff))]
      some (pos + 2, s)
    else
      some (pos + 1, setRow s pos ["addi", f1, "x0", numberInt immediate])
  else if first = "mv" then do
    let f1 ← fields[1]?
    let f2 ← fields[2]?
    some (pos + 1, setRow s pos ["addi", f1, f2, "0"])
  else if first = "not" then do
    let f1 ← fields[1]?
    let f2 ← fields[2]?
    some (pos + 1, setRow s pos ["xori", f1, f2, "-1"])
  else if first = "neg" then do
    let f1 ← fields[1]?
    let f2 ← fields[2]?
    some (pos + 1, setRow s pos ["sub", f1, "x0", f2])
  else if first = "seqz" then do
    let f1 ← fields[1]?
    let f2 ← fields[2]?
    some (pos + 1, setRow s pos ["sltiu", f1, f2, "1"])
  else if first = "snez" then do
    let f1 ← fields[1]?
    let f2 ← fields[2]?
    some (pos + 1, setRow s pos ["sltu", f1, f2, "1"])
  else if first = "sltz" then do
    let f1 ← fields[1]?
    let f2 ← fields[2]?
    some (pos + 1, setRow s pos ["slt", f1, f2, "x0"])
  else if first = "sgtz" then do
    let f1 ← fields[1]?
    let f2 ← fields[2]?
    some (pos + 1, setRow s pos ["slt", f1, "x0", f2])
  else if first = "beqz" then do
    let f1 ← fields[1]?
    let f2 ← fields[2]?
    some (pos + 1, setRow s pos ["beq", f1, "x0", f2])
  else if first = "bnez" then do
    let f1 ← fields[1]?
    let f2 ← fields[2]?
    some (pos + 1, setRow s pos ["bne", f1, "x0", f2])
  else if first = "blez" then do
    let f1 ← fields[1]?
    let f2 ← fields[2]?
    some (pos + 1, setRow s pos ["bge", "x0", f1, f2])
  else if first = "bgez" then do
    let f1 ← fields[1]?
    let f2 ← fields[2]?
    some (pos + 1, setRow s pos ["bge", f1, "x0", f2])
  else if first = "bltz" then do
    let f1 ← fields[1]?
    let f2 ← fields[2]?
    some (pos + 1, setRow s pos ["blt", f1, "x0", f2])
  else if first = "bgtz" then do
    let f1 ← fields[1]?
    let f2 ← fields[2]?
    some (pos + 1, setRow s pos ["blt", "x0", f1, f2])
  else if first = "bgt" then do
    let f1 ← fields[1]?
    let f2 ← fields[2]?
    let f3 ← fields[3]?
    some (pos + 1, setRow s pos ["blt", f2, f1, f3])
  else if first = "ble" then do
    let f1 ← fields[1]?
    let f2 ← fields[2]?
    let f3 ← fields[3]?
    some (pos + 1, setRow s pos ["bge", f2, f1, f3])
  else if first = "bgtu" then do
    let f1 ← fields[1]?
    let f2 ← fields[2]?
    let f3 ← fields[3]?
    some (pos + 1, setRow s pos ["bltu", f2, f1, f3])
  else if first = "bleu" then do
    let f1 ← fields[1]?
    let f2 ← fields[2]?
    let f3 ← fields[3]?
    some (pos + 1, setRow s pos ["bgeu", f2, f1, f3])
  else if first = "j" then do
    let f1 ← fields[1]?
    some (pos + 1, setUsage (setRow s pos ["jal", "x0", f1]) pos f1)
  else if first = "jal" then
    if fields.length = 3 then do
      let f2 ← fields[2]?
      some (pos + 1, setUsage (setRow s pos fields) pos f2)
    else do
      let f1 ← fields[1]?
      some (pos + 1, setUsage (setRow s pos ["jal", "x1", f1]) pos f1)
  else if first = "jr" then do
    let f1 ← fields[1]?
    some (pos + 1, setRow s pos ["jalr", "x0", f1, "0"])
  else if first = "jalr" then
    if fields.length = 4 then
      some (pos + 1, setRow s pos fields)
    else do
      let f1 ← fields[1]?
      some (pos + 1, setRow s pos ["jalr", "x1", f1, "0"])
  else if first = "ret" then
    some (pos + 1, setRow s pos ["jalr", "x0", "x1", "0"])
  else if first = "call" then do
    let f1 ← fields[1]?
    let s := setRow s pos ["auipc", "x6", f1]
    let s := setRow s (pos + 1) ["jalr", "x1", "x6", f1]
    let s := setUsage s pos f1
    let s := setUsage s (pos + 1) f1
    some (pos + 2, s)
  else if first = "tail" then do
    let f1 ← fields[1]?
    let s := setRow s pos ["auipc", "x6", f1]
    let s := setRow s (pos + 1) ["jalr", "x0", "x6", f1]
    let s := setUsage s pos f1
    let s := setUsage s (pos + 1) f1
    some (pos + 2, s)
  else if first = "la" then do
    let f1 ← fields[1]?
    let f2 ← fields[2]?
    let s := setRow s pos ["auipc", f1, f2]
    let s := setRow s (pos + 1) ["addi", f1, f1, f2]
    let s := setUsage s pos f1
    let s := setUsage s (pos + 1) f1
    some (pos + 2, s)
  else if first = "lb" ∨ first = "lh" ∨ first = "lw" then
    if fields.length = 4 then do
      let f1 ← fields[1]?
      let f2 ← fields[2]?
      let f3 ← fields[3]?
      let imm := (getImmediate f2).1
      some (pos + 1, setRow s pos [first, f1, numberInt imm, f3])
    else do
      let f1 ← fields[1]?
      let f2 ← fields[2]?
      let s := setRow s pos ["auipc", f1, f2]
      let s := setRow s (pos + 1) [first, f1, f2, f1]
      let s := setUsage s pos f1
      let s := setUsage s (pos + 1) f1
      some (pos + 2, s)
  else if first = "sb" ∨ first = "sh" ∨ first = "sw" then do
    let f2 ← fields[2]?
    let imm := getImmediate f2
    if imm.2 then
      some (pos + 1, setRow s pos fields)
    else do
      let f1 ← fields[1]?
      let f3 ← fields[3]?
      let s := setRow s pos ["auipc", f3, f2]
      let s := setRow s (pos + 1) [first, f1, numberInt imm.1, f3]
      let s := setUsage s pos f1
      let s := setUsage s (pos + 1) f1
      some (pos + 2, s)
  else
    some (pos, { s with m_error := true })

/-- `QString::toUtf8`. -/
def toUtf8 (cs : List Char) : List Nat :=
  cs.flatMap (fun c => (String.utf8EncodeChar c).map UInt8.toNat)

/-- The loop of the `.word` directive: `n` more bytes of `val`, least significant first. -/
def wordBytesLoop : Nat → Int → List Nat → List Nat
  | 0, _, out => out
  | n + 1, val, out => wordBytesLoop n (val >>> 8) (out ++ [(val % 256).toNat])

/-- The padding of a byte array to a multiple of 4 bytes with NUL bytes. -/
def padToWord (byteArray : List Nat) : List Nat :=
  if byteArray.length % 4 ≠ 0 then
    byteArray ++ List.replicate (4 - byteArray.length % 4) 0
  else byteArray

/-- The end of `Assembler::assembleAssemblerDirective`: pad, append, set `m_hasData`. -/
def appendData (s : Assembler) (byteArray : List Nat) : Assembler :=
  { s with m_dataSegment := s.m_dataSegment ++ padToWord byteArray, m_hasData := true }

/-- `Assembler::assembleAssemblerDirective`. -/
def assembleAssemblerDirective (fields : List String) (s : Assembler) : Option Assembler := do
  let f0 ← fields[0]?
  if f0 = ".string" then
    let string : List Char := (fields.drop 1).flatMap (fun f => f.data)
    some (appendData s (toUtf8 (string.filter (fun c => c ≠ Char.ofNat 34))))
  else if f0 = ".word" then do
    let f1 ← fields[1]?
    some (appendData s (wordBytesLoop 4 (getImmediate f1).1 []))
  else if f0 = ".data" then
    some { s with m_inDataSegment := true }
  else if f0 = ".text" then
    some { s with m_inDataSegment := false }
  else
    some (appendData s [])

/-- The second half of `Assembler::unpackOp` (under the comment `Unpack operations`). -/
def unpackOperation (fields : List String) (pos : Int) (s : Assembler) :
    Option (Int × Assembler) := do
  let f0 ← fields[0]?
  if f0 ∈ pseudoOps then
    unpackPseudoOp fields pos s
  else if f0.data.head? = some '.' then
    (assembleAssemblerDirective fields s).map (fun s1 => (pos, s1))
  else do
    let last ← fields.getLast?
    let s1 := if f0 ∈ opsWithOffsets then setUsage s pos last else s
    some (pos + 1, setRow s1 pos fields)

/-- `Assembler::unpackOp`; `DATASTART` is the constant of defines.h (not under src/), taken
as a parameter.  The result is the new value of `pos` and the new state. -/
def unpackOp (DATASTART : Nat) (_fields : List String) (pos : Int) (s : Assembler) :
    Option (Int × Assembler) := do
  let string ← _fields[0]?
  if string.data.contains ':' then do
    let splitFirst := split (fun c => c = ':') string
    let label ← splitFirst[0]?
    let splitFirst := removeAllEmpty splitFirst
    let fields ←
      if splitFirst.length = 1 then some (_fields.drop 1)
      else (splitFirst[1]?).map (fun f => f :: _fields.drop 1)
    let address : Int :=
      if s.m_inDataSegment then
        wrapInt ((s.m_dataSegment.length : Int) + ((DATASTART / 4 : Nat) : Int))
      else pos
    let s1 : Assembler := { s with m_labelPosMap := labelSet s.m_labelPosMap label address }
    if fields.isEmpty then some (pos, s1)
    else unpackOperation fields pos s1
  else
    unpackOperation _fields pos s

/-- `Assembler::restart`; `m_inDataSegment` is not among the members it resets. -/
def restart (s : Assembler) : Assembler :=
  { s with m_error := false, m_hasData := false, m_instructionsMap := [],
           m_lineLabelUsageMap := [], m_labelPosMap := [], m_textSegment := [],
           m_dataSegment := [] }

/-! ## Driver -/

/-- The loop of `splitColon`: a colon is appended to every part but the last. -/
def appendColons : List String → List String
  | [] => []
  | [x] => [x]
  | x :: y :: rest => (x ++ ":") :: appendColons (y :: rest)

/-- The helper `splitColon`. -/
def splitColon (string : String) : List String :=
  removeAllEmpty (appendColons (split (fun c => c = ':') string))

/-- The characters matched by the regular expression `splitter`. -/
def isSplitter (c : Char) : Bool :=
  c = ',' || c = '\t' || c = '(' || c = ')'

/-- Exact match of the regular expression `[#](.*)`: a `#` followed by characters other than
a line feed. -/
def isComment (field : String) : Bool :=
  match field.data with
  | c :: rest => c = '#' && !rest.contains '\n'
  | [] => false

/-- Modelled from the spec: `splitQuotes` of lexerutilities.h, which is not under src/.
The spec says that it re-joins quoted regions so that a string literal stays one token: a
field with an odd number of double quotes opens a region, the following fields are joined to
it up to and with the next field that has an odd number of double quotes.  The second
argument is the region being joined, if any. -/
def splitQuotesFrom : List String → Option String → List String
  | [], none => []
  | [], some open_ => [open_]
  | f :: rest, none =>
    if (f.data.count (Char.ofNat 34)) % 2 = 1 then splitQuotesFrom rest (some f)
    else f :: splitQuotesFrom rest none
  | f :: rest, some open_ =>
    if (f.data.count (Char.ofNat 34)) % 2 = 1 then (open_ ++ f) :: splitQuotesFrom rest none
    else splitQuotesFrom rest (some (open_ ++ f))

/-- Modelled from the spec: `splitQuotes` of lexerutilities.h (see `splitQuotesFrom`). -/
def splitQuotes (fields : List String) : List String := splitQuotesFrom fields none

/-- The fields of one text block, as `Assembler::assembleBinaryFile` computes them before it
calls `unpackOp`; `sq` stands for `splitQuotes`. -/
def lineFields (sq : List String → List String) (text : String) : List String :=
  if text.data.isEmpty then []
  else
    match sq (removeAllEmpty (split isSplitter text)) with
    | [] => []
    | f :: rest =>
      let fields := if f.data.contains ':' then splitColon f ++ rest else f :: rest
      fields.takeWhile (fun x => !isComment x)

/-- The first loop of `Assembler::assembleBinaryFile` on the field lists of the blocks: a
block with no field is skipped, every other one is handed to `unpackOp`. -/
def unpackLines (DATASTART : Nat) :
    List (List String) → Int → Assembler → Option (Int × Assembler)
  | [], line, s => some (line, s)
  | fields :: rest, line, s =>
    if fields.length > 0 then
      (unpackOp DATASTART fields line s).bind (fun r => unpackLines DATASTART rest r.1 r.2)
    else unpackLines DATASTART rest line s

/-- The second loop of `Assembler::assembleBinaryFile`: the rows are assembled in ascending
order of their key. -/
def assembleRows : List (Int × List String) → Assembler → Option Assembler
  | [], s => some s
  | item :: rest, s => (assembleInstruction item.2 item.1 s).bind (assembleRows rest)

/-- `Assembler::assembleBinaryFile` after the blocks have been split into fields: `restart`,
the first pass over the lines, then the second pass over the rows. -/
def assembleLines (DATASTART : Nat) (lines : List (List String)) (prior : Assembler) :
    Option Assembler :=
  (unpackLines DATASTART lines 0 (restart prior)).bind
    (fun r => assembleRows r.2.m_instructionsMap r.2)

/-- `Assembler::assembleBinaryFile` on the blocks of a document, started in state `prior`;
the text segment it returns is `m_textSegment` of the result. -/
def assembleBinaryFile (DATASTART : Nat) (sq : List String → List String)
    (doc : List String) (prior : Assembler) : Option Assembler :=
  assembleLines DATASTART (doc.map (lineFields sq)) prior

/-! ## Reading the output -/

/-- A newly constructed assembler, in text mode. -/
def freshAssembler : Assembler :=
  { m_error := false, m_hasData := false, m_inDataSegment := false, m_instructionsMap := [],
    m_lineLabelUsageMap := [], m_labelPosMap := [], m_textSegment := [], m_dataSegment := [] }

/-- The mnemonics for which `assembleInstruction` emits a word. -/
def knownInstruction (fields : List String) : Bool :=
  match fields with
  | [] => false
  | instruction :: _ =>
    decide (instruction ∈ opImmInstructions) || decide (instruction ∈ opInstructions) ||
    decide (instruction ∈ storeInstructions) || decide (instruction ∈ loadInstructions) ||
    decide (instruction ∈ branchInstructions) || decide (instruction = "jalr") ||
    decide (instruction = "lui") || decide (instruction = "auipc") ||
    decide (instruction = "jal") || decide (instruction = "ecall")

/-- The 32-bit word stored least significant byte first in a byte array. -/
def byteArrToUint : List Nat → Nat
  | [] => 0
  | b :: rest => b + 256 * byteArrToUint rest

/-- Bits `hi` down to `lo` of a word. -/
def bitsOf (w hi lo : Nat) : Nat := (w >>> lo) % 2 ^ (hi + 1 - lo)

/-- The immediate of a B-type word: bit 31 is imm[12], bit 7 is imm[11], bits 30:25 are
imm[10:5], bits 11:8 are imm[4:1]; the 13-bit value is sign-extended. -/
def decodeBImmediate (w : Nat) : Int :=
  let imm : Nat :=
    bitsOf w 31 31 * 4096 + bitsOf w 7 7 * 2048 + bitsOf w 30 25 * 32 + bitsOf w 11 8 * 2
  if imm < 4096 then (imm : Int) else (imm : Int) - 8192

/-- The value that an `auipc` word adds to the program counter: bits 31:12, as a signed
32-bit number. -/
def decodeUImmediate (w : Nat) : Int := wrapInt ((bitsOf w 31 12 * 4096 : Nat) : Int)

/-- The immediate of an I-type word (`addi`, `jalr`, loads): bits 31:20, sign-extended. -/
def decodeIImmediate (w : Nat) : Int := signextend12 (bitsOf w 31 20)

/-- The four offset terms of the word built by `assembleBranchInstruction`. -/
def branchOffsetBits (offset : Nat) : Nat :=
  shl32 (offset &&& 0b11110) 7 ||| (offset &&& 0x800) >>> 4 ||| shl32 (offset &&& 0x7E0) 20 |||
    shl32 (offset &&& 0x1000) 19

/-- The immediate of an S-type word: bits 31:25 are imm[11:5], bits 11:7 are imm[4:0]; the
12-bit value is sign-extended. -/
def decodeSImmediate (w : Nat) : Int := signextend12 (bitsOf w 31 25 * 32 + bitsOf w 11 7)

/-- The table of section 4.5 of the spec for the OP class: mnemonic, `funct3`, `funct7`. -/
def specOpTable : List (String × Nat × Nat) :=
  [("add", 0, 0), ("sub", 0, 0x20), ("mul", 0, 1), ("mulh", 1, 1), ("sll", 1, 0),
   ("mulhsu", 2, 1), ("slt", 2, 0), ("mulhu", 3, 1), ("sltu", 3, 0), ("div", 4, 1),
   ("xor", 4, 0), ("srl", 0, 0), ("sra", 5, 0x20), ("divu", 5, 1), ("rem", 6, 1),
   ("or", 6, 0), ("remu", 7, 1), ("and", 7, 0)]

/-- The table of section 4.5 of the spec for the OP-IMM class: mnemonic and `funct3`. -/
def specOpImmTable : List (String × Nat) :=
  [("addi", 0b000), ("slli", 0b001), ("slti", 0b010), ("xori", 0b100), ("sltiu", 0b011),
   ("srli", 0b101), ("srai", 0b101), ("ori", 0b110), ("andi", 0b111)]

/-- The table of section 4.5 of the spec for the STORE class: mnemonic and `funct3`. -/
def specStoreTable : List (String × Nat) := [("sb", 0b000), ("sh", 0b001), ("sw", 0b010)]

/-! ## Invariants of the first pass -/

/-- The effect of one first-pass step on the cursor and the instruction map: nothing, one row
stored at the cursor, or one row at the cursor and one at the next position. -/
def RowsAdded (pos : Int) (m : List (Int × List String))
    (pos' : Int) (m' : List (Int × List String)) : Prop :=
  (pos' = pos ∧ m' = m) ∨
  (∃ row, pos' = pos + 1 ∧ m' = rowSet m pos row) ∨
  (∃ row1 row2, pos' = pos + 2 ∧ m' = rowSet (rowSet m pos row1) (pos + 1) row2)

/-- The keys of the instruction map are the rows `0` to `pos - 1`, in ascending order. -/
def DenseRows (m : List (Int × List String)) (pos : Int) : Prop :=
  ∃ n : Nat, pos = (n : Int) ∧ m.map Prod.fst = (List.range n).map Int.ofNat

/-- The immediate of a J-type word: bit 31 is imm[20], bits 19:12 are imm[19:12], bit 20 is
imm[11], bits 30:21 are imm[10:1]; the 21-bit value is sign-extended. -/
def decodeJImmediate (w : Nat) : Int :=
  let imm : Nat :=
    bitsOf w 31 31 * 1048576 + bitsOf w 19 12 * 4096 + bitsOf w 20 20 * 2048 +
      bitsOf w 30 21 * 2
  if imm < 1048576 then (imm : Int) else (imm : Int) - 2097152

/-! ## Lemmas on maps -/

theorem mapContains_of_find {κ ν : Type} [DecidableEq κ] {m : List (κ × ν)} {k : κ} {v : ν}
    (h : mapFind m k = some v) : mapContains m k = true := by
  induction m with
  | nil => simp [mapFind] at h
  | cons e rest ih =>
    by_cases hk : e.1 = k
    · simp [mapContains, hk]
    · have h2 : mapFind rest k = some v := by simpa [mapFind, hk] using h
      have h3 := ih h2
      simp only [mapContains, List.any_cons, Bool.or_eq_true] at h3 ⊢
      exact Or.inr h3

theorem labelPosAt_of_find {s : Assembler} {key : String} {t : Int}
    (h : mapFind s.m_labelPosMap key = some t) : labelPosAt s key = (t, s) := by
  simp [labelPosAt, h]

/-! ## The pseudo-op `li` -/

/-- C4. For every token that `getImmediate` parses to `imm`, the statement `li rd, imm`
stores the single row `addi rd, x0, imm` at the cursor and advances the cursor by 1 when
`-2048 ≤ imm ≤ 2047`, and otherwise stores two rows, a `lui` at the cursor and an `addi`
after it, and advances the cursor by 2. -/
theorem li_row_count (D : Nat) (rd tok : String) (imm p : Int) (s : Assembler)
    (h : getImmediate tok = (imm, true)) :
    unpackOp D ["li", rd, tok] p s =
      if -2048 ≤ imm ∧ imm ≤ 2047 then
        some (p + 1, setRow s p ["addi", rd, "x0", numberInt imm])
      else
        some (p + 2,
          setRow (setRow s p
            ["lui", rd, numberUInt ((toUInt32 imm >>> 12) + (if imm < 0 then 0 else 1))])
            (p + 1) ["addi", rd, rd, numberInt (signextend12 (toUInt32 imm &&& 0xfff))]) := by
  have e : unpackOp D ["li", rd, tok] p s = unpackPseudoOp ["li", rd, tok] p s := rfl
  rw [e]
  simp only [unpackPseudoOp]
  simp [h]
  split_ifs <;> first | rfl | omega

/-- Witness of C4 at the four boundary values: 2047 and -2048 give one row, 2048 and -2049
give two. -/
theorem li_row_count_witness :
    unpackOp 0 ["li", "x5", "2047"] 0 freshAssembler =
      some (1, setRow freshAssembler 0 ["addi", "x5", "x0", "2047"]) ∧
    unpackOp 0 ["li", "x5", "-2048"] 0 freshAssembler =
      some (1, setRow freshAssembler 0 ["addi", "x5", "x0", "-2048"]) ∧
    unpackOp 0 ["li", "x5", "2048"] 0 freshAssembler =
      some (2, setRow (setRow freshAssembler 0 ["lui", "x5", "1"]) 1
        ["addi", "x5", "x5", "-2048"]) ∧
    unpackOp 0 ["li", "x5", "-2049"] 0 freshAssembler =
      some (2, setRow (setRow freshAssembler 0 ["lui", "x5", "1048575"]) 1
        ["addi", "x5", "x5", "2047"]) :=
  ⟨(li_row_count 0 "x5" "2047" 2047 0 freshAssembler (by decide)).trans (by decide),
   (li_row_count 0 "x5" "-2048" (-2048) 0 freshAssembler (by decide)).trans (by decide),
   (li_row_count 0 "x5" "2048" 2048 0 freshAssembler (by decide)).trans (by decide),
   (li_row_count 0 "x5" "-2049" (-2049) 0 freshAssembler (by decide)).trans (by decide)⟩

/-- C2 (the code at the failing input). `li x5, 0x12345` stores `lui x5, 19` and
`addi x5, x5, 837`, and `19 * 4096 + 837` is not `0x12345` modulo `2^32`: the upper part
was incremented although the low 12 bits, `0x345`, are not negative. -/
theorem li_0x12345_not_reconstructed :
    unpackPseudoOp ["li", "x5", "0x12345"] 0 freshAssembler =
      some (2, setRow (setRow freshAssembler 0 ["lui", "x5", "19"]) 1
        ["addi", "x5", "x5", "837"]) ∧
    ((toInt "19").1 * 4096 + (toInt "837").1) % 4294967296 ≠ 0x12345 % 4294967296 := by
  decide

/-- C3 (counterexample). For `li x5, 0x12845` the claim's `signAdj` is 0, as the immediate
is not negative, and its first row would be `lui x5, 0x12`; the code stores `lui x5, 19`,
that is `0x13`, and `addi x5, x5, -1979`.  The stored rows rebuild the constant,
`19 * 4096 - 1979 = 0x12845`, and the claim's operand would not.  Likewise for
`li x5, -2049` the claim's `signAdj` is 1 and the code stores the upper 20 bits `0xFFFFF`
as they are, with `addi x5, x5, 2047`, which rebuilds `-2049` modulo `2^32`. -/
theorem li_0x12845_lui_operand :
    (unpackPseudoOp ["li", "x5", "0x12845"] 0 freshAssembler).map
      (fun r => r.2.m_instructionsMap) =
      some [(0, ["lui", "x5", "19"]), (1, ["addi", "x5", "x5", "-1979"])] ∧
    (toInt "19").1 ≠ ((toUInt32 0x12845 >>> 12 : Nat) : Int) + 0 ∧
    ((toInt "19").1 * 4096 + (toInt "-1979").1) % 4294967296 = 0x12845 % 4294967296 ∧
    ((((toUInt32 0x12845 >>> 12 : Nat) : Int) + 0) * 4096 + (toInt "-1979").1) % 4294967296 ≠
      0x12845 % 4294967296 ∧
    (unpackPseudoOp ["li", "x5", "-2049"] 0 freshAssembler).map
      (fun r => r.2.m_instructionsMap) =
      some [(0, ["lui", "x5", "1048575"]), (1, ["addi", "x5", "x5", "2047"])] ∧
    (toInt "1048575").1 ≠ ((toUInt32 (-2049) >>> 12 : Nat) : Int) + 1 ∧
    ((toInt "1048575").1 * 4096 + (toInt "2047").1) % 4294967296 = -2049 % 4294967296 :=
  ⟨by decide, by decide, by decide, by decide, by decide, by decide, by decide⟩

/-- C3 (amended). For `li rd, imm` with `imm` outside the signed 12-bit range,
`unpackPseudoOp` stores `lui rd, U` at the cursor and `addi rd, rd, signext(imm[11:0])`
after it, both numbers in decimal, and advances the cursor by 2.  When `imm ≥ 0` with bit
11 set, or `imm < 0` with bit 11 clear, `U` is the upper 20 bits of `imm` plus `signAdj`,
where `signAdj` is 1 if the sign-extended low 12 bits are negative and 0 otherwise. -/
theorem li_large_rows (rd tok : String) (imm p : Int) (s : Assembler)
    (h : getImmediate tok = (imm, true)) (hbig : imm > 2047 ∨ imm < -2048) :
    ∃ U : Nat,
      unpackPseudoOp ["li", rd, tok] p s =
        some (p + 2, setRow (setRow s p ["lui", rd, numberUInt U]) (p + 1)
          ["addi", rd, rd, numberInt (signextend12 (toUInt32 imm &&& 0xfff))]) ∧
      ((0 ≤ imm ∧ 2048 ≤ imm % 4096) ∨ (imm < 0 ∧ imm % 4096 < 2048) →
        U = (toUInt32 imm >>> 12) +
          (if signextend12 (toUInt32 imm &&& 0xfff) < 0 then 1 else 0)) := by
  refine ⟨(toUInt32 imm >>> 12) + (if imm < 0 then 0 else 1), ?_, ?_⟩
  · simp only [unpackPseudoOp]
    simp [h]
    intro h1
    omega
  · intro hreg
    have hm : (toUInt32 imm &&& 0xfff) % 4096 = (imm % 4096).toNat := by
      have e : (0xfff : Nat) = 2 ^ 12 - 1 := by norm_num
      rw [e, Nat.and_pow_two_sub_one_eq_mod]
      simp only [toUInt32]
      omega
    have hs : signextend12 (toUInt32 imm &&& 0xfff) < 0 ↔ 2048 ≤ imm % 4096 := by
      unfold signextend12
      rw [hm]
      split_ifs <;> omega
    rcases hreg with ⟨h0, h1⟩ | ⟨h0, h1⟩
    · have hs1 : signextend12 (toUInt32 imm &&& 0xfff) < 0 := hs.mpr h1
      simp [hs1]
      omega
    · have hs1 : ¬ signextend12 (toUInt32 imm &&& 0xfff) < 0 := fun hc => by
        have := hs.mp hc
        omega
      simp [hs1, h0]

/-- Witness of C3 (amended): `li x5, 0x12845` stores `lui x5, 0x13` and
`addi x5, x5, -1979`. -/
theorem li_large_rows_witness :
    ∃ U : Nat,
      unpackPseudoOp ["li", "x5", "0x12845"] 0 freshAssembler =
        some (0 + 2, setRow (setRow freshAssembler 0 ["lui", "x5", numberUInt U]) (0 + 1)
          ["addi", "x5", "x5", numberInt (signextend12 (toUInt32 0x12845 &&& 0xfff))]) ∧
      ((0 ≤ (0x12845 : Int) ∧ 2048 ≤ (0x12845 : Int) % 4096) ∨
          ((0x12845 : Int) < 0 ∧ (0x12845 : Int) % 4096 < 2048) →
        U = (toUInt32 0x12845 >>> 12) +
          (if signextend12 (toUInt32 0x12845 &&& 0xfff) < 0 then 1 else 0)) :=
  li_large_rows "x5" "0x12845" 0x12845 0 freshAssembler (by decide) (by decide)

/-! ## Single-row pseudo-ops -/

/-- C9. Each single-row pseudo-op (`nop`, `mv`, `not`, `neg`, `seqz`, `snez`, `sltz`,
`sgtz`, `bnez`, `blez`, `bltz`, `bgtz`, `bgt`, `ble`, `bgtu`, `bleu`, `j`, one-argument
`jal`, `jr`, one-argument `jalr`, `ret`) processed by `unpackOp` at cursor `p` stores at
row `p` the row of the expansion table and moves the cursor to `p + 1`; `j` and `jal`
also record the label in the label-use map. -/
theorem single_row_pseudo_ops (D : Nat) (a b l : String) (p : Int) (s : Assembler) :
    unpackOp D ["nop"] p s = some (p + 1, setRow s p ["addi", "x0", "x0", "0"]) ∧
    unpackOp D ["mv", a, b] p s = some (p + 1, setRow s p ["addi", a, b, "0"]) ∧
    unpackOp D ["not", a, b] p s = some (p + 1, setRow s p ["xori", a, b, "-1"]) ∧
    unpackOp D ["neg", a, b] p s = some (p + 1, setRow s p ["sub", a, "x0", b]) ∧
    unpackOp D ["seqz", a, b] p s = some (p + 1, setRow s p ["sltiu", a, b, "1"]) ∧
    unpackOp D ["snez", a, b] p s = some (p + 1, setRow s p ["sltu", a, b, "1"]) ∧
    unpackOp D ["sltz", a, b] p s = some (p + 1, setRow s p ["slt", a, b, "x0"]) ∧
    unpackOp D ["sgtz", a, b] p s = some (p + 1, setRow s p ["slt", a, "x0", b]) ∧
    unpackOp D ["bnez", a, l] p s = some (p + 1, setRow s p ["bne", a, "x0", l]) ∧
    unpackOp D ["blez", a, l] p s = some (p + 1, setRow s p ["bge", "x0", a, l]) ∧
    unpackOp D ["bltz", a, l] p s = some (p + 1, setRow s p ["blt", a, "x0", l]) ∧
    unpackOp D ["bgtz", a, l] p s = some (p + 1, setRow s p ["blt", "x0", a, l]) ∧
    unpackOp D ["bgt", a, b, l] p s = some (p + 1, setRow s p ["blt", b, a, l]) ∧
    unpackOp D ["ble", a, b, l] p s = some (p + 1, setRow s p ["bge", b, a, l]) ∧
    unpackOp D ["bgtu", a, b, l] p s = some (p + 1, setRow s p ["bltu", b, a, l]) ∧
    unpackOp D ["bleu", a, b, l] p s = some (p + 1, setRow s p ["bgeu", b, a, l]) ∧
    unpackOp D ["j", l] p s = some (p + 1, setUsage (setRow s p ["jal", "x0", l]) p l) ∧
    unpackOp D ["jal", l] p s = some (p + 1, setUsage (setRow s p ["jal", "x1", l]) p l) ∧
    unpackOp D ["jr", a] p s = some (p + 1, setRow s p ["jalr", "x0", a, "0"]) ∧
    unpackOp D ["jalr", a] p s = some (p + 1, setRow s p ["jalr", "x1", a, "0"]) ∧
    unpackOp D ["ret"] p s = some (p + 1, setRow s p ["jalr", "x0", "x1", "0"]) :=
  ⟨rfl, rfl, rfl, rfl, rfl, rfl, rfl, rfl, rfl, rfl, rfl, rfl, rfl, rfl, rfl, rfl, rfl, rfl,
   rfl, rfl, rfl⟩

/-- C10 (the code at the failing input). `beqz` and `bgez` are not in `pseudoOps`, so
`unpackOp` never hands them to `unpackPseudoOp`: the statements are stored unexpanded, and
the second pass emits no word for such a row and sets the error flag. -/
theorem beqz_bgez_stored_unexpanded (D : Nat) (rs lbl : String) (p : Int) (s : Assembler) :
    unpackOp D ["beqz", rs, lbl] p s = some (p + 1, setRow s p ["beqz", rs, lbl]) ∧
    unpackOp D ["bgez", rs, lbl] p s = some (p + 1, setRow s p ["bgez", rs, lbl]) ∧
    assembleInstruction ["beqz", rs, lbl] p s = some { s with m_error := true } ∧
    assembleInstruction ["bgez", rs, lbl] p s = some { s with m_error := true } :=
  ⟨rfl, rfl, rfl, rfl⟩

/-! ## Branches and jumps on concrete programs -/

/-- C6 (counterexample). From a fresh state the statement with fields `loop:`, `beq`,
`x1`, `x2`, `loop` does not assemble to the bytes 63 08 21 00. -/
theorem loop_beq_not_63_08_21_00 :
    (assembleLines 0x10000000 [["loop:", "beq", "x1", "x2", "loop"]] freshAssembler).map
      (fun a => a.m_textSegment) ≠ some [0x63, 0x08, 0x21, 0x00] := by
  decide

/-- C6 (amended). From a fresh state the statement with fields `loop:`, `beq`, `x1`, `x2`,
`loop` assembles to the text segment 63 80 20 00, the word `0x00208063`, whatever
`DATASTART` is. -/
theorem loop_beq_bytes (D : Nat) :
    (assembleLines D [["loop:", "beq", "x1", "x2", "loop"]] freshAssembler).map
      (fun a => a.m_textSegment) = some [0x63, 0x80, 0x20, 0x00] := by
  have e : unpackOp D ["loop:", "beq", "x1", "x2", "loop"] 0 (restart freshAssembler) =
      unpackOp 0 ["loop:", "beq", "x1", "x2", "loop"] 0 (restart freshAssembler) := by
    simp [unpackOp, restart, freshAssembler]
  simp only [assembleLines, unpackLines, e]
  decide

/-- C8. For `call foo` expanded at rows `r` and `r + 1`, with `foo` at a row `t` such that
`(t - r) * 4 = 0x12340`, the `auipc` word has bits 31:12 equal to `0x12` and the `jalr`
word has bits 31:20 equal to `0x340`. -/
theorem call_0x12340 (foo : String) (r t : Int) (s : Assembler)
    (hfoo : (getImmediate foo).2 = false) (ht : mapFind s.m_labelPosMap foo = some t)
    (hoff : (t - r) * 4 = 0x12340) :
    unpackPseudoOp ["call", foo] r s =
      some (r + 2, setUsage (setUsage (setRow (setRow s r ["auipc", "x6", foo]) (r + 1)
        ["jalr", "x1", "x6", foo]) r foo) (r + 1) foo) ∧
    (assembleAuipcInstruction ["auipc", "x6", foo] r s).map
      (fun o => bitsOf (byteArrToUint o.1) 31 12) = some 0x12 ∧
    (assembleJalrInstruction ["jalr", "x1", "x6", foo] (r + 1) s).map
      (fun o => bitsOf (byteArrToUint o.1) 31 20) = some 0x340 := by
  have hoff2 : (t - (r + 1) + 1) * 4 = 0x12340 := by omega
  have hc : mapContains s.m_labelPosMap foo = true := mapContains_of_find ht
  refine ⟨rfl, ?_, ?_⟩
  · simp [assembleAuipcInstruction, hfoo, labelPosAt, ht, hoff, hc, wrapInt]
    rfl
  · simp [assembleJalrInstruction, hfoo, labelPosAt, ht, hoff2, hc]
    rfl

/-- Witness of C8: `call foo` at row 0 with `foo` at row `0x48D0`. -/
theorem call_0x12340_witness :
    unpackPseudoOp ["call", "foo"] 0 { freshAssembler with m_labelPosMap := [("foo", 0x48D0)] } =
      some (0 + 2, setUsage (setUsage (setRow (setRow
        { freshAssembler with m_labelPosMap := [("foo", 0x48D0)] } 0 ["auipc", "x6", "foo"])
        (0 + 1) ["jalr", "x1", "x6", "foo"]) 0 "foo") (0 + 1) "foo") ∧
    (assembleAuipcInstruction ["auipc", "x6", "foo"] 0
      { freshAssembler with m_labelPosMap := [("foo", 0x48D0)] }).map
      (fun o => bitsOf (byteArrToUint o.1) 31 12) = some 0x12 ∧
    (assembleJalrInstruction ["jalr", "x1", "x6", "foo"] (0 + 1)
      { freshAssembler with m_labelPosMap := [("foo", 0x48D0)] }).map
      (fun o => bitsOf (byteArrToUint o.1) 31 20) = some 0x340 :=
  call_0x12340 "foo" 0 0x48D0 { freshAssembler with m_labelPosMap := [("foo", 0x48D0)] }
    (by decide) (by decide) (by decide)

set_option maxRecDepth 20000 in
/-- C7 (the code at the failing input). With `DATASTART = 0x10000000`, a data segment of
512 bytes before the label `foo` and `la x5, foo` as the first instruction, `foo` has the
address `0x4000200` and lies `0x10000800` bytes after row 0; the `auipc` word carries the
upper immediate `0x10000000` and the `addi` word the low immediate -2048, which add up to
`0x0FFFF800`.  The same happens with a text label 512 rows after the `auipc`: upper
immediate 0, low immediate -2048, for a byte offset of 2048. -/
theorem la_low12_not_compensated :
    (assembleLines 0x10000000
        [[".data"], [".string", String.mk (List.replicate 512 'a')], ["foo:", ".word", "1"],
         [".text"], ["la", "x5", "foo"]] freshAssembler).map
      (fun a => (a.m_instructionsMap, a.m_labelPosMap,
        decodeUImmediate (byteArrToUint (a.m_textSegment.take 4)),
        decodeIImmediate (byteArrToUint (a.m_textSegment.drop 4)))) =
      some ([(0, ["auipc", "x5", "foo"]), (1, ["addi", "x5", "x5", "foo"])],
        [("foo", 0x4000200)], 0x10000000, -2048) ∧
    wrapInt (0x10000000 + -2048) ≠ wrapInt ((0x4000200 - 0) * 4) ∧
    (assembleAuipcInstruction ["auipc", "x5", "foo"] 0
      { freshAssembler with m_labelPosMap := [("foo", 512)] }).map
      (fun o => decodeUImmediate (byteArrToUint o.1)) = some 0 ∧
    (assembleOpImmInstruction ["addi", "x5", "x5", "foo"] 1
      { freshAssembler with m_labelPosMap := [("foo", 512)] }).map
      (fun o => decodeIImmediate (byteArrToUint o.1)) = some (-2048) ∧
    wrapInt (0 + -2048) ≠ wrapInt ((512 - 0) * 4) := by
  decide

/-! ## Bit fields of the emitted words -/

theorem bitsOf_lor (a b hi lo : Nat) :
    bitsOf (a ||| b) hi lo = bitsOf a hi lo ||| bitsOf b hi lo := by
  unfold bitsOf
  apply Nat.eq_of_testBit_eq
  intro i
  simp [Nat.testBit_mod_two_pow, Nat.testBit_shiftRight, Bool.and_or_distrib_left]

theorem shl32_lt (x n : Nat) : shl32 x n < 2 ^ 32 := Nat.mod_lt _ (by norm_num)

theorem byteArrToUint_uintToByteArr (w : Nat) (h : w < 2 ^ 32) :
    byteArrToUint (uintToByteArr w) = w := by
  have e : (0xff : Nat) = 2 ^ 8 - 1 := by norm_num
  simp only [uintToByteArr, uintToByteArrLoop, List.nil_append, List.cons_append,
    byteArrToUint, e, Nat.and_pow_two_sub_one_eq_mod, Nat.shiftRight_eq_div_pow]
  omega

theorem decodeBImmediate_lor (R X : Nat) (h31 : bitsOf R 31 31 = 0) (h7 : bitsOf R 7 7 = 0)
    (h30 : bitsOf R 30 25 = 0) (h11 : bitsOf R 11 8 = 0) :
    decodeBImmediate (R ||| X) = decodeBImmediate X := by
  simp [decodeBImmediate, bitsOf_lor, h31, h7, h30, h11]

theorem bfields_reg15 : ∀ n, n ≤ 31 → bitsOf (shl32 n 15) 31 31 = 0 ∧ bitsOf (shl32 n 15) 7 7 = 0 ∧
    bitsOf (shl32 n 15) 30 25 = 0 ∧ bitsOf (shl32 n 15) 11 8 = 0 := by decide

theorem bfields_reg20 : ∀ n, n ≤ 31 → bitsOf (shl32 n 20) 31 31 = 0 ∧ bitsOf (shl32 n 20) 7 7 = 0 ∧
    bitsOf (shl32 n 20) 30 25 = 0 ∧ bitsOf (shl32 n 20) 11 8 = 0 := by decide

theorem bfields_funct3 : ∀ n, n ≤ 7 → bitsOf (shl32 n 12) 31 31 = 0 ∧ bitsOf (shl32 n 12) 7 7 = 0 ∧
    bitsOf (shl32 n 12) 30 25 = 0 ∧ bitsOf (shl32 n 12) 11 8 = 0 := by decide

theorem branchOffsetBits_decode_grid : ∀ i : Nat, i < 32 → ∀ j : Nat, j < 64 →
    decodeBImmediate
      (branchOffsetBits (toUInt32 (wrapInt ((((64 * i + j : Nat) : Int) - 1024) * 4)))) =
      (((64 * i + j : Nat) : Int) - 1024) * 4 := by
  decide

theorem branchOffsetBits_decode (k : Nat) (h : k < 2048) :
    decodeBImmediate (branchOffsetBits (toUInt32 (wrapInt (((k : Int) - 1024) * 4)))) =
      ((k : Int) - 1024) * 4 := by
  obtain ⟨i, j, hi, hj, rfl⟩ : ∃ i j, i < 32 ∧ j < 64 ∧ k = 64 * i + j :=
    ⟨k / 64, k % 64, by omega, by omega, by omega⟩
  exact branchOffsetBits_decode_grid i hi j hj


theorem or_regroup (c a b x1 x2 x3 x4 f : Nat) :
    c ||| a ||| b ||| x1 ||| x2 ||| x3 ||| x4 ||| f =
      (c ||| a ||| b ||| f) ||| (x1 ||| x2 ||| x3 ||| x4) := by
  ac_rfl

theorem branchOffsetBits_lt (offset : Nat) : branchOffsetBits offset < 2 ^ 32 := by
  have h1 : offset &&& 0x800 ≤ 0x800 := Nat.and_le_right
  have h2 : (offset &&& 0x800) >>> 4 ≤ offset &&& 0x800 := by
    rw [Nat.shiftRight_eq_div_pow]
    exact Nat.div_le_self _ _
  have hX : (offset &&& 0x800) >>> 4 < 2 ^ 32 := by omega
  exact Nat.or_lt_two_pow (Nat.or_lt_two_pow (Nat.or_lt_two_pow (shl32_lt _ _) hX)
    (shl32_lt _ _)) (shl32_lt _ _)

theorem branch_word_decode (f3 ra rb : Nat) (d : Int) (hf : f3 ≤ 7) (ha : ra ≤ 31)
    (hb : rb ≤ 31) (hlo : -4096 ≤ d * 4) (hhi : d * 4 ≤ 4094) :
    decodeBImmediate (byteArrToUint (uintToByteArr
      (BRANCH ||| shl32 ra 15 ||| shl32 rb 20 |||
        shl32 (toUInt32 (wrapInt (d * 4)) &&& 0b11110) 7 |||
        (toUInt32 (wrapInt (d * 4)) &&& 0x800) >>> 4 |||
        shl32 (toUInt32 (wrapInt (d * 4)) &&& 0x7E0) 20 |||
        shl32 (toUInt32 (wrapInt (d * 4)) &&& 0x1000) 19 ||| shl32 f3 12))) = d * 4 := by
  have hB : BRANCH < 2 ^ 32 := by decide
  obtain ⟨a1, a2, a3, a4⟩ := bfields_reg15 ra ha
  obtain ⟨b1, b2, b3, b4⟩ := bfields_reg20 rb hb
  obtain ⟨c1, c2, c3, c4⟩ := bfields_funct3 f3 hf
  have hR : BRANCH ||| shl32 ra 15 ||| shl32 rb 20 ||| shl32 f3 12 < 2 ^ 32 :=
    Nat.or_lt_two_pow (Nat.or_lt_two_pow (Nat.or_lt_two_pow hB (shl32_lt _ _))
      (shl32_lt _ _)) (shl32_lt _ _)
  have regroup :
      BRANCH ||| shl32 ra 15 ||| shl32 rb 20 |||
        shl32 (toUInt32 (wrapInt (d * 4)) &&& 0b11110) 7 |||
        (toUInt32 (wrapInt (d * 4)) &&& 0x800) >>> 4 |||
        shl32 (toUInt32 (wrapInt (d * 4)) &&& 0x7E0) 20 |||
        shl32 (toUInt32 (wrapInt (d * 4)) &&& 0x1000) 19 ||| shl32 f3 12 =
      (BRANCH ||| shl32 ra 15 ||| shl32 rb 20 ||| shl32 f3 12) |||
        branchOffsetBits (toUInt32 (wrapInt (d * 4))) :=
    or_regroup BRANCH (shl32 ra 15) (shl32 rb 20)
      (shl32 (toUInt32 (wrapInt (d * 4)) &&& 0b11110) 7)
      ((toUInt32 (wrapInt (d * 4)) &&& 0x800) >>> 4)
      (shl32 (toUInt32 (wrapInt (d * 4)) &&& 0x7E0) 20)
      (shl32 (toUInt32 (wrapInt (d * 4)) &&& 0x1000) 19) (shl32 f3 12)
  rw [regroup, byteArrToUint_uintToByteArr _
    (Nat.or_lt_two_pow hR (branchOffsetBits_lt (toUInt32 (wrapInt (d * 4))))),
    decodeBImmediate_lor]
  · obtain ⟨k, hk, rfl⟩ : ∃ k : Nat, k < 2048 ∧ d = (k : Int) - 1024 :=
      ⟨(d + 1024).toNat, by omega, by omega⟩
    exact branchOffsetBits_decode k hk
  · rw [bitsOf_lor, bitsOf_lor, bitsOf_lor, a1, b1, c1]; decide
  · rw [bitsOf_lor, bitsOf_lor, bitsOf_lor, a2, b2, c2]; decide
  · rw [bitsOf_lor, bitsOf_lor, bitsOf_lor, a3, b3, c3]; decide
  · rw [bitsOf_lor, bitsOf_lor, bitsOf_lor, a4, b4, c4]; decide


/-- C5. For every branch mnemonic, register fields that resolve to numbers in [0, 31] and
a row `r` whose label is at row `t` with `-4096 ≤ (t - r) * 4 ≤ 4094`, the B-type immediate
decoded from the word that `assembleBranchInstruction` produces is `(t - r) * 4`. -/
theorem branch_immediate_roundtrip (mn a b lbl : String) (r t : Int) (s : Assembler)
    (hmn : mn ∈ branchInstructions) (ha : getRegisterNumber a ≤ 31)
    (hb : getRegisterNumber b ≤ 31) (ht : mapFind s.m_labelPosMap lbl = some t)
    (hlo : -4096 ≤ (t - r) * 4) (hhi : (t - r) * 4 ≤ 4094) :
    (assembleBranchInstruction [mn, a, b, lbl] r s).map
      (fun o => decodeBImmediate (byteArrToUint o.1)) = some ((t - r) * 4) := by
  simp only [branchInstructions, List.mem_cons, List.mem_singleton, List.not_mem_nil,
    or_false] at hmn
  rcases hmn with rfl | rfl | rfl | rfl | rfl | rfl
  · simp [assembleBranchInstruction, labelPosAt_of_find ht]
    exact branch_word_decode 0 _ _ _ (by decide) ha hb hlo hhi
  · simp [assembleBranchInstruction, labelPosAt_of_find ht]
    exact branch_word_decode 1 _ _ _ (by decide) ha hb hlo hhi
  · simp [assembleBranchInstruction, labelPosAt_of_find ht]
    exact branch_word_decode 4 _ _ _ (by decide) ha hb hlo hhi
  · simp [assembleBranchInstruction, labelPosAt_of_find ht]
    exact branch_word_decode 5 _ _ _ (by decide) ha hb hlo hhi
  · simp [assembleBranchInstruction, labelPosAt_of_find ht]
    exact branch_word_decode 6 _ _ _ (by decide) ha hb hlo hhi
  · simp [assembleBranchInstruction, labelPosAt_of_find ht]
    exact branch_word_decode 7 _ _ _ (by decide) ha hb hlo hhi

/-- Witness of C5: `beq x1, x2, back` at row 3 with `back` defined 3 rows earlier encodes
the offset -12. -/
theorem branch_immediate_roundtrip_witness :
    (assembleBranchInstruction ["beq", "x1", "x2", "back"] 3
        { freshAssembler with m_labelPosMap := [("back", 0)] }).map
      (fun o => decodeBImmediate (byteArrToUint o.1)) = some ((0 - 3) * 4) :=
  branch_immediate_roundtrip "beq" "x1" "x2" "back" 3 0
    { freshAssembler with m_labelPosMap := [("back", 0)] }
    (by decide) (by decide) (by decide) (by decide) (by decide) (by decide)


/-! ## The two passes and the text segment -/

theorem uintToByteArr_length (w : Nat) : (uintToByteArr w).length = 4 := rfl

theorem labelPosAt_frame (s : Assembler) (key : String) :
    (labelPosAt s key).2.m_instructionsMap = s.m_instructionsMap ∧
    (labelPosAt s key).2.m_textSegment = s.m_textSegment ∧
    (labelPosAt s key).2.m_error = s.m_error := by
  unfold labelPosAt
  split <;> simp

theorem ite_pred {α : Type} (P : α → Prop) (c : Prop) [Decidable c] (a b : α)
    (ha : P a) (hb : P b) : P (if c then a else b) := by
  split <;> assumption

theorem labelRead_frame (s : Assembler) (key : String) :
    (labelPosAt { s with m_error := s.m_error || !mapContains s.m_labelPosMap key }
        key).2.m_instructionsMap = s.m_instructionsMap ∧
    (labelPosAt { s with m_error := s.m_error || !mapContains s.m_labelPosMap key }
        key).2.m_textSegment = s.m_textSegment ∧
    (s.m_error = true →
      (labelPosAt { s with m_error := s.m_error || !mapContains s.m_labelPosMap key }
        key).2.m_error = true) := by
  obtain ⟨h1, h2, h3⟩ :=
    labelPosAt_frame { s with m_error := s.m_error || !mapContains s.m_labelPosMap key } key
  refine ⟨h1, h2, fun he => ?_⟩
  rw [h3]
  simp [he]

theorem assembleOpImmInstruction_frame {fields : List String} {row : Int} {s s' : Assembler}
    {bytes : List Nat} (h : assembleOpImmInstruction fields row s = some (bytes, s')) :
    bytes.length = 4 ∧ s'.m_instructionsMap = s.m_instructionsMap ∧
    s'.m_textSegment = s.m_textSegment ∧ (s.m_error = true → s'.m_error = true) := by
  unfold assembleOpImmInstruction at h
  simp only [Option.bind_eq_bind, Option.bind_eq_some, Option.pure_def, Option.some.injEq,
    Prod.mk.injEq] at h
  obtain ⟨f0, -, f1, -, f2, -, f3, -, hb, hs⟩ := h
  subst hb hs
  refine ⟨uintToByteArr_length _, ?_⟩
  split_ifs <;> first | exact labelRead_frame s f3 | simp

theorem assembleOpInstruction_frame {fields : List String} {row : Int} {s s' : Assembler}
    {bytes : List Nat} (h : assembleOpInstruction fields row s = some (bytes, s')) :
    bytes.length = 4 ∧ s'.m_instructionsMap = s.m_instructionsMap ∧
    s'.m_textSegment = s.m_textSegment ∧ (s.m_error = true → s'.m_error = true) := by
  unfold assembleOpInstruction at h
  simp only [Option.bind_eq_bind, Option.bind_eq_some, Option.pure_def, Option.some.injEq,
    Prod.mk.injEq] at h
  obtain ⟨f0, -, f1, -, f2, -, f3, -, hb, hs⟩ := h
  subst hb hs
  refine ⟨uintToByteArr_length _, ?_⟩
  have main : ∀ x : (Nat × Nat) × Assembler,
      (x.2 = s ∨ x.2 = { s with m_error := true }) →
      x.2.m_instructionsMap = s.m_instructionsMap ∧ x.2.m_textSegment = s.m_textSegment ∧
        (s.m_error = true → x.2.m_error = true) := by
    rintro x (hx | hx) <;> simp [hx]
  refine main _ ?_
  repeat' first
    | exact Or.inl rfl
    | exact Or.inr rfl
    | refine ite_pred (fun x : (Nat × Nat) × Assembler =>
        x.2 = s ∨ x.2 = { s with m_error := true }) _ _ _ ?_ ?_

theorem offsetOrLabel_frame (field : String) (row : Int) (s : Assembler) :
    (offsetOrLabel field row s).2.m_instructionsMap = s.m_instructionsMap ∧
    (offsetOrLabel field row s).2.m_textSegment = s.m_textSegment ∧
    (s.m_error = true → (offsetOrLabel field row s).2.m_error = true) := by
  unfold offsetOrLabel
  dsimp only
  split_ifs
  · simp
  · exact labelRead_frame s field

theorem assembleStoreInstruction_frame {fields : List String} {row : Int} {s s' : Assembler}
    {bytes : List Nat} (h : assembleStoreInstruction fields row s = some (bytes, s')) :
    bytes.length = 4 ∧ s'.m_instructionsMap = s.m_instructionsMap ∧
    s'.m_textSegment = s.m_textSegment ∧ (s.m_error = true → s'.m_error = true) := by
  unfold assembleStoreInstruction at h
  simp only [Option.bind_eq_bind, Option.bind_eq_some, Option.pure_def, Option.some.injEq,
    Prod.mk.injEq] at h
  obtain ⟨f0, -, f1, -, f2, -, f3, -, hb, hs⟩ := h
  subst hb hs
  refine ⟨uintToByteArr_length _, ?_⟩
  split_ifs
  all_goals
    refine ⟨(offsetOrLabel_frame f2 row _).1, (offsetOrLabel_frame f2 row _).2.1, fun he => ?_⟩
    exact (offsetOrLabel_frame f2 row _).2.2 (by simp [he])

theorem assembleLoadInstruction_frame {fields : List String} {row : Int} {s s' : Assembler}
    {bytes : List Nat} (h : assembleLoadInstruction fields row s = some (bytes, s')) :
    bytes.length = 4 ∧ s'.m_instructionsMap = s.m_instructionsMap ∧
    s'.m_textSegment = s.m_textSegment ∧ (s.m_error = true → s'.m_error = true) := by
  unfold assembleLoadInstruction at h
  simp only [Option.bind_eq_bind, Option.bind_eq_some, Option.pure_def, Option.some.injEq,
    Prod.mk.injEq] at h
  obtain ⟨f0, -, f1, -, f2, -, f3, -, hb, hs⟩ := h
  subst hb hs
  refine ⟨uintToByteArr_length _, ?_⟩
  split_ifs
  all_goals
    refine ⟨(offsetOrLabel_frame f2 row _).1, (offsetOrLabel_frame f2 row _).2.1, fun he => ?_⟩
    exact (offsetOrLabel_frame f2 row _).2.2 (by simp [he])

theorem assembleBranchInstruction_frame {fields : List String} {row : Int} {s s' : Assembler}
    {bytes : List Nat} (h : assembleBranchInstruction fields row s = some (bytes, s')) :
    bytes.length = 4 ∧ s'.m_instructionsMap = s.m_instructionsMap ∧
    s'.m_textSegment = s.m_textSegment ∧ (s.m_error = true → s'.m_error = true) := by
  unfold assembleBranchInstruction at h
  simp only [Option.bind_eq_bind, Option.bind_eq_some, Option.pure_def, Option.some.injEq,
    Prod.mk.injEq] at h
  obtain ⟨f0, -, f1, -, f2, -, f3, -, hb, hs⟩ := h
  subst hb hs
  refine ⟨uintToByteArr_length _, ?_⟩
  obtain ⟨h1, h2, h3⟩ := labelPosAt_frame s f3
  split_ifs <;> simp [h1, h2, h3]

theorem assembleAuipcInstruction_frame {fields : List String} {row : Int} {s s' : Assembler}
    {bytes : List Nat} (h : assembleAuipcInstruction fields row s = some (bytes, s')) :
    bytes.length = 4 ∧ s'.m_instructionsMap = s.m_instructionsMap ∧
    s'.m_textSegment = s.m_textSegment ∧ (s.m_error = true → s'.m_error = true) := by
  unfold assembleAuipcInstruction at h
  simp only [Option.bind_eq_bind, Option.bind_eq_some, Option.pure_def, Option.some.injEq,
    Prod.mk.injEq] at h
  obtain ⟨f1, -, f2, -, hb, hs⟩ := h
  subst hb hs
  refine ⟨uintToByteArr_length _, ?_⟩
  split_ifs <;> first | exact labelRead_frame s f2 | simp

theorem assembleJalrInstruction_frame {fields : List String} {row : Int} {s s' : Assembler}
    {bytes : List Nat} (h : assembleJalrInstruction fields row s = some (bytes, s')) :
    bytes.length = 4 ∧ s'.m_instructionsMap = s.m_instructionsMap ∧
    s'.m_textSegment = s.m_textSegment ∧ (s.m_error = true → s'.m_error = true) := by
  unfold assembleJalrInstruction at h
  simp only [Option.bind_eq_bind, Option.bind_eq_some, Option.pure_def, Option.some.injEq,
    Prod.mk.injEq] at h
  obtain ⟨f1, -, f2, -, f3, -, hb, hs⟩ := h
  subst hb hs
  refine ⟨uintToByteArr_length _, ?_⟩
  split_ifs <;> first | exact labelRead_frame s f3 | simp


theorem appendText_frame {o : Option (List Nat × Assembler)} {s s' : Assembler}
    (hframe : ∀ bytes u, o = some (bytes, u) →
      bytes.length = 4 ∧ u.m_instructionsMap = s.m_instructionsMap ∧
      u.m_textSegment = s.m_textSegment ∧ (s.m_error = true → u.m_error = true))
    (h : appendText o = some s') :
    s'.m_instructionsMap = s.m_instructionsMap ∧
    s'.m_textSegment.length = s.m_textSegment.length + 4 ∧
    (s.m_error = true → s'.m_error = true) := by
  cases o with
  | none => simp [appendText] at h
  | some p =>
    obtain ⟨bytes, u⟩ := p
    obtain ⟨h1, h2, h3, h4⟩ := hframe bytes u rfl
    simp only [appendText, Option.map_some', Option.some.injEq] at h
    subst h
    simp [h1, h2, h3]
    exact h4

theorem assembleInstruction_text {fields : List String} {row : Int} {s s' : Assembler}
    (h : assembleInstruction fields row s = some s') :
    s'.m_instructionsMap = s.m_instructionsMap ∧
    s'.m_textSegment.length =
      s.m_textSegment.length + (if knownInstruction fields = true then 4 else 0) ∧
    (s.m_error = true → s'.m_error = true) ∧
    (knownInstruction fields = false → s'.m_error = true) := by
  cases fields with
  | nil => simp [assembleInstruction] at h
  | cons instruction rest =>
    have wrap : ∀ {o : Option (List Nat × Assembler)},
        (∀ bytes u, o = some (bytes, u) →
          bytes.length = 4 ∧ u.m_instructionsMap = s.m_instructionsMap ∧
          u.m_textSegment = s.m_textSegment ∧ (s.m_error = true → u.m_error = true)) →
        appendText o = some s' → knownInstruction (instruction :: rest) = true →
        s'.m_instructionsMap = s.m_instructionsMap ∧
        s'.m_textSegment.length =
          s.m_textSegment.length +
            (if knownInstruction (instruction :: rest) = true then 4 else 0) ∧
        (s.m_error = true → s'.m_error = true) ∧
        (knownInstruction (instruction :: rest) = false → s'.m_error = true) := by
      intro o hf ha hk
      obtain ⟨h1, h2, h3⟩ := appendText_frame hf ha
      refine ⟨h1, ?_, h3, ?_⟩
      · simp [hk, h2]
      · simp [hk]
    simp only [assembleInstruction, List.getElem?_cons_zero, Option.bind_eq_bind,
      Option.some_bind] at h
    by_cases h1 : instruction ∈ opImmInstructions
    · rw [if_pos h1] at h
      exact wrap (fun _ _ hh => assembleOpImmInstruction_frame hh) h
        (by simp [knownInstruction, h1])
    rw [if_neg h1] at h
    by_cases h2 : instruction ∈ opInstructions
    · rw [if_pos h2] at h
      exact wrap (fun _ _ hh => assembleOpInstruction_frame hh) h
        (by simp [knownInstruction, h2])
    rw [if_neg h2] at h
    by_cases h3 : instruction ∈ storeInstructions
    · rw [if_pos h3] at h
      exact wrap (fun _ _ hh => assembleStoreInstruction_frame hh) h
        (by simp [knownInstruction, h3])
    rw [if_neg h3] at h
    by_cases h4 : instruction ∈ loadInstructions
    · rw [if_pos h4] at h
      exact wrap (fun _ _ hh => assembleLoadInstruction_frame hh) h
        (by simp [knownInstruction, h4])
    rw [if_neg h4] at h
    by_cases h5 : instruction ∈ branchInstructions
    · rw [if_pos h5] at h
      exact wrap (fun _ _ hh => assembleBranchInstruction_frame hh) h
        (by simp [knownInstruction, h5])
    rw [if_neg h5] at h
    by_cases h6 : instruction = "jalr"
    · rw [if_pos h6] at h
      exact wrap (fun _ _ hh => assembleJalrInstruction_frame hh) h
        (by simp [knownInstruction, h6])
    rw [if_neg h6] at h
    by_cases h7 : instruction = "lui"
    · rw [if_pos h7] at h
      simp only [Option.bind_eq_some] at h
      obtain ⟨f1, -, f2, -, h⟩ := h
      refine wrap ?_ h (by simp [knownInstruction, h7])
      intro bytes u hh
      simp only [Option.some.injEq, Prod.mk.injEq] at hh
      obtain ⟨rfl, rfl⟩ := hh
      exact ⟨uintToByteArr_length _, rfl, rfl, id⟩
    rw [if_neg h7] at h
    by_cases h8 : instruction = "auipc"
    · rw [if_pos h8] at h
      exact wrap (fun _ _ hh => assembleAuipcInstruction_frame hh) h
        (by simp [knownInstruction, h8])
    rw [if_neg h8] at h
    by_cases h9 : instruction = "jal"
    · rw [if_pos h9] at h
      simp only [Option.bind_eq_some] at h
      obtain ⟨f1, -, f2, -, h⟩ := h
      refine wrap ?_ h (by simp [knownInstruction, h9])
      intro bytes u hh
      simp only [Option.some.injEq, Prod.mk.injEq] at hh
      obtain ⟨rfl, rfl⟩ := hh
      obtain ⟨e1, e2, e3⟩ := labelPosAt_frame s f2
      exact ⟨uintToByteArr_length _, e1, e2, fun he => by rw [e3]; exact he⟩
    rw [if_neg h9] at h
    by_cases h10 : instruction = "ecall"
    · rw [if_pos h10] at h
      refine wrap ?_ h (by simp [knownInstruction, h10])
      intro bytes u hh
      simp only [Option.some.injEq, Prod.mk.injEq] at hh
      obtain ⟨rfl, rfl⟩ := hh
      exact ⟨uintToByteArr_length _, rfl, rfl, id⟩
    rw [if_neg h10] at h
    simp only [Option.some.injEq] at h
    subst h
    have hk : knownInstruction (instruction :: rest) = false := by
      simp [knownInstruction, h1, h2, h3, h4, h5, h6, h7, h8, h9, h10]
    simp [hk]

theorem assembleRows_text {rows : List (Int × List String)} {s s' : Assembler}
    (h : assembleRows rows s = some s') :
    s'.m_instructionsMap = s.m_instructionsMap ∧
    s'.m_textSegment.length =
      s.m_textSegment.length + 4 * (rows.filter (fun item => knownInstruction item.2)).length ∧
    (s.m_error = true → s'.m_error = true) ∧
    (s'.m_error = false → ∀ item ∈ rows, knownInstruction item.2 = true) := by
  induction rows generalizing s with
  | nil =>
    simp only [assembleRows, Option.some.injEq] at h
    subst h
    simp
  | cons item rest ih =>
    simp only [assembleRows, Option.bind_eq_some] at h
    obtain ⟨u, hu, hrest⟩ := h
    obtain ⟨a1, a2, a3, a4⟩ := assembleInstruction_text hu
    obtain ⟨b1, b2, b3, b4⟩ := ih hrest
    refine ⟨b1.trans a1, ?_, fun he => b3 (a3 he), ?_⟩
    · rw [b2, a2, List.filter_cons]
      split_ifs <;> simp_all
      omega
    · intro he it hit
      rcases List.mem_cons.mp hit with rfl | hm
      · by_contra hk
        have hk2 : knownInstruction it.2 = false := by simpa using hk
        have := b3 (a4 hk2)
        simp [he] at this
      · exact b4 he it hm


theorem bind_pred {α β : Type} (P : Option β → Prop) (o : Option α) (f : α → Option β)
    (hnone : P none) (h : ∀ x, P (f x)) : P (o.bind f) := by
  cases o with
  | none => exact hnone
  | some x => exact h x

theorem unpackPseudoOp_text (fields : List String) (pos : Int) (s : Assembler) :
    ∀ r, unpackPseudoOp fields pos s = some r → r.2.m_textSegment = s.m_textSegment := by
  unfold unpackPseudoOp
  simp only [Option.bind_eq_bind]
  repeat' first
    | (intro r hr; cases hr <;> rfl)
    | refine ite_pred (fun o : Option (Int × Assembler) =>
        ∀ r, o = some r → r.2.m_textSegment = s.m_textSegment) _ _ _ ?_ ?_
    | refine bind_pred (fun o : Option (Int × Assembler) =>
        ∀ r, o = some r → r.2.m_textSegment = s.m_textSegment) _ _ ?_ (fun x => ?_)

theorem assembleAssemblerDirective_text (fields : List String) (s : Assembler) :
    ∀ u, assembleAssemblerDirective fields s = some u → u.m_textSegment = s.m_textSegment := by
  unfold assembleAssemblerDirective
  simp only [Option.bind_eq_bind]
  repeat' first
    | (intro r hr; cases hr <;> rfl)
    | refine ite_pred (fun o : Option Assembler =>
        ∀ u, o = some u → u.m_textSegment = s.m_textSegment) _ _ _ ?_ ?_
    | refine bind_pred (fun o : Option Assembler =>
        ∀ u, o = some u → u.m_textSegment = s.m_textSegment) _ _ ?_ (fun x => ?_)

theorem unpackOperation_text (fields : List String) (pos : Int) (s : Assembler) :
    ∀ r, unpackOperation fields pos s = some r → r.2.m_textSegment = s.m_textSegment := by
  unfold unpackOperation
  simp only [Option.bind_eq_bind]
  refine bind_pred (fun o : Option (Int × Assembler) =>
    ∀ r, o = some r → r.2.m_textSegment = s.m_textSegment) _ _ ?_ (fun f0 => ?_)
  · intro r hr; cases hr
  refine ite_pred (fun o : Option (Int × Assembler) =>
    ∀ r, o = some r → r.2.m_textSegment = s.m_textSegment) _ _ _ ?_ ?_
  · exact unpackPseudoOp_text fields pos s
  refine ite_pred (fun o : Option (Int × Assembler) =>
    ∀ r, o = some r → r.2.m_textSegment = s.m_textSegment) _ _ _ ?_ ?_
  · intro r hr
    simp only [Option.map_eq_some'] at hr
    obtain ⟨u, hu, rfl⟩ := hr
    exact assembleAssemblerDirective_text fields s u hu
  · refine bind_pred (fun o : Option (Int × Assembler) =>
      ∀ r, o = some r → r.2.m_textSegment = s.m_textSegment) _ _ ?_ (fun last => ?_)
    · intro r hr; cases hr
    · intro r hr
      cases hr
      dsimp only
      split <;> rfl

theorem unpackOp_text (D : Nat) (fields : List String) (pos : Int) (s : Assembler) :
    ∀ r, unpackOp D fields pos s = some r → r.2.m_textSegment = s.m_textSegment := by
  unfold unpackOp
  simp only [Option.bind_eq_bind]
  refine bind_pred (fun o : Option (Int × Assembler) =>
    ∀ r, o = some r → r.2.m_textSegment = s.m_textSegment) _ _ ?_ (fun string => ?_)
  · intro r hr; cases hr
  refine ite_pred (fun o : Option (Int × Assembler) =>
    ∀ r, o = some r → r.2.m_textSegment = s.m_textSegment) _ _ _ ?_ ?_
  · refine bind_pred (fun o : Option (Int × Assembler) =>
      ∀ r, o = some r → r.2.m_textSegment = s.m_textSegment) _ _ ?_ (fun label => ?_)
    · intro r hr; cases hr
    refine ite_pred (fun o : Option (Int × Assembler) =>
      ∀ r, o = some r → r.2.m_textSegment = s.m_textSegment) _ _ _ ?_ ?_
    all_goals
      refine bind_pred (fun o : Option (Int × Assembler) =>
        ∀ r, o = some r → r.2.m_textSegment = s.m_textSegment) _ _ ?_ (fun y => ?_)
      · intro r hr; cases hr
      refine ite_pred (fun o : Option (Int × Assembler) =>
        ∀ r, o = some r → r.2.m_textSegment = s.m_textSegment) _ _ _ ?_ ?_
      · intro r hr; cases hr; rfl
      · intro r hr
        have h := unpackOperation_text _ _ _ r hr
        exact h
  · exact unpackOperation_text _ _ _

theorem unpackLines_text (D : Nat) (lines : List (List String)) (line : Int) (s : Assembler) :
    ∀ r, unpackLines D lines line s = some r → r.2.m_textSegment = s.m_textSegment := by
  induction lines generalizing line s with
  | nil =>
    intro r hr
    simp only [unpackLines, Option.some.injEq] at hr
    subst hr
    rfl
  | cons fields rest ih =>
    intro r hr
    simp only [unpackLines] at hr
    split_ifs at hr
    · simp only [Option.bind_eq_some] at hr
      obtain ⟨u, hu, hrest⟩ := hr
      rw [ih _ _ r hrest]
      exact unpackOp_text D fields line s u hu
    · exact ih _ _ r hr


/-- C1 (counterexample). The document with the two lines `nop` and `foo` leaves two rows in
the instruction map and a text segment of 4 bytes, not 8: the row `foo` has no encoding, it
sets the error flag and emits nothing. -/
theorem unknown_mnemonic_emits_nothing :
    (assembleBinaryFile 0x10000000 splitQuotes ["nop", "foo"] freshAssembler).map
      (fun a => (a.m_textSegment.length, a.m_instructionsMap.length, a.m_error)) =
      some (4, 2, true) := by
  decide

/-- C1 (amended). After `assembleBinaryFile` finishes, the length of the text segment is 4
times the number of rows of the instruction map whose mnemonic `assembleInstruction`
encodes; so it is 4 times the number of rows whenever the error flag is not set. -/
theorem assembleBinaryFile_text_length (D : Nat) (sq : List String → List String)
    (doc : List String) (prior a : Assembler)
    (h : assembleBinaryFile D sq doc prior = some a) :
    a.m_textSegment.length =
      4 * (a.m_instructionsMap.filter (fun item => knownInstruction item.2)).length ∧
    (a.m_error = false → a.m_textSegment.length = 4 * a.m_instructionsMap.length) := by
  simp only [assembleBinaryFile, assembleLines, Option.bind_eq_some] at h
  obtain ⟨r, hr, ha⟩ := h
  have h1 : r.2.m_textSegment = [] := unpackLines_text D _ 0 (restart prior) r hr
  obtain ⟨e1, e2, -, e4⟩ := assembleRows_text ha
  have hlen : a.m_textSegment.length =
      4 * (a.m_instructionsMap.filter (fun item => knownInstruction item.2)).length := by
    rw [e2, h1, e1]
    simp
  refine ⟨hlen, fun he => ?_⟩
  have hall : ∀ item ∈ a.m_instructionsMap, knownInstruction item.2 = true := by
    rw [e1]
    exact e4 he
  rw [hlen, List.filter_eq_self.mpr hall]

/-- Witness of C1 (amended): the document with the single line `nop`. -/
theorem assembleBinaryFile_text_length_witness :
    ({ freshAssembler with
        m_instructionsMap := [(0, ["addi", "x0", "x0", "0"])],
        m_textSegment := [0x13, 0, 0, 0] } : Assembler).m_textSegment.length =
      4 * (({ freshAssembler with
        m_instructionsMap := [(0, ["addi", "x0", "x0", "0"])],
        m_textSegment := [0x13, 0, 0, 0] } : Assembler).m_instructionsMap.filter
          (fun item => knownInstruction item.2)).length ∧
    (({ freshAssembler with
        m_instructionsMap := [(0, ["addi", "x0", "x0", "0"])],
        m_textSegment := [0x13, 0, 0, 0] } : Assembler).m_error = false →
      ({ freshAssembler with
        m_instructionsMap := [(0, ["addi", "x0", "x0", "0"])],
        m_textSegment := [0x13, 0, 0, 0] } : Assembler).m_textSegment.length =
      4 * ({ freshAssembler with
        m_instructionsMap := [(0, ["addi", "x0", "x0", "0"])],
        m_textSegment := [0x13, 0, 0, 0] } : Assembler).m_instructionsMap.length) :=
  assembleBinaryFile_text_length 0x10000000 splitQuotes ["nop"] freshAssembler
    { freshAssembler with
      m_instructionsMap := [(0, ["addi", "x0", "x0", "0"])],
      m_textSegment := [0x13, 0, 0, 0] }
    (by decide)

/-! ## Fields of the instruction formats -/

theorem testBit_bitsOf (w hi lo i : Nat) :
    (bitsOf w hi lo).testBit i = (decide (i < hi + 1 - lo) && w.testBit (lo + i)) := by
  simp [bitsOf, Nat.testBit_mod_two_pow, Nat.testBit_shiftRight]

theorem testBit_shl32 (x k j : Nat) :
    (shl32 x k).testBit j = (decide (j < 32) && (decide (k ≤ j) && x.testBit (j - k))) := by
  show (x <<< k % 2 ^ 32).testBit j = _
  rw [Nat.testBit_mod_two_pow, Nat.testBit_shiftLeft]

theorem testBit_of_lt_two_pow {x w i : Nat} (hx : x < 2 ^ w) (hi : w ≤ i) :
    x.testBit i = false :=
  Nat.testBit_lt_two_pow (Nat.lt_of_lt_of_le hx (Nat.pow_le_pow_right (by norm_num) hi))

/-- A field that lies below the shifted value is empty. -/
theorem bitsOf_shl32_of_lt (x k hi lo : Nat) (h : hi < k) : bitsOf (shl32 x k) hi lo = 0 := by
  apply Nat.eq_of_testBit_eq
  intro i
  rw [testBit_bitsOf, testBit_shl32, Nat.zero_testBit]
  by_cases h1 : i < hi + 1 - lo
  · have h2 : ¬ k ≤ lo + i := by omega
    simp [h2]
  · simp [h1]

/-- A field that lies above the shifted value is empty. -/
theorem bitsOf_shl32_of_ge (x k w hi lo : Nat) (hx : x < 2 ^ w) (h : k + w ≤ lo) :
    bitsOf (shl32 x k) hi lo = 0 := by
  apply Nat.eq_of_testBit_eq
  intro i
  rw [testBit_bitsOf, testBit_shl32, Nat.zero_testBit]
  have h2 : x.testBit (lo + i - k) = false := testBit_of_lt_two_pow hx (by omega)
  simp [h2]

/-- The field that starts where the value was shifted to. -/
theorem bitsOf_shl32_self (x k hi : Nat) (h : hi ≤ 31) :
    bitsOf (shl32 x k) hi k = x % 2 ^ (hi + 1 - k) := by
  apply Nat.eq_of_testBit_eq
  intro i
  rw [testBit_bitsOf, testBit_shl32, Nat.testBit_mod_two_pow]
  by_cases h1 : i < hi + 1 - k
  · have h2 : k + i < 32 := by omega
    have h3 : k + i - k = i := by omega
    simp [h1, h2, h3]
  · simp [h1]

theorem bitsOf_of_lt (x w hi lo : Nat) (hx : x < 2 ^ w) (h : w ≤ lo) : bitsOf x hi lo = 0 := by
  apply Nat.eq_of_testBit_eq
  intro i
  rw [testBit_bitsOf, Nat.zero_testBit]
  have h2 : x.testBit (lo + i) = false := testBit_of_lt_two_pow hx (by omega)
  simp [h2]

theorem bitsOf_low (x hi : Nat) : bitsOf x hi 0 = x % 2 ^ (hi + 1) := by
  simp [bitsOf]

theorem and_shiftLeft_mask (x m k : Nat) : x &&& (m <<< k) = ((x >>> k) &&& m) <<< k := by
  apply Nat.eq_of_testBit_eq
  intro i
  simp only [Nat.testBit_and, Nat.testBit_shiftLeft, Nat.testBit_shiftRight]
  by_cases h : k ≤ i
  · have e : k + (i - k) = i := by omega
    simp [h, e, Bool.and_comm]
  · simp [h]

theorem rtype_fields (op f3 f7 rd rs1 rs2 : Nat) (hop : op < 2 ^ 7) (h3 : f3 < 2 ^ 3)
    (h7 : f7 < 2 ^ 7) (hrd : rd < 2 ^ 5) (hrs1 : rs1 < 2 ^ 5) (hrs2 : rs2 < 2 ^ 5) :
    bitsOf (op ||| shl32 f3 12 ||| shl32 f7 25 ||| shl32 rd 7 ||| shl32 rs1 15 |||
      shl32 rs2 20) 6 0 = op ∧
    bitsOf (op ||| shl32 f3 12 ||| shl32 f7 25 ||| shl32 rd 7 ||| shl32 rs1 15 |||
      shl32 rs2 20) 11 7 = rd ∧
    bitsOf (op ||| shl32 f3 12 ||| shl32 f7 25 ||| shl32 rd 7 ||| shl32 rs1 15 |||
      shl32 rs2 20) 14 12 = f3 ∧
    bitsOf (op ||| shl32 f3 12 ||| shl32 f7 25 ||| shl32 rd 7 ||| shl32 rs1 15 |||
      shl32 rs2 20) 19 15 = rs1 ∧
    bitsOf (op ||| shl32 f3 12 ||| shl32 f7 25 ||| shl32 rd 7 ||| shl32 rs1 15 |||
      shl32 rs2 20) 24 20 = rs2 ∧
    bitsOf (op ||| shl32 f3 12 ||| shl32 f7 25 ||| shl32 rd 7 ||| shl32 rs1 15 |||
      shl32 rs2 20) 31 25 = f7 := by
  refine ⟨?_, ?_, ?_, ?_, ?_, ?_⟩
  · rw [bitsOf_lor, bitsOf_lor, bitsOf_lor, bitsOf_lor, bitsOf_lor,
      bitsOf_shl32_of_lt f3 12 _ _ (by decide), bitsOf_shl32_of_lt f7 25 _ _ (by decide),
      bitsOf_shl32_of_lt rd 7 _ _ (by decide), bitsOf_shl32_of_lt rs1 15 _ _ (by decide),
      bitsOf_shl32_of_lt rs2 20 _ _ (by decide), bitsOf_low]
    simp only [Nat.or_zero]
    exact Nat.mod_eq_of_lt hop
  · rw [bitsOf_lor, bitsOf_lor, bitsOf_lor, bitsOf_lor, bitsOf_lor,
      bitsOf_of_lt op 7 _ _ hop (by decide),
      bitsOf_shl32_of_lt f3 12 _ _ (by decide), bitsOf_shl32_of_lt f7 25 _ _ (by decide),
      bitsOf_shl32_of_lt rs1 15 _ _ (by decide), bitsOf_shl32_of_lt rs2 20 _ _ (by decide),
      bitsOf_shl32_self rd 7 11 (by decide)]
    simp only [Nat.or_zero, Nat.zero_or]
    exact Nat.mod_eq_of_lt hrd
  · rw [bitsOf_lor, bitsOf_lor, bitsOf_lor, bitsOf_lor, bitsOf_lor,
      bitsOf_of_lt op 7 _ _ hop (by decide),
      bitsOf_shl32_of_ge rd 7 5 _ _ hrd (by decide),
      bitsOf_shl32_of_lt f7 25 _ _ (by decide),
      bitsOf_shl32_of_lt rs1 15 _ _ (by decide), bitsOf_shl32_of_lt rs2 20 _ _ (by decide),
      bitsOf_shl32_self f3 12 14 (by decide)]
    simp only [Nat.or_zero, Nat.zero_or]
    exact Nat.mod_eq_of_lt h3
  · rw [bitsOf_lor, bitsOf_lor, bitsOf_lor, bitsOf_lor, bitsOf_lor,
      bitsOf_of_lt op 7 _ _ hop (by decide),
      bitsOf_shl32_of_ge rd 7 5 _ _ hrd (by decide),
      bitsOf_shl32_of_ge f3 12 3 _ _ h3 (by decide),
      bitsOf_shl32_of_lt f7 25 _ _ (by decide), bitsOf_shl32_of_lt rs2 20 _ _ (by decide),
      bitsOf_shl32_self rs1 15 19 (by decide)]
    simp only [Nat.or_zero, Nat.zero_or]
    exact Nat.mod_eq_of_lt hrs1
  · rw [bitsOf_lor, bitsOf_lor, bitsOf_lor, bitsOf_lor, bitsOf_lor,
      bitsOf_of_lt op 7 _ _ hop (by decide),
      bitsOf_shl32_of_ge rd 7 5 _ _ hrd (by decide),
      bitsOf_shl32_of_ge f3 12 3 _ _ h3 (by decide),
      bitsOf_shl32_of_ge rs1 15 5 _ _ hrs1 (by decide),
      bitsOf_shl32_of_lt f7 25 _ _ (by decide),
      bitsOf_shl32_self rs2 20 24 (by decide)]
    simp only [Nat.or_zero, Nat.zero_or]
    exact Nat.mod_eq_of_lt hrs2
  · rw [bitsOf_lor, bitsOf_lor, bitsOf_lor, bitsOf_lor, bitsOf_lor,
      bitsOf_of_lt op 7 _ _ hop (by decide),
      bitsOf_shl32_of_ge rd 7 5 _ _ hrd (by decide),
      bitsOf_shl32_of_ge f3 12 3 _ _ h3 (by decide),
      bitsOf_shl32_of_ge rs1 15 5 _ _ hrs1 (by decide),
      bitsOf_shl32_of_ge rs2 20 5 _ _ hrs2 (by decide),
      bitsOf_shl32_self f7 25 31 (by decide)]
    simp only [Nat.or_zero, Nat.zero_or]
    exact Nat.mod_eq_of_lt h7

theorem itype_fields (op f3 rd rs1 x : Nat) (hop : op < 2 ^ 7) (h3 : f3 < 2 ^ 3)
    (hrd : rd < 2 ^ 5) (hrs1 : rs1 < 2 ^ 5) :
    bitsOf (op ||| shl32 f3 12 ||| shl32 rd 7 ||| shl32 rs1 15 ||| shl32 x 20) 6 0 = op ∧
    bitsOf (op ||| shl32 f3 12 ||| shl32 rd 7 ||| shl32 rs1 15 ||| shl32 x 20) 11 7 = rd ∧
    bitsOf (op ||| shl32 f3 12 ||| shl32 rd 7 ||| shl32 rs1 15 ||| shl32 x 20) 14 12 = f3 ∧
    bitsOf (op ||| shl32 f3 12 ||| shl32 rd 7 ||| shl32 rs1 15 ||| shl32 x 20) 19 15 = rs1 ∧
    bitsOf (op ||| shl32 f3 12 ||| shl32 rd 7 ||| shl32 rs1 15 ||| shl32 x 20) 31 20 =
      x % 4096 := by
  refine ⟨?_, ?_, ?_, ?_, ?_⟩
  · rw [bitsOf_lor, bitsOf_lor, bitsOf_lor, bitsOf_lor,
      bitsOf_shl32_of_lt f3 12 _ _ (by decide), bitsOf_shl32_of_lt rd 7 _ _ (by decide),
      bitsOf_shl32_of_lt rs1 15 _ _ (by decide), bitsOf_shl32_of_lt x 20 _ _ (by decide),
      bitsOf_low]
    simp only [Nat.or_zero]
    exact Nat.mod_eq_of_lt hop
  · rw [bitsOf_lor, bitsOf_lor, bitsOf_lor, bitsOf_lor,
      bitsOf_of_lt op 7 _ _ hop (by decide),
      bitsOf_shl32_of_lt f3 12 _ _ (by decide),
      bitsOf_shl32_of_lt rs1 15 _ _ (by decide), bitsOf_shl32_of_lt x 20 _ _ (by decide),
      bitsOf_shl32_self rd 7 11 (by decide)]
    simp only [Nat.or_zero, Nat.zero_or]
    exact Nat.mod_eq_of_lt hrd
  · rw [bitsOf_lor, bitsOf_lor, bitsOf_lor, bitsOf_lor,
      bitsOf_of_lt op 7 _ _ hop (by decide),
      bitsOf_shl32_of_ge rd 7 5 _ _ hrd (by decide),
      bitsOf_shl32_of_lt rs1 15 _ _ (by decide), bitsOf_shl32_of_lt x 20 _ _ (by decide),
      bitsOf_shl32_self f3 12 14 (by decide)]
    simp only [Nat.or_zero, Nat.zero_or]
    exact Nat.mod_eq_of_lt h3
  · rw [bitsOf_lor, bitsOf_lor, bitsOf_lor, bitsOf_lor,
      bitsOf_of_lt op 7 _ _ hop (by decide),
      bitsOf_shl32_of_ge rd 7 5 _ _ hrd (by decide),
      bitsOf_shl32_of_ge f3 12 3 _ _ h3 (by decide),
      bitsOf_shl32_of_lt x 20 _ _ (by decide),
      bitsOf_shl32_self rs1 15 19 (by decide)]
    simp only [Nat.or_zero, Nat.zero_or]
    exact Nat.mod_eq_of_lt hrs1
  · rw [bitsOf_lor, bitsOf_lor, bitsOf_lor, bitsOf_lor,
      bitsOf_of_lt op 7 _ _ hop (by decide),
      bitsOf_shl32_of_ge rd 7 5 _ _ hrd (by decide),
      bitsOf_shl32_of_ge f3 12 3 _ _ h3 (by decide),
      bitsOf_shl32_of_ge rs1 15 5 _ _ hrs1 (by decide),
      bitsOf_shl32_self x 20 31 (by decide)]
    simp only [Nat.or_zero, Nat.zero_or]
    norm_num

theorem utype_fields (op rd x : Nat) (hop : op < 2 ^ 7) (hrd : rd < 2 ^ 5) :
    bitsOf (op ||| shl32 rd 7 ||| shl32 x 12) 6 0 = op ∧
    bitsOf (op ||| shl32 rd 7 ||| shl32 x 12) 11 7 = rd ∧
    bitsOf (op ||| shl32 rd 7 ||| shl32 x 12) 31 12 = x % 1048576 := by
  refine ⟨?_, ?_, ?_⟩
  · rw [bitsOf_lor, bitsOf_lor, bitsOf_shl32_of_lt rd 7 _ _ (by decide),
      bitsOf_shl32_of_lt x 12 _ _ (by decide), bitsOf_low]
    simp only [Nat.or_zero]
    exact Nat.mod_eq_of_lt hop
  · rw [bitsOf_lor, bitsOf_lor, bitsOf_of_lt op 7 _ _ hop (by decide),
      bitsOf_shl32_of_lt x 12 _ _ (by decide), bitsOf_shl32_self rd 7 11 (by decide)]
    simp only [Nat.or_zero, Nat.zero_or]
    exact Nat.mod_eq_of_lt hrd
  · rw [bitsOf_lor, bitsOf_lor, bitsOf_of_lt op 7 _ _ hop (by decide),
      bitsOf_shl32_of_ge rd 7 5 _ _ hrd (by decide), bitsOf_shl32_self x 12 31 (by decide)]
    simp only [Nat.or_zero, Nat.zero_or]
    norm_num


/-! ## Encodings of the instruction classes -/

/-- C17. For every 32-bit `w`, `uintToByteArr w` is exactly four bytes `b0`..`b3`, least
significant first: `b0 + 256*b1 + 65536*b2 + 16777216*b3 = w`. -/
theorem uintToByteArr_little_endian (w : Nat) (h : w < 2 ^ 32) :
    ∃ b0 b1 b2 b3 : Nat, uintToByteArr w = [b0, b1, b2, b3] ∧
      b0 < 256 ∧ b1 < 256 ∧ b2 < 256 ∧ b3 < 256 ∧
      b0 + 256 * b1 + 65536 * b2 + 16777216 * b3 = w := by
  have e : (0xff : Nat) = 2 ^ 8 - 1 := by norm_num
  refine ⟨w &&& 0xff, (w >>> 8) &&& 0xff, (w >>> 8 >>> 8) &&& 0xff,
    (w >>> 8 >>> 8 >>> 8) &&& 0xff, rfl, ?_, ?_, ?_, ?_, ?_⟩
  all_goals
    simp only [e, Nat.and_pow_two_sub_one_eq_mod, Nat.shiftRight_eq_div_pow]
    omega

/-- Witness of C17 at the word `0xdeadbeef`. -/
theorem uintToByteArr_little_endian_witness :
    ∃ b0 b1 b2 b3 : Nat, uintToByteArr 0xdeadbeef = [b0, b1, b2, b3] ∧
      b0 < 256 ∧ b1 < 256 ∧ b2 < 256 ∧ b3 < 256 ∧
      b0 + 256 * b1 + 65536 * b2 + 16777216 * b3 = 0xdeadbeef :=
  uintToByteArr_little_endian 0xdeadbeef (by decide)

/-- C13. For every register field that resolves to a number in [0, 31] and every decimal
immediate `n` in `[0, 2^20)`, the word emitted for the row `lui rd, n` has bits 31:12 equal
to `n`, bits 11:7 equal to the register number and bits 6:0 equal to `0x37`. -/
theorem lui_roundtrip (rd tok : String) (n : Nat) (row : Int) (s : Assembler)
    (hrd : getRegisterNumber rd ≤ 31) (htok : toInt tok = ((n : Int), true))
    (hn : n < 2 ^ 20) :
    ∃ bytes : List Nat,
      assembleInstruction ["lui", rd, tok] row s =
        some { s with m_textSegment := s.m_textSegment ++ bytes } ∧
      bytes.length = 4 ∧
      bitsOf (byteArrToUint bytes) 31 12 = n ∧
      bitsOf (byteArrToUint bytes) 11 7 = getRegisterNumber rd ∧
      bitsOf (byteArrToUint bytes) 6 0 = 0x37 := by
  have hk : assembleInstruction ["lui", rd, tok] row s =
      some { s with m_textSegment := s.m_textSegment ++
        uintToByteArr (LUI ||| shl32 (getRegisterNumber rd) 7 ||| shl32 (toUInt32 (toInt tok).1) 12) } :=
    rfl
  have hx : toUInt32 (toInt tok).1 = n := by
    rw [htok]
    simp only [toUInt32]
    omega
  rw [hx] at hk
  have hlt : LUI ||| shl32 (getRegisterNumber rd) 7 ||| shl32 n 12 < 2 ^ 32 :=
    Nat.or_lt_two_pow (Nat.or_lt_two_pow (by decide) (shl32_lt _ _)) (shl32_lt _ _)
  obtain ⟨f1, f2, f3⟩ := utype_fields LUI (getRegisterNumber rd) n (by decide) (by omega)
  refine ⟨_, hk, uintToByteArr_length _, ?_, ?_, ?_⟩
  · rw [byteArrToUint_uintToByteArr _ hlt, f3]
    omega
  · rw [byteArrToUint_uintToByteArr _ hlt, f2]
  · rw [byteArrToUint_uintToByteArr _ hlt, f1]
    rfl

/-- Witness of C13: the row `lui x5, 74565`. -/
theorem lui_roundtrip_witness :
    ∃ bytes : List Nat,
      assembleInstruction ["lui", "x5", "74565"] 0 freshAssembler =
        some { freshAssembler with m_textSegment := freshAssembler.m_textSegment ++ bytes } ∧
      bytes.length = 4 ∧
      bitsOf (byteArrToUint bytes) 31 12 = 74565 ∧
      bitsOf (byteArrToUint bytes) 11 7 = getRegisterNumber "x5" ∧
      bitsOf (byteArrToUint bytes) 6 0 = 0x37 :=
  lui_roundtrip "x5" "74565" 74565 0 freshAssembler (by decide) (by decide) (by decide)


/-- C14. For every mnemonic of the OP class with its `(funct3, funct7)` from the table of
the spec, and register fields that resolve to numbers in [0, 31], `assembleOpInstruction`
emits the word with bits 6:0 = `0x33`, 11:7 = rd, 14:12 = funct3, 19:15 = rs1,
24:20 = rs2 and 31:25 = funct7, and leaves the state as it was. -/
theorem op_instruction_fields (mn rd rs1 rs2 : String) (f3 f7 : Nat) (row : Int)
    (s : Assembler) (hmn : (mn, f3, f7) ∈ specOpTable) (hrd : getRegisterNumber rd ≤ 31)
    (hrs1 : getRegisterNumber rs1 ≤ 31) (hrs2 : getRegisterNumber rs2 ≤ 31) :
    ∃ bytes : List Nat,
      assembleOpInstruction [mn, rd, rs1, rs2] row s = some (bytes, s) ∧
      bytes.length = 4 ∧
      bitsOf (byteArrToUint bytes) 6 0 = 0x33 ∧
      bitsOf (byteArrToUint bytes) 11 7 = getRegisterNumber rd ∧
      bitsOf (byteArrToUint bytes) 14 12 = f3 ∧
      bitsOf (byteArrToUint bytes) 19 15 = getRegisterNumber rs1 ∧
      bitsOf (byteArrToUint bytes) 24 20 = getRegisterNumber rs2 ∧
      bitsOf (byteArrToUint bytes) 31 25 = f7 := by
  have hk : assembleOpInstruction [mn, rd, rs1, rs2] row s =
      some (uintToByteArr (OP ||| shl32 f3 12 ||| shl32 f7 25 |||
        shl32 (getRegisterNumber rd) 7 ||| shl32 (getRegisterNumber rs1) 15 |||
        shl32 (getRegisterNumber rs2) 20), s) ∧ f3 < 2 ^ 3 ∧ f7 < 2 ^ 7 := by
    have hall : ∀ e ∈ specOpTable,
        assembleOpInstruction [e.1, rd, rs1, rs2] row s =
          some (uintToByteArr (OP ||| shl32 e.2.1 12 ||| shl32 e.2.2 25 |||
            shl32 (getRegisterNumber rd) 7 ||| shl32 (getRegisterNumber rs1) 15 |||
            shl32 (getRegisterNumber rs2) 20), s) ∧ e.2.1 < 2 ^ 3 ∧ e.2.2 < 2 ^ 7 := by
      intro e he
      simp only [specOpTable, List.mem_cons, List.mem_singleton, List.not_mem_nil,
        or_false] at he
      repeat' (first | (rcases he with rfl | he) | subst he)
      all_goals exact ⟨rfl, by decide, by decide⟩
    exact hall (mn, f3, f7) hmn
  obtain ⟨hk, h3, h7⟩ := hk
  have hlt : OP ||| shl32 f3 12 ||| shl32 f7 25 ||| shl32 (getRegisterNumber rd) 7 |||
      shl32 (getRegisterNumber rs1) 15 ||| shl32 (getRegisterNumber rs2) 20 < 2 ^ 32 :=
    Nat.or_lt_two_pow (Nat.or_lt_two_pow (Nat.or_lt_two_pow (Nat.or_lt_two_pow
      (Nat.or_lt_two_pow (by decide) (shl32_lt _ _)) (shl32_lt _ _)) (shl32_lt _ _))
      (shl32_lt _ _)) (shl32_lt _ _)
  obtain ⟨g1, g2, g3, g4, g5, g6⟩ := rtype_fields OP f3 f7 (getRegisterNumber rd)
    (getRegisterNumber rs1) (getRegisterNumber rs2) (by decide) h3 h7 (by omega) (by omega)
    (by omega)
  refine ⟨_, hk, uintToByteArr_length _, ?_, ?_, ?_, ?_, ?_, ?_⟩
  · rw [byteArrToUint_uintToByteArr _ hlt, g1]
    rfl
  · rw [byteArrToUint_uintToByteArr _ hlt, g2]
  · rw [byteArrToUint_uintToByteArr _ hlt, g3]
  · rw [byteArrToUint_uintToByteArr _ hlt, g4]
  · rw [byteArrToUint_uintToByteArr _ hlt, g5]
  · rw [byteArrToUint_uintToByteArr _ hlt, g6]

/-- Witness of C14: the row `sub x5, x6, x7`. -/
theorem op_instruction_fields_witness :
    ∃ bytes : List Nat,
      assembleOpInstruction ["sub", "x5", "x6", "x7"] 0 freshAssembler =
        some (bytes, freshAssembler) ∧
      bytes.length = 4 ∧
      bitsOf (byteArrToUint bytes) 6 0 = 0x33 ∧
      bitsOf (byteArrToUint bytes) 11 7 = getRegisterNumber "x5" ∧
      bitsOf (byteArrToUint bytes) 14 12 = 0 ∧
      bitsOf (byteArrToUint bytes) 19 15 = getRegisterNumber "x6" ∧
      bitsOf (byteArrToUint bytes) 24 20 = getRegisterNumber "x7" ∧
      bitsOf (byteArrToUint bytes) 31 25 = 0x20 :=
  op_instruction_fields "sub" "x5" "x6" "x7" 0 0x20 0 freshAssembler (by decide) (by decide)
    (by decide) (by decide)

/-- C15. For every mnemonic of the OP-IMM class with its `funct3` from the table of the
spec, register fields that resolve to numbers in [0, 31] and an immediate field that
`getImmediate` parses to `imm` in [-2048, 2047], `assembleOpImmInstruction` emits the word
with bits 6:0 = `0x13`, 11:7 = rd, 14:12 = funct3, 19:15 = rs1 and 31:20 = `imm mod 4096`,
which sign-extend to `imm`; `addi x5, x0, 1` gives the bytes 93 02 10 00 and the expansion of `nop` gives 13 00 00 00. -/
theorem opimm_instruction_fields (mn rd rs1 tok : String) (f3 : Nat) (imm row : Int)
    (s : Assembler) (hmn : (mn, f3) ∈ specOpImmTable) (hrd : getRegisterNumber rd ≤ 31)
    (hrs1 : getRegisterNumber rs1 ≤ 31) (htok : getImmediate tok = (imm, true))
    (hlo : -2048 ≤ imm) (hhi : imm ≤ 2047) :
    (∃ bytes : List Nat,
      assembleOpImmInstruction [mn, rd, rs1, tok] row s = some (bytes, s) ∧
      bytes.length = 4 ∧
      bitsOf (byteArrToUint bytes) 6 0 = 0x13 ∧
      bitsOf (byteArrToUint bytes) 11 7 = getRegisterNumber rd ∧
      bitsOf (byteArrToUint bytes) 14 12 = f3 ∧
      bitsOf (byteArrToUint bytes) 19 15 = getRegisterNumber rs1 ∧
      (bitsOf (byteArrToUint bytes) 31 20 : Int) = imm % 4096 ∧
      decodeIImmediate (byteArrToUint bytes) = imm) ∧
    assembleOpImmInstruction ["addi", "x5", "x0", "1"] row s =
      some ([0x93, 0x02, 0x10, 0x00], s) ∧
    (unpackPseudoOp ["nop"] row s).map (fun r => r.2.m_instructionsMap) =
      some (rowSet s.m_instructionsMap row ["addi", "x0", "x0", "0"]) ∧
    assembleOpImmInstruction ["addi", "x0", "x0", "0"] row s =
      some ([0x13, 0x00, 0x00, 0x00], s) := by
  have hk : assembleOpImmInstruction [mn, rd, rs1, tok] row s =
      some (uintToByteArr (OP_IMM ||| shl32 f3 12 ||| shl32 (getRegisterNumber rd) 7 |||
        shl32 (getRegisterNumber rs1) 15 ||| shl32 (toUInt32 imm) 20), s) ∧ f3 < 2 ^ 3 := by
    have hall : ∀ e ∈ specOpImmTable,
        assembleOpImmInstruction [e.1, rd, rs1, tok] row s =
          some (uintToByteArr (OP_IMM ||| shl32 e.2 12 ||| shl32 (getRegisterNumber rd) 7 |||
            shl32 (getRegisterNumber rs1) 15 ||| shl32 (toUInt32 imm) 20), s) ∧
          e.2 < 2 ^ 3 := by
      intro e he
      simp only [specOpImmTable, List.mem_cons, List.mem_singleton, List.not_mem_nil,
        or_false] at he
      repeat' (first | (rcases he with rfl | he) | subst he)
      all_goals
        refine ⟨?_, by decide⟩
        simp [assembleOpImmInstruction, htok]
    exact hall (mn, f3) hmn
  obtain ⟨hk, h3⟩ := hk
  have hlt : OP_IMM ||| shl32 f3 12 ||| shl32 (getRegisterNumber rd) 7 |||
      shl32 (getRegisterNumber rs1) 15 ||| shl32 (toUInt32 imm) 20 < 2 ^ 32 :=
    Nat.or_lt_two_pow (Nat.or_lt_two_pow (Nat.or_lt_two_pow
      (Nat.or_lt_two_pow (by decide) (shl32_lt _ _)) (shl32_lt _ _)) (shl32_lt _ _))
      (shl32_lt _ _)
  obtain ⟨g1, g2, g3, g4, g5⟩ := itype_fields OP_IMM f3 (getRegisterNumber rd)
    (getRegisterNumber rs1) (toUInt32 imm) (by decide) h3 (by omega) (by omega)
  refine ⟨⟨_, hk, uintToByteArr_length _, ?_, ?_, ?_, ?_, ?_, ?_⟩, ?_, rfl, ?_⟩
  · rw [byteArrToUint_uintToByteArr _ hlt, g1]
    rfl
  · rw [byteArrToUint_uintToByteArr _ hlt, g2]
  · rw [byteArrToUint_uintToByteArr _ hlt, g3]
  · rw [byteArrToUint_uintToByteArr _ hlt, g4]
  · rw [byteArrToUint_uintToByteArr _ hlt, g5]
    simp only [toUInt32]
    omega
  · rw [byteArrToUint_uintToByteArr _ hlt]
    unfold decodeIImmediate
    rw [g5]
    simp only [signextend12, toUInt32]
    split_ifs <;> omega
  · have h1 : getImmediate "1" = (1, true) := by decide
    simp [assembleOpImmInstruction, h1]
    decide
  · have h0 : getImmediate "0" = (0, true) := by decide
    simp [assembleOpImmInstruction, h0]
    decide


/-- Witness of C15: the row `andi x5, x6, -1`. -/
theorem opimm_instruction_fields_witness :
    (∃ bytes : List Nat,
      assembleOpImmInstruction ["andi", "x5", "x6", "-1"] 0 freshAssembler =
        some (bytes, freshAssembler) ∧
      bytes.length = 4 ∧
      bitsOf (byteArrToUint bytes) 6 0 = 0x13 ∧
      bitsOf (byteArrToUint bytes) 11 7 = getRegisterNumber "x5" ∧
      bitsOf (byteArrToUint bytes) 14 12 = 0b111 ∧
      bitsOf (byteArrToUint bytes) 19 15 = getRegisterNumber "x6" ∧
      (bitsOf (byteArrToUint bytes) 31 20 : Int) = -1 % 4096 ∧
      decodeIImmediate (byteArrToUint bytes) = -1) ∧
    assembleOpImmInstruction ["addi", "x5", "x0", "1"] 0 freshAssembler =
      some ([0x93, 0x02, 0x10, 0x00], freshAssembler) ∧
    (unpackPseudoOp ["nop"] 0 freshAssembler).map (fun r => r.2.m_instructionsMap) =
      some (rowSet freshAssembler.m_instructionsMap 0 ["addi", "x0", "x0", "0"]) ∧
    assembleOpImmInstruction ["addi", "x0", "x0", "0"] 0 freshAssembler =
      some ([0x13, 0x00, 0x00, 0x00], freshAssembler) :=
  opimm_instruction_fields "andi" "x5" "x6" "-1" 0b111 (-1) 0 freshAssembler (by decide)
    (by decide) (by decide) (by decide) (by decide) (by decide)

theorem stype_fields (op f3 rs1 rs2 x : Nat) (hop : op < 2 ^ 7) (h3 : f3 < 2 ^ 3)
    (hrs1 : rs1 < 2 ^ 5) (hrs2 : rs2 < 2 ^ 5) :
    bitsOf (op ||| shl32 rs1 15 ||| shl32 rs2 20 ||| shl32 f3 12 |||
      shl32 (x &&& 0b11111) 7 ||| shl32 (x &&& 0xFE0) 20) 6 0 = op ∧
    bitsOf (op ||| shl32 rs1 15 ||| shl32 rs2 20 ||| shl32 f3 12 |||
      shl32 (x &&& 0b11111) 7 ||| shl32 (x &&& 0xFE0) 20) 11 7 = x % 32 ∧
    bitsOf (op ||| shl32 rs1 15 ||| shl32 rs2 20 ||| shl32 f3 12 |||
      shl32 (x &&& 0b11111) 7 ||| shl32 (x &&& 0xFE0) 20) 14 12 = f3 ∧
    bitsOf (op ||| shl32 rs1 15 ||| shl32 rs2 20 ||| shl32 f3 12 |||
      shl32 (x &&& 0b11111) 7 ||| shl32 (x &&& 0xFE0) 20) 19 15 = rs1 ∧
    bitsOf (op ||| shl32 rs1 15 ||| shl32 rs2 20 ||| shl32 f3 12 |||
      shl32 (x &&& 0b11111) 7 ||| shl32 (x &&& 0xFE0) 20) 24 20 = rs2 ∧
    bitsOf (op ||| shl32 rs1 15 ||| shl32 rs2 20 ||| shl32 f3 12 |||
      shl32 (x &&& 0b11111) 7 ||| shl32 (x &&& 0xFE0) 20) 31 25 = x / 32 % 128 := by
  have elo : x &&& 0b11111 = x % 32 := by
    have e : (0b11111 : Nat) = 2 ^ 5 - 1 := by norm_num
    rw [e, Nat.and_pow_two_sub_one_eq_mod]
  have ehi : shl32 (x &&& 0xFE0) 20 = shl32 (x / 32 % 128) 25 := by
    have e : (0xFE0 : Nat) = (2 ^ 7 - 1) <<< 5 := by decide
    rw [e, and_shiftLeft_mask, Nat.and_pow_two_sub_one_eq_mod]
    simp only [shl32, Nat.shiftLeft_eq, Nat.shiftRight_eq_div_pow]
    omega
  have hlo : x % 32 < 2 ^ 5 := by omega
  have hhi : x / 32 % 128 < 2 ^ 7 := by omega
  rw [elo, ehi]
  refine ⟨?_, ?_, ?_, ?_, ?_, ?_⟩
  · rw [bitsOf_lor, bitsOf_lor, bitsOf_lor, bitsOf_lor, bitsOf_lor,
      bitsOf_shl32_of_lt rs1 15 _ _ (by decide), bitsOf_shl32_of_lt rs2 20 _ _ (by decide),
      bitsOf_shl32_of_lt f3 12 _ _ (by decide), bitsOf_shl32_of_lt _ 7 _ _ (by decide),
      bitsOf_shl32_of_lt _ 25 _ _ (by decide), bitsOf_low]
    simp only [Nat.or_zero]
    exact Nat.mod_eq_of_lt hop
  · rw [bitsOf_lor, bitsOf_lor, bitsOf_lor, bitsOf_lor, bitsOf_lor,
      bitsOf_of_lt op 7 _ _ hop (by decide),
      bitsOf_shl32_of_lt rs1 15 _ _ (by decide), bitsOf_shl32_of_lt rs2 20 _ _ (by decide),
      bitsOf_shl32_of_lt f3 12 _ _ (by decide), bitsOf_shl32_of_lt _ 25 _ _ (by decide),
      bitsOf_shl32_self _ 7 11 (by decide)]
    simp only [Nat.or_zero, Nat.zero_or]
    exact Nat.mod_eq_of_lt hlo
  · rw [bitsOf_lor, bitsOf_lor, bitsOf_lor, bitsOf_lor, bitsOf_lor,
      bitsOf_of_lt op 7 _ _ hop (by decide),
      bitsOf_shl32_of_lt rs1 15 _ _ (by decide), bitsOf_shl32_of_lt rs2 20 _ _ (by decide),
      bitsOf_shl32_of_ge _ 7 5 _ _ hlo (by decide), bitsOf_shl32_of_lt _ 25 _ _ (by decide),
      bitsOf_shl32_self f3 12 14 (by decide)]
    simp only [Nat.or_zero, Nat.zero_or]
    exact Nat.mod_eq_of_lt h3
  · rw [bitsOf_lor, bitsOf_lor, bitsOf_lor, bitsOf_lor, bitsOf_lor,
      bitsOf_of_lt op 7 _ _ hop (by decide),
      bitsOf_shl32_of_lt rs2 20 _ _ (by decide),
      bitsOf_shl32_of_ge f3 12 3 _ _ h3 (by decide),
      bitsOf_shl32_of_ge _ 7 5 _ _ hlo (by decide), bitsOf_shl32_of_lt _ 25 _ _ (by decide),
      bitsOf_shl32_self rs1 15 19 (by decide)]
    simp only [Nat.or_zero, Nat.zero_or]
    exact Nat.mod_eq_of_lt hrs1
  · rw [bitsOf_lor, bitsOf_lor, bitsOf_lor, bitsOf_lor, bitsOf_lor,
      bitsOf_of_lt op 7 _ _ hop (by decide),
      bitsOf_shl32_of_ge rs1 15 5 _ _ hrs1 (by decide),
      bitsOf_shl32_of_ge f3 12 3 _ _ h3 (by decide),
      bitsOf_shl32_of_ge _ 7 5 _ _ hlo (by decide), bitsOf_shl32_of_lt _ 25 _ _ (by decide),
      bitsOf_shl32_self rs2 20 24 (by decide)]
    simp only [Nat.or_zero, Nat.zero_or]
    exact Nat.mod_eq_of_lt hrs2
  · rw [bitsOf_lor, bitsOf_lor, bitsOf_lor, bitsOf_lor, bitsOf_lor,
      bitsOf_of_lt op 7 _ _ hop (by decide),
      bitsOf_shl32_of_ge rs1 15 5 _ _ hrs1 (by decide),
      bitsOf_shl32_of_ge rs2 20 5 _ _ hrs2 (by decide),
      bitsOf_shl32_of_ge f3 12 3 _ _ h3 (by decide),
      bitsOf_shl32_of_ge _ 7 5 _ _ hlo (by decide),
      bitsOf_shl32_self _ 25 31 (by decide)]
    simp only [Nat.or_zero, Nat.zero_or]
    exact Nat.mod_eq_of_lt hhi

/-- C16. For every store row `<op> rs2, imm, rs1` with `op` among `sb`, `sh`, `sw`,
register fields that resolve to numbers in [0, 31] and a decimal immediate `imm` in
[-2048, 2047], `assembleStoreInstruction` emits a word with opcode `0x23`, the `funct3`
of the mnemonic, bits 19:15 = rs1 (the fourth field), bits 24:20 = rs2 (the second field)
and an S-type immediate that decodes to `imm`. -/
theorem store_instruction_fields (mn rs2 tok rs1 : String) (f3 : Nat) (imm row : Int)
    (s : Assembler) (hmn : (mn, f3) ∈ specStoreTable) (hrs2 : getRegisterNumber rs2 ≤ 31)
    (hrs1 : getRegisterNumber rs1 ≤ 31) (htok : toInt tok = (imm, true))
    (hlo : -2048 ≤ imm) (hhi : imm ≤ 2047) :
    ∃ bytes : List Nat,
      assembleStoreInstruction [mn, rs2, tok, rs1] row s = some (bytes, s) ∧
      bytes.length = 4 ∧
      bitsOf (byteArrToUint bytes) 6 0 = 0x23 ∧
      bitsOf (byteArrToUint bytes) 14 12 = f3 ∧
      bitsOf (byteArrToUint bytes) 19 15 = getRegisterNumber rs1 ∧
      bitsOf (byteArrToUint bytes) 24 20 = getRegisterNumber rs2 ∧
      decodeSImmediate (byteArrToUint bytes) = imm := by
  have hk : assembleStoreInstruction [mn, rs2, tok, rs1] row s =
      some (uintToByteArr (STORE ||| shl32 (getRegisterNumber rs1) 15 |||
        shl32 (getRegisterNumber rs2) 20 ||| shl32 f3 12 |||
        shl32 (toUInt32 imm &&& 0b11111) 7 ||| shl32 (toUInt32 imm &&& 0xFE0) 20), s) ∧
      f3 < 2 ^ 3 := by
    have hall : ∀ e ∈ specStoreTable,
        assembleStoreInstruction [e.1, rs2, tok, rs1] row s =
          some (uintToByteArr (STORE ||| shl32 (getRegisterNumber rs1) 15 |||
            shl32 (getRegisterNumber rs2) 20 ||| shl32 e.2 12 |||
            shl32 (toUInt32 imm &&& 0b11111) 7 ||| shl32 (toUInt32 imm &&& 0xFE0) 20), s) ∧
          e.2 < 2 ^ 3 := by
      intro e he
      simp only [specStoreTable, List.mem_cons, List.mem_singleton, List.not_mem_nil,
        or_false] at he
      repeat' (first | (rcases he with rfl | he) | subst he)
      all_goals
        refine ⟨?_, by decide⟩
        simp [assembleStoreInstruction, offsetOrLabel, htok]
    exact hall (mn, f3) hmn
  obtain ⟨hk, h3⟩ := hk
  have hlt : STORE ||| shl32 (getRegisterNumber rs1) 15 ||| shl32 (getRegisterNumber rs2) 20 |||
      shl32 f3 12 ||| shl32 (toUInt32 imm &&& 0b11111) 7 |||
      shl32 (toUInt32 imm &&& 0xFE0) 20 < 2 ^ 32 :=
    Nat.or_lt_two_pow (Nat.or_lt_two_pow (Nat.or_lt_two_pow (Nat.or_lt_two_pow
      (Nat.or_lt_two_pow (by decide) (shl32_lt _ _)) (shl32_lt _ _)) (shl32_lt _ _))
      (shl32_lt _ _)) (shl32_lt _ _)
  obtain ⟨g1, g2, g3, g4, g5, g6⟩ := stype_fields STORE f3 (getRegisterNumber rs1)
    (getRegisterNumber rs2) (toUInt32 imm) (by decide) h3 (by omega) (by omega)
  refine ⟨_, hk, uintToByteArr_length _, ?_, ?_, ?_, ?_, ?_⟩
  · rw [byteArrToUint_uintToByteArr _ hlt, g1]
    rfl
  · rw [byteArrToUint_uintToByteArr _ hlt, g3]
  · rw [byteArrToUint_uintToByteArr _ hlt, g4]
  · rw [byteArrToUint_uintToByteArr _ hlt, g5]
  · rw [byteArrToUint_uintToByteArr _ hlt]
    unfold decodeSImmediate
    rw [g2, g6]
    simp only [signextend12, toUInt32]
    split_ifs <;> omega

/-- Witness of C16: the row `sw x5, -4, x2`. -/
theorem store_instruction_fields_witness :
    ∃ bytes : List Nat,
      assembleStoreInstruction ["sw", "x5", "-4", "x2"] 0 freshAssembler =
        some (bytes, freshAssembler) ∧
      bytes.length = 4 ∧
      bitsOf (byteArrToUint bytes) 6 0 = 0x23 ∧
      bitsOf (byteArrToUint bytes) 14 12 = 0b010 ∧
      bitsOf (byteArrToUint bytes) 19 15 = getRegisterNumber "x2" ∧
      bitsOf (byteArrToUint bytes) 24 20 = getRegisterNumber "x5" ∧
      decodeSImmediate (byteArrToUint bytes) = -4 :=
  store_instruction_fields "sw" "x5" "-4" "x2" 0b010 (-4) 0 freshAssembler (by decide)
    (by decide) (by decide) (by decide) (by decide) (by decide)


/-! ## Label-bearing stores and the two-row pseudo-ops -/

theorem toInt_fail_value (t : String) (h : (toInt t).2 = false) : (toInt t).1 = 0 := by
  unfold toInt at h ⊢
  dsimp only at h ⊢
  split at h <;> (try split_ifs at h ⊢) <;> simp_all

theorem toUInt_fail_value (cs : List Char) (base : Nat) (h : (toUInt cs base).2 = false) :
    (toUInt cs base).1 = 0 := by
  unfold toUInt at h ⊢
  dsimp only at h ⊢
  split at h <;> (try split_ifs at h ⊢) <;> simp_all

theorem getImmediate_fail_value (t : String) (h : (getImmediate t).2 = false) :
    (getImmediate t).1 = 0 := by
  unfold getImmediate at h ⊢
  dsimp only at h ⊢
  split_ifs at h ⊢ with h1 h2 h3 h4 h5
  all_goals first
    | (simp at h; done)
    | (simp only at h; rw [toUInt_fail_value _ _ h]; simp [wrapInt])
    | skip
  all_goals
    have h0 : (toInt t).2 = false := by simpa using h1
    rw [toInt_fail_value t h0]
    simp [wrapInt]


/-- C11 (the code at the failing input). For a store whose middle field `lbl` is not a
parsable immediate, `unpackPseudoOp` stores `auipc rt, lbl` and then `<op> rs, 0, rt`: the
second row carries the number 0 in its immediate slot, not the label.  With `foo` three
rows after `sw x5, foo, x6`, the store word has the S-type immediate 0, while the load
`lw x5, foo` in the same place keeps the label and gets the I-type immediate 12. -/
theorem store_pseudo_op_drops_label (rs lbl rt : String) (p : Int) (s : Assembler) :
    unpackPseudoOp ["sb", rs, lbl, rt] p s =
      (if (getImmediate lbl).2 = true then some (p + 1, setRow s p ["sb", rs, lbl, rt])
       else some (p + 2, setUsage (setUsage (setRow (setRow s p ["auipc", rt, lbl]) (p + 1)
        ["sb", rs, "0", rt]) p rs) (p + 1) rs)) ∧
    unpackPseudoOp ["sh", rs, lbl, rt] p s =
      (if (getImmediate lbl).2 = true then some (p + 1, setRow s p ["sh", rs, lbl, rt])
       else some (p + 2, setUsage (setUsage (setRow (setRow s p ["auipc", rt, lbl]) (p + 1)
        ["sh", rs, "0", rt]) p rs) (p + 1) rs)) ∧
    unpackPseudoOp ["sw", rs, lbl, rt] p s =
      (if (getImmediate lbl).2 = true then some (p + 1, setRow s p ["sw", rs, lbl, rt])
       else some (p + 2, setUsage (setUsage (setRow (setRow s p ["auipc", rt, lbl]) (p + 1)
        ["sw", rs, "0", rt]) p rs) (p + 1) rs)) ∧
    (assembleLines 0x10000000 [["sw", "x5", "foo", "x6"], ["nop"], ["foo:", "nop"]]
        freshAssembler).map
      (fun a => (a.m_instructionsMap, a.m_labelPosMap,
        decodeSImmediate (byteArrToUint ((a.m_textSegment.drop 4).take 4)))) =
      some ([(0, ["auipc", "x6", "foo"]), (1, ["sw", "x5", "0", "x6"]),
          (2, ["addi", "x0", "x0", "0"]), (3, ["addi", "x0", "x0", "0"])],
        [("foo", 3)], 0) ∧
    (assembleLines 0x10000000 [["lw", "x5", "foo"], ["nop"], ["foo:", "nop"]]
        freshAssembler).map
      (fun a => (a.m_instructionsMap, a.m_labelPosMap,
        decodeIImmediate (byteArrToUint ((a.m_textSegment.drop 4).take 4)))) =
      some ([(0, ["auipc", "x5", "foo"]), (1, ["lw", "x5", "foo", "x5"]),
          (2, ["addi", "x0", "x0", "0"]), (3, ["addi", "x0", "x0", "0"])],
        [("foo", 3)], 12) := by
  have key : ∀ op : String, op = "sb" ∨ op = "sh" ∨ op = "sw" →
      unpackPseudoOp [op, rs, lbl, rt] p s =
        (if (getImmediate lbl).2 = true then some (p + 1, setRow s p [op, rs, lbl, rt])
         else some (p + 2, setUsage (setUsage (setRow (setRow s p ["auipc", rt, lbl]) (p + 1)
          [op, rs, "0", rt]) p rs) (p + 1) rs)) := by
    intro op hop
    by_cases hc : (getImmediate lbl).2 = true
    · rw [if_pos hc]
      rcases hop with rfl | rfl | rfl <;> simp [unpackPseudoOp, hc]
    · rw [if_neg hc]
      have hv : (getImmediate lbl).1 = 0 := getImmediate_fail_value lbl (by simpa using hc)
      rcases hop with rfl | rfl | rfl <;> simp [unpackPseudoOp, hc, hv, numberInt] <;> rfl
  refine ⟨key "sb" (Or.inl rfl), key "sh" (Or.inr (Or.inl rfl)),
    key "sw" (Or.inr (Or.inr rfl)), by decide, by decide⟩

/-- C12. At cursor `p`, `unpackPseudoOp` expands `call lbl` to `auipc x6,lbl` /
`jalr x1,x6,lbl`, `tail lbl` to `auipc x6,lbl` / `jalr x0,x6,lbl`, `la rd,lbl` to
`auipc rd,lbl` / `addi rd,rd,lbl` and a 3-field load `lb/lh/lw rd,lbl` to `auipc rd,lbl` /
`<op> rd,lbl,rd`, at rows `p` and `p + 1` with the cursor moved to `p + 2`; a 4-field load
`<op> rd,imm,rs` gives the single row `<op> rd,<imm in decimal>,rs` and the cursor
`p + 1`. -/
theorem two_row_pseudo_ops (rd rs lbl tok : String) (p : Int) (s : Assembler) :
    unpackPseudoOp ["call", lbl] p s =
      some (p + 2, setUsage (setUsage (setRow (setRow s p ["auipc", "x6", lbl]) (p + 1)
        ["jalr", "x1", "x6", lbl]) p lbl) (p + 1) lbl) ∧
    unpackPseudoOp ["tail", lbl] p s =
      some (p + 2, setUsage (setUsage (setRow (setRow s p ["auipc", "x6", lbl]) (p + 1)
        ["jalr", "x0", "x6", lbl]) p lbl) (p + 1) lbl) ∧
    unpackPseudoOp ["la", rd, lbl] p s =
      some (p + 2, setUsage (setRow (setRow s p ["auipc", rd, lbl]) (p + 1)
        ["addi", rd, rd, lbl]) p lbl) ∧
    unpackPseudoOp ["lb", rd, lbl] p s =
      some (p + 2, setUsage (setUsage (setRow (setRow s p ["auipc", rd, lbl]) (p + 1)
        ["lb", rd, lbl, rd]) p rd) (p + 1) rd) ∧
    unpackPseudoOp ["lh", rd, lbl] p s =
      some (p + 2, setUsage (setUsage (setRow (setRow s p ["auipc", rd, lbl]) (p + 1)
        ["lh", rd, lbl, rd]) p rd) (p + 1) rd) ∧
    unpackPseudoOp ["lw", rd, lbl] p s =
      some (p + 2, setUsage (setUsage (setRow (setRow s p ["auipc", rd, lbl]) (p + 1)
        ["lw", rd, lbl, rd]) p rd) (p + 1) rd) ∧
    unpackPseudoOp ["lb", rd, tok, rs] p s =
      some (p + 1, setRow s p ["lb", rd, numberInt (getImmediate tok).1, rs]) ∧
    unpackPseudoOp ["lh", rd, tok, rs] p s =
      some (p + 1, setRow s p ["lh", rd, numberInt (getImmediate tok).1, rs]) ∧
    unpackPseudoOp ["lw", rd, tok, rs] p s =
      some (p + 1, setRow s p ["lw", rd, numberInt (getImmediate tok).1, rs]) ∧
    unpackPseudoOp ["lw", rd, "0x10", rs] p s =
      some (p + 1, setRow s p ["lw", rd, "16", rs]) := by
  have h : numberInt (getImmediate "0x10").1 = "16" := by decide
  have e : unpackPseudoOp ["lw", rd, "0x10", rs] p s =
      some (p + 1, setRow s p ["lw", rd, numberInt (getImmediate "0x10").1, rs]) := rfl
  rw [h] at e
  exact ⟨rfl, rfl, rfl, rfl, rfl, rfl, rfl, rfl, rfl, e⟩


/-! ## Directives and the data segment -/

theorem padToWord_length (byteArray : List Nat) : (padToWord byteArray).length % 4 = 0 := by
  unfold padToWord
  split_ifs with h
  · rw [List.length_append, List.length_replicate]
    omega
  · omega

theorem appendData_length (s : Assembler) (byteArray : List Nat)
    (hs : s.m_dataSegment.length % 4 = 0) :
    (appendData s byteArray).m_dataSegment.length % 4 = 0 := by
  have h := padToWord_length byteArray
  simp only [appendData, List.length_append]
  omega

theorem unpackPseudoOp_data (fields : List String) (pos : Int) (s : Assembler) :
    ∀ r, unpackPseudoOp fields pos s = some r → r.2.m_dataSegment = s.m_dataSegment := by
  unfold unpackPseudoOp
  simp only [Option.bind_eq_bind]
  repeat' first
    | (intro r hr; cases hr <;> rfl)
    | refine ite_pred (fun o : Option (Int × Assembler) =>
        ∀ r, o = some r → r.2.m_dataSegment = s.m_dataSegment) _ _ _ ?_ ?_
    | refine bind_pred (fun o : Option (Int × Assembler) =>
        ∀ r, o = some r → r.2.m_dataSegment = s.m_dataSegment) _ _ ?_ (fun x => ?_)

theorem assembleAssemblerDirective_data (fields : List String) (s : Assembler)
    (hs : s.m_dataSegment.length % 4 = 0) :
    ∀ u, assembleAssemblerDirective fields s = some u → u.m_dataSegment.length % 4 = 0 := by
  unfold assembleAssemblerDirective
  simp only [Option.bind_eq_bind]
  repeat' first
    | (intro r hr; cases hr <;> first | exact appendData_length s _ hs | exact hs)
    | refine ite_pred (fun o : Option Assembler =>
        ∀ u, o = some u → u.m_dataSegment.length % 4 = 0) _ _ _ ?_ ?_
    | refine bind_pred (fun o : Option Assembler =>
        ∀ u, o = some u → u.m_dataSegment.length % 4 = 0) _ _ ?_ (fun x => ?_)

theorem unpackOperation_data (fields : List String) (pos : Int) (s : Assembler)
    (hs : s.m_dataSegment.length % 4 = 0) :
    ∀ r, unpackOperation fields pos s = some r → r.2.m_dataSegment.length % 4 = 0 := by
  unfold unpackOperation
  simp only [Option.bind_eq_bind]
  refine bind_pred (fun o : Option (Int × Assembler) =>
    ∀ r, o = some r → r.2.m_dataSegment.length % 4 = 0) _ _ ?_ (fun f0 => ?_)
  · intro r hr; cases hr
  refine ite_pred (fun o : Option (Int × Assembler) =>
    ∀ r, o = some r → r.2.m_dataSegment.length % 4 = 0) _ _ _ ?_ ?_
  · intro r hr
    rw [unpackPseudoOp_data fields pos s r hr]
    exact hs
  refine ite_pred (fun o : Option (Int × Assembler) =>
    ∀ r, o = some r → r.2.m_dataSegment.length % 4 = 0) _ _ _ ?_ ?_
  · intro r hr
    simp only [Option.map_eq_some'] at hr
    obtain ⟨u, hu, rfl⟩ := hr
    exact assembleAssemblerDirective_data fields s hs u hu
  · refine bind_pred (fun o : Option (Int × Assembler) =>
      ∀ r, o = some r → r.2.m_dataSegment.length % 4 = 0) _ _ ?_ (fun last => ?_)
    · intro r hr; cases hr
    · intro r hr
      cases hr
      dsimp only
      split <;> exact hs

theorem unpackOp_data (D : Nat) (fields : List String) (pos : Int) (s : Assembler)
    (hs : s.m_dataSegment.length % 4 = 0) :
    ∀ r, unpackOp D fields pos s = some r → r.2.m_dataSegment.length % 4 = 0 := by
  unfold unpackOp
  simp only [Option.bind_eq_bind]
  refine bind_pred (fun o : Option (Int × Assembler) =>
    ∀ r, o = some r → r.2.m_dataSegment.length % 4 = 0) _ _ ?_ (fun string => ?_)
  · intro r hr; cases hr
  refine ite_pred (fun o : Option (Int × Assembler) =>
    ∀ r, o = some r → r.2.m_dataSegment.length % 4 = 0) _ _ _ ?_ ?_
  · refine bind_pred (fun o : Option (Int × Assembler) =>
      ∀ r, o = some r → r.2.m_dataSegment.length % 4 = 0) _ _ ?_ (fun label => ?_)
    · intro r hr; cases hr
    refine ite_pred (fun o : Option (Int × Assembler) =>
      ∀ r, o = some r → r.2.m_dataSegment.length % 4 = 0) _ _ _ ?_ ?_
    all_goals
      refine bind_pred (fun o : Option (Int × Assembler) =>
        ∀ r, o = some r → r.2.m_dataSegment.length % 4 = 0) _ _ ?_ (fun y => ?_)
      · intro r hr; cases hr
      refine ite_pred (fun o : Option (Int × Assembler) =>
        ∀ r, o = some r → r.2.m_dataSegment.length % 4 = 0) _ _ _ ?_ ?_
      · intro r hr; cases hr; exact hs
      · intro r hr
        have h := unpackOperation_data _ _ _ (by exact hs) r hr
        exact h
  · exact unpackOperation_data _ _ _ hs

theorem unpackLines_data (D : Nat) (lines : List (List String)) (line : Int) (s : Assembler)
    (hs : s.m_dataSegment.length % 4 = 0) :
    ∀ r, unpackLines D lines line s = some r → r.2.m_dataSegment.length % 4 = 0 := by
  induction lines generalizing line s with
  | nil =>
    intro r hr
    simp only [unpackLines, Option.some.injEq] at hr
    subst hr
    exact hs
  | cons fields rest ih =>
    intro r hr
    simp only [unpackLines] at hr
    split_ifs at hr
    · simp only [Option.bind_eq_some] at hr
      obtain ⟨u, hu, hrest⟩ := hr
      exact ih _ _ (unpackOp_data D fields line s hs u hu) r hrest
    · exact ih _ _ hs r hr

/-- C18. Starting from `restart`, after the first pass over any sequence of statements
(labels, instructions, directives, recognised or not) the length of the data segment is a
multiple of 4. -/
theorem dataSegment_length_multiple_of_four (D : Nat) (lines : List (List String))
    (prior : Assembler) (r : Int × Assembler)
    (h : unpackLines D lines 0 (restart prior) = some r) :
    r.2.m_dataSegment.length % 4 = 0 :=
  unpackLines_data D lines 0 (restart prior) rfl r h

/-- Witness of C18: a data label, a `.string` of 5 characters, a `.word`, an unknown
directive and an unknown mnemonic leave a data segment of 12 bytes. -/
theorem dataSegment_length_multiple_of_four_witness :
    ((3 : Int), (⟨false, true, false,
        [(0, ["foo", "x1"]), (1, ["addi", "x0", "x0", "0"]), (2, ["addi", "x0", "x0", "0"])],
        [], [("msg", 0x4000000)], [],
        [104, 101, 108, 108, 111, 0, 0, 0, 7, 0, 0, 0]⟩ :
          Assembler)).2.m_dataSegment.length % 4 = 0 :=
  dataSegment_length_multiple_of_four 0x10000000
    [[".data"], ["msg:", ".string", "hello"], [".word", "7"], [".align", "2"], [".text"],
     ["foo", "x1"], ["nop"], ["nop"]]
    freshAssembler _ (by decide)


/-- C19. For every `.string` directive, `assembleAssemblerDirective` appends to the data
segment the UTF-8 bytes of the concatenation of the remaining fields without their double
quotes, followed by `k` NUL bytes, where `k < 4` is the least number that makes the
appended length a multiple of 4; `.string "hi"` appends the 4 bytes `h`, `i`, 0, 0. -/
theorem string_directive_bytes (rest : List String) (s : Assembler) :
    (∃ k : Nat, k < 4 ∧
      assembleAssemblerDirective (".string" :: rest) s =
        some { s with
          m_dataSegment := s.m_dataSegment ++
            (toUtf8 ((rest.flatMap (fun f => f.data)).filter (fun c => c ≠ Char.ofNat 34)) ++
              List.replicate k 0),
          m_hasData := true } ∧
      ((toUtf8 ((rest.flatMap (fun f => f.data)).filter
        (fun c => c ≠ Char.ofNat 34))).length + k) % 4 = 0 ∧
      ∀ j : Nat, j < k →
        ((toUtf8 ((rest.flatMap (fun f => f.data)).filter
          (fun c => c ≠ Char.ofNat 34))).length + j) % 4 ≠ 0) ∧
    assembleAssemblerDirective [".string", String.mk [Char.ofNat 34, 'h', 'i', Char.ofNat 34]]
        s =
      some { s with m_dataSegment := s.m_dataSegment ++ [104, 105, 0, 0],
                    m_hasData := true } := by
  refine ⟨?_, rfl⟩
  have e : assembleAssemblerDirective (".string" :: rest) s =
      some (appendData s
        (toUtf8 ((rest.flatMap (fun f => f.data)).filter (fun c => c ≠ Char.ofNat 34)))) := by
    simp [assembleAssemblerDirective]
  rw [e]
  generalize toUtf8 ((rest.flatMap (fun f => f.data)).filter (fun c => c ≠ Char.ofNat 34)) =
    bytes
  by_cases h : bytes.length % 4 ≠ 0
  · refine ⟨4 - bytes.length % 4, by omega, ?_, by omega, fun j hj => by omega⟩
    simp [appendData, padToWord, h]
  · refine ⟨0, by omega, ?_, by omega, fun j hj => by omega⟩
    simp [appendData, padToWord, h]

theorem unpackOp_of_no_colon (D : Nat) (f : String) (rest : List String) (p : Int)
    (s : Assembler) (h : f.data.contains ':' = false) :
    unpackOp D (f :: rest) p s = unpackOperation (f :: rest) p s := by
  unfold unpackOp
  simp only [List.getElem?_cons_zero, Option.bind_eq_bind, Option.some_bind, h,
    Bool.false_eq_true, if_false]

theorem int_shiftRight_eq_div (m : Int) (n : Nat) :
    m >>> (n : Int) = m / ((2 ^ n : Nat) : Int) := by
  rw [← Int.shiftRight_eq_div_pow]
  cases m with
  | ofNat k => exact Int.shiftRight_coe_nat k n
  | negSucc k => exact Int.shiftRight_negSucc k n

theorem int_shiftRight_eight (v : Int) : v >>> (8 : Int) = v / 256 := by
  have h := int_shiftRight_eq_div v 8
  norm_num at h
  exact h

theorem wordBytesLoop_four (val : Int) :
    wordBytesLoop 4 val [] =
      [(val % 256).toNat, (val >>> 8 % 256).toNat, (val >>> 8 >>> 8 % 256).toNat,
       (val >>> 8 >>> 8 >>> 8 % 256).toNat] :=
  rfl

/-- C20. For every `.word` directive whose field `getImmediate` parses to `imm`,
`assembleAssemblerDirective` appends exactly 4 bytes to the data segment, the
little-endian representation of `imm` modulo `2^32`, and `unpackOp` leaves the cursor and
the instruction map as they were; `.data` followed by `.word 0xdeadbeef` leaves the data
segment ef be ad de and the text segment empty. -/
theorem word_directive_bytes (D : Nat) (tok : String) (imm p : Int) (s : Assembler)
    (h : getImmediate tok = (imm, true)) :
    (∃ b0 b1 b2 b3 : Nat, b0 < 256 ∧ b1 < 256 ∧ b2 < 256 ∧ b3 < 256 ∧
      ((b0 + 256 * b1 + 65536 * b2 + 16777216 * b3 : Nat) : Int) = imm % 4294967296 ∧
      assembleAssemblerDirective [".word", tok] s =
        some { s with m_dataSegment := s.m_dataSegment ++ [b0, b1, b2, b3],
                      m_hasData := true } ∧
      unpackOp D [".word", tok] p s =
        some (p, { s with m_dataSegment := s.m_dataSegment ++ [b0, b1, b2, b3],
                          m_hasData := true })) ∧
    (assembleLines D [[".data"], [".word", "0xdeadbeef"]] freshAssembler).map
      (fun a => (a.m_dataSegment, a.m_textSegment, a.m_instructionsMap)) =
      some ([0xef, 0xbe, 0xad, 0xde], [], []) := by
  refine ⟨?_, ?_⟩
  · have e : assembleAssemblerDirective [".word", tok] s =
        some (appendData s (wordBytesLoop 4 (getImmediate tok).1 [])) := rfl
    have e2 : unpackOp D [".word", tok] p s =
        (assembleAssemblerDirective [".word", tok] s).map (fun s1 => (p, s1)) := rfl
    rw [e2, e, h, wordBytesLoop_four]
    refine ⟨(imm % 256).toNat, (imm >>> 8 % 256).toNat, (imm >>> 8 >>> 8 % 256).toNat,
      (imm >>> 8 >>> 8 >>> 8 % 256).toNat, ?_, ?_, ?_, ?_, ?_, ?_, ?_⟩
    · omega
    · omega
    · omega
    · omega
    · simp only [int_shiftRight_eight]
      omega
    · simp [appendData, padToWord]
    · simp [appendData, padToWord]
  · have e : ∀ (q : Int) (u : Assembler), unpackOp D [".data"] q u =
        unpackOperation [".data"] q u :=
      fun q u => unpackOp_of_no_colon D ".data" [] q u (by decide)
    have e1 : ∀ (q : Int) (u : Assembler), unpackOp D [".word", "0xdeadbeef"] q u =
        unpackOperation [".word", "0xdeadbeef"] q u :=
      fun q u => unpackOp_of_no_colon D ".word" ["0xdeadbeef"] q u (by decide)
    simp only [assembleLines, unpackLines, e, e1]
    decide

/-- Witness of C20: the directive `.word -2`. -/
theorem word_directive_bytes_witness :
    (∃ b0 b1 b2 b3 : Nat, b0 < 256 ∧ b1 < 256 ∧ b2 < 256 ∧ b3 < 256 ∧
      ((b0 + 256 * b1 + 65536 * b2 + 16777216 * b3 : Nat) : Int) = -2 % 4294967296 ∧
      assembleAssemblerDirective [".word", "-2"] freshAssembler =
        some { freshAssembler with
          m_dataSegment := freshAssembler.m_dataSegment ++ [b0, b1, b2, b3],
          m_hasData := true } ∧
      unpackOp 0x10000000 [".word", "-2"] 0 freshAssembler =
        some (0, { freshAssembler with
          m_dataSegment := freshAssembler.m_dataSegment ++ [b0, b1, b2, b3],
          m_hasData := true })) ∧
    (assembleLines 0x10000000 [[".data"], [".word", "0xdeadbeef"]] freshAssembler).map
      (fun a => (a.m_dataSegment, a.m_textSegment, a.m_instructionsMap)) =
      some ([0xef, 0xbe, 0xad, 0xde], [], []) :=
  word_directive_bytes 0x10000000 "-2" (-2) 0 freshAssembler (by decide)

/-! ## Labels and the rows of the first pass -/

theorem mapFind_mapSetBy_self {κ ν : Type} [DecidableEq κ] (lt : κ → κ → Bool)
    (m : List (κ × ν)) (k : κ) (v : ν) : mapFind (mapSetBy lt m k v) k = some v := by
  induction m with
  | nil => simp [mapSetBy, mapFind]
  | cons e rest ih =>
    rw [mapSetBy]
    by_cases h1 : lt k e.1 = true
    · rw [if_pos h1]; simp [mapFind]
    · rw [if_neg h1]
      by_cases h2 : k = e.1
      · rw [if_pos h2]; simp [mapFind]
      · rw [if_neg h2, mapFind, if_neg (fun h => h2 h.symm)]
        exact ih

theorem mapFind_mapSetBy_ne {κ ν : Type} [DecidableEq κ] (lt : κ → κ → Bool)
    (m : List (κ × ν)) (k k' : κ) (v : ν) (hne : k ≠ k') :
    mapFind (mapSetBy lt m k v) k' = mapFind m k' := by
  induction m with
  | nil => simp [mapSetBy, mapFind, hne]
  | cons e rest ih =>
    rw [mapSetBy]
    by_cases h1 : lt k e.1 = true
    · rw [if_pos h1, mapFind, if_neg (by simpa using hne)]
    · rw [if_neg h1]
      by_cases h2 : k = e.1
      · rw [if_pos h2, mapFind, if_neg (by simpa using hne), mapFind,
          if_neg (fun h => hne (h2.trans h))]
      · rw [if_neg h2, mapFind, mapFind, ih]

theorem splitChars_append_sep (sep : Char → Bool) (cs : List Char) (d : Char)
    (hcs : ∀ c ∈ cs, sep c = false) (hd : sep d = true) :
    splitChars sep (cs ++ [d]) = [cs, []] := by
  induction cs with
  | nil => simp [splitChars, hd]
  | cons c rest ih =>
    have hc : sep c = false := hcs c (List.mem_cons_self _ _)
    have hr := ih (fun x hx => hcs x (List.mem_cons_of_mem _ hx))
    simp [splitChars, hc, hr]

/-- The first half of `unpackOp` on a statement whose first field is `lbl:`. -/
theorem unpackOp_label (D : Nat) (lbl : String) (rest : List String) (pos : Int)
    (s : Assembler) (hne : lbl ≠ "") (hcolon : ':' ∉ lbl.data) :
    unpackOp D ((lbl ++ ":") :: rest) pos s =
      (let address : Int :=
        if s.m_inDataSegment then
          wrapInt ((s.m_dataSegment.length : Int) + ((D / 4 : Nat) : Int))
        else pos
      let s1 : Assembler := { s with m_labelPosMap := labelSet s.m_labelPosMap lbl address }
      if rest.isEmpty then some (pos, s1) else unpackOperation rest pos s1) := by
  have hsplit : split (fun c => c = ':') (lbl ++ ":") = [lbl, ""] := by
    have h := splitChars_append_sep (fun c => decide (c = ':')) lbl.data ':'
      (fun c hc => by
        have : c ≠ ':' := fun h => hcolon (h ▸ hc)
        simpa using this) (by simp)
    simp only [split, String.data_append]
    show (splitChars (fun c => decide (c = ':')) (lbl.data ++ [':'])).map String.mk = _
    rw [h]
    rfl
  have hcont : (lbl ++ ":").data.contains ':' = true := by
    simp [String.data_append]
  have hrm : removeAllEmpty [lbl, ""] = [lbl] := by
    simp [removeAllEmpty, hne]
  unfold unpackOp
  simp only [List.getElem?_cons_zero, Option.bind_eq_bind, Option.some_bind, hcont, if_true,
    hsplit, hrm, List.length_singleton, List.drop_succ_cons, List.drop_zero]


theorem unpackPseudoOp_labels (fields : List String) (pos : Int) (s : Assembler) :
    ∀ r, unpackPseudoOp fields pos s = some r →
      r.2.m_labelPosMap = s.m_labelPosMap ∧ r.2.m_inDataSegment = s.m_inDataSegment ∧
      (s.m_error = true → r.2.m_error = true) := by
  unfold unpackPseudoOp
  simp only [Option.bind_eq_bind]
  repeat' first
    | (intro r hr; cases hr <;> exact ⟨rfl, rfl, fun h => by first | exact h | rfl⟩)
    | refine ite_pred (fun o : Option (Int × Assembler) =>
        ∀ r, o = some r →
          r.2.m_labelPosMap = s.m_labelPosMap ∧ r.2.m_inDataSegment = s.m_inDataSegment ∧
          (s.m_error = true → r.2.m_error = true)) _ _ _ ?_ ?_
    | refine bind_pred (fun o : Option (Int × Assembler) =>
        ∀ r, o = some r →
          r.2.m_labelPosMap = s.m_labelPosMap ∧ r.2.m_inDataSegment = s.m_inDataSegment ∧
          (s.m_error = true → r.2.m_error = true)) _ _ ?_ (fun x => ?_)

theorem assembleAssemblerDirective_labels (fields : List String) (s : Assembler) :
    ∀ u, assembleAssemblerDirective fields s = some u →
      u.m_labelPosMap = s.m_labelPosMap ∧ u.m_error = s.m_error ∧
      u.m_instructionsMap = s.m_instructionsMap := by
  unfold assembleAssemblerDirective
  simp only [Option.bind_eq_bind]
  repeat' first
    | (intro r hr; cases hr <;> exact ⟨rfl, rfl, rfl⟩)
    | refine ite_pred (fun o : Option Assembler =>
        ∀ u, o = some u → u.m_labelPosMap = s.m_labelPosMap ∧ u.m_error = s.m_error ∧
          u.m_instructionsMap = s.m_instructionsMap) _ _ _ ?_ ?_
    | refine bind_pred (fun o : Option Assembler =>
        ∀ u, o = some u → u.m_labelPosMap = s.m_labelPosMap ∧ u.m_error = s.m_error ∧
          u.m_instructionsMap = s.m_instructionsMap) _ _ ?_ (fun x => ?_)


theorem unpackPseudoOp_rows (fields : List String) (pos : Int) (s : Assembler) :
    ∀ r, unpackPseudoOp fields pos s = some r →
      RowsAdded pos s.m_instructionsMap r.1 r.2.m_instructionsMap := by
  unfold unpackPseudoOp
  simp only [Option.bind_eq_bind]
  repeat' first
    | (intro r hr; cases hr <;> first
        | exact Or.inl ⟨rfl, rfl⟩
        | exact Or.inr (Or.inl ⟨_, rfl, rfl⟩)
        | exact Or.inr (Or.inr ⟨_, _, rfl, rfl⟩))
    | refine ite_pred (fun o : Option (Int × Assembler) =>
        ∀ r, o = some r → RowsAdded pos s.m_instructionsMap r.1 r.2.m_instructionsMap)
        _ _ _ ?_ ?_
    | refine bind_pred (fun o : Option (Int × Assembler) =>
        ∀ r, o = some r → RowsAdded pos s.m_instructionsMap r.1 r.2.m_instructionsMap)
        _ _ ?_ (fun x => ?_)

theorem unpackOperation_step (fields : List String) (pos : Int) (s : Assembler) :
    ∀ r, unpackOperation fields pos s = some r →
      r.2.m_labelPosMap = s.m_labelPosMap ∧ (s.m_error = true → r.2.m_error = true) ∧
      RowsAdded pos s.m_instructionsMap r.1 r.2.m_instructionsMap := by
  unfold unpackOperation
  simp only [Option.bind_eq_bind]
  refine bind_pred (fun o : Option (Int × Assembler) =>
    ∀ r, o = some r → r.2.m_labelPosMap = s.m_labelPosMap ∧
      (s.m_error = true → r.2.m_error = true) ∧
      RowsAdded pos s.m_instructionsMap r.1 r.2.m_instructionsMap) _ _ ?_ (fun f0 => ?_)
  · intro r hr; cases hr
  refine ite_pred (fun o : Option (Int × Assembler) =>
    ∀ r, o = some r → r.2.m_labelPosMap = s.m_labelPosMap ∧
      (s.m_error = true → r.2.m_error = true) ∧
      RowsAdded pos s.m_instructionsMap r.1 r.2.m_instructionsMap) _ _ _ ?_ ?_
  · intro r hr
    obtain ⟨h1, -, h3⟩ := unpackPseudoOp_labels fields pos s r hr
    exact ⟨h1, h3, unpackPseudoOp_rows fields pos s r hr⟩
  refine ite_pred (fun o : Option (Int × Assembler) =>
    ∀ r, o = some r → r.2.m_labelPosMap = s.m_labelPosMap ∧
      (s.m_error = true → r.2.m_error = true) ∧
      RowsAdded pos s.m_instructionsMap r.1 r.2.m_instructionsMap) _ _ _ ?_ ?_
  · intro r hr
    simp only [Option.map_eq_some'] at hr
    obtain ⟨u, hu, rfl⟩ := hr
    obtain ⟨h1, h2, h3⟩ := assembleAssemblerDirective_labels fields s u hu
    exact ⟨h1, fun h => by rw [h2]; exact h, Or.inl ⟨rfl, h3⟩⟩
  · refine bind_pred (fun o : Option (Int × Assembler) =>
      ∀ r, o = some r → r.2.m_labelPosMap = s.m_labelPosMap ∧
        (s.m_error = true → r.2.m_error = true) ∧
        RowsAdded pos s.m_instructionsMap r.1 r.2.m_instructionsMap) _ _ ?_ (fun last => ?_)
    · intro r hr; cases hr
    · intro r hr
      cases hr
      dsimp only
      split
      · exact ⟨rfl, id, Or.inr (Or.inl ⟨_, rfl, rfl⟩)⟩
      · exact ⟨rfl, id, Or.inr (Or.inl ⟨_, rfl, rfl⟩)⟩

theorem unpackOp_step (D : Nat) (fields : List String) (pos : Int) (s : Assembler) :
    ∀ r, unpackOp D fields pos s = some r →
      (s.m_error = true → r.2.m_error = true) ∧
      RowsAdded pos s.m_instructionsMap r.1 r.2.m_instructionsMap := by
  unfold unpackOp
  simp only [Option.bind_eq_bind]
  refine bind_pred (fun o : Option (Int × Assembler) =>
    ∀ r, o = some r → (s.m_error = true → r.2.m_error = true) ∧
      RowsAdded pos s.m_instructionsMap r.1 r.2.m_instructionsMap) _ _ ?_ (fun string => ?_)
  · intro r hr; cases hr
  refine ite_pred (fun o : Option (Int × Assembler) =>
    ∀ r, o = some r → (s.m_error = true → r.2.m_error = true) ∧
      RowsAdded pos s.m_instructionsMap r.1 r.2.m_instructionsMap) _ _ _ ?_ ?_
  · refine bind_pred (fun o : Option (Int × Assembler) =>
      ∀ r, o = some r → (s.m_error = true → r.2.m_error = true) ∧
        RowsAdded pos s.m_instructionsMap r.1 r.2.m_instructionsMap) _ _ ?_ (fun label => ?_)
    · intro r hr; cases hr
    refine ite_pred (fun o : Option (Int × Assembler) =>
      ∀ r, o = some r → (s.m_error = true → r.2.m_error = true) ∧
        RowsAdded pos s.m_instructionsMap r.1 r.2.m_instructionsMap) _ _ _ ?_ ?_
    all_goals
      refine bind_pred (fun o : Option (Int × Assembler) =>
        ∀ r, o = some r → (s.m_error = true → r.2.m_error = true) ∧
          RowsAdded pos s.m_instructionsMap r.1 r.2.m_instructionsMap) _ _ ?_ (fun y => ?_)
      · intro r hr; cases hr
      refine ite_pred (fun o : Option (Int × Assembler) =>
        ∀ r, o = some r → (s.m_error = true → r.2.m_error = true) ∧
          RowsAdded pos s.m_instructionsMap r.1 r.2.m_instructionsMap) _ _ _ ?_ ?_
      · intro r hr; cases hr; exact ⟨id, Or.inl ⟨rfl, rfl⟩⟩
      · intro r hr
        have h := unpackOperation_step _ _ _ r hr
        exact ⟨h.2.1, h.2.2⟩
  · intro r hr
    have h := unpackOperation_step _ _ _ r hr
    exact ⟨h.2.1, h.2.2⟩

theorem rowSet_append {ν : Type} (m : List (Int × ν)) (k : Int) (v : ν)
    (h : ∀ e ∈ m, e.1 < k) : rowSet m k v = m ++ [(k, v)] := by
  induction m with
  | nil => rfl
  | cons e rest ih =>
    have he : e.1 < k := h e (List.mem_cons_self _ _)
    have hr := ih (fun x hx => h x (List.mem_cons_of_mem _ hx))
    unfold rowSet at hr ⊢
    rw [mapSetBy, if_neg (by simp; omega), if_neg (by omega), hr]
    rfl

theorem DenseRows_lt {m : List (Int × List String)} {pos : Int} (h : DenseRows m pos) :
    ∀ e ∈ m, e.1 < pos := by
  obtain ⟨n, rfl, hk⟩ := h
  intro e he
  have h1 : e.1 ∈ m.map Prod.fst := List.mem_map_of_mem _ he
  rw [hk] at h1
  simp only [List.mem_map, List.mem_range] at h1
  obtain ⟨i, hi, hie⟩ := h1
  rw [← hie]
  exact Int.ofNat_lt.mpr hi

theorem DenseRows_length {m : List (Int × List String)} {pos : Int} (h : DenseRows m pos) :
    pos = (m.length : Int) := by
  obtain ⟨n, rfl, hk⟩ := h
  have := congrArg List.length hk
  simp only [List.length_map, List.length_range] at this
  rw [this]

theorem DenseRows_setRow {m : List (Int × List String)} {pos : Int} (h : DenseRows m pos)
    (row : List String) :
    rowSet m pos row = m ++ [(pos, row)] ∧ DenseRows (rowSet m pos row) (pos + 1) := by
  have e := rowSet_append m pos row (DenseRows_lt h)
  refine ⟨e, ?_⟩
  obtain ⟨n, rfl, hk⟩ := h
  refine ⟨n + 1, by push_cast; rfl, ?_⟩
  rw [e, List.map_append, hk, List.range_succ, List.map_append]
  rfl

theorem RowsAdded_extends {m m' : List (Int × List String)} {pos pos' : Int}
    (hd : DenseRows m pos) (h : RowsAdded pos m pos' m') :
    DenseRows m' pos' ∧ ∃ added, m' = m ++ added := by
  rcases h with ⟨rfl, rfl⟩ | ⟨row, rfl, rfl⟩ | ⟨row1, row2, rfl, rfl⟩
  · exact ⟨hd, [], by simp⟩
  · obtain ⟨e, d⟩ := DenseRows_setRow hd row
    exact ⟨d, _, e⟩
  · obtain ⟨e1, d1⟩ := DenseRows_setRow hd row1
    obtain ⟨e2, d2⟩ := DenseRows_setRow d1 row2
    refine ⟨?_, [(pos, row1), (pos + 1, row2)], ?_⟩
    · have : pos + 2 = pos + 1 + 1 := by ring
      rw [this]; exact d2
    · rw [e2, e1]; simp

theorem unpackLines_append (D : Nat) (l1 l2 : List (List String)) (line : Int)
    (s : Assembler) :
    unpackLines D (l1 ++ l2) line s =
      (unpackLines D l1 line s).bind (fun r => unpackLines D l2 r.1 r.2) := by
  induction l1 generalizing line s with
  | nil => simp [unpackLines]
  | cons fields rest ih =>
    simp only [List.cons_append, unpackLines]
    split_ifs
    · cases h : unpackOp D fields line s with
      | none => simp
      | some r => simp [ih]
    · exact ih _ _

theorem assembleRows_append (l1 l2 : List (Int × List String)) (s : Assembler) :
    assembleRows (l1 ++ l2) s = (assembleRows l1 s).bind (assembleRows l2) := by
  induction l1 generalizing s with
  | nil => simp [assembleRows]
  | cons item rest ih =>
    simp only [List.cons_append, assembleRows]
    cases h : assembleInstruction item.2 item.1 s with
    | none => simp
    | some u => simp [ih]

theorem unpackLines_step (D : Nat) (lines : List (List String)) (line : Int) (s : Assembler)
    (hd : DenseRows s.m_instructionsMap line) :
    ∀ r, unpackLines D lines line s = some r →
      (s.m_error = true → r.2.m_error = true) ∧
      DenseRows r.2.m_instructionsMap r.1 ∧
      ∃ added, r.2.m_instructionsMap = s.m_instructionsMap ++ added := by
  induction lines generalizing line s with
  | nil =>
    intro r hr
    simp only [unpackLines, Option.some.injEq] at hr
    subst hr
    exact ⟨id, hd, [], by simp⟩
  | cons fields rest ih =>
    intro r hr
    simp only [unpackLines] at hr
    split_ifs at hr
    · simp only [Option.bind_eq_some] at hr
      obtain ⟨u, hu, hrest⟩ := hr
      obtain ⟨a1, a2⟩ := unpackOp_step D fields line s u hu
      obtain ⟨d1, x1, e1⟩ := RowsAdded_extends hd a2
      obtain ⟨b1, b2, x2, e2⟩ := ih _ _ d1 r hrest
      exact ⟨fun h => b1 (a1 h), b2, x1 ++ x2, by rw [e2, e1, List.append_assoc]⟩
    · exact ih _ _ hd r hr

theorem DenseRows_restart (prior : Assembler) :
    DenseRows (restart prior).m_instructionsMap 0 :=
  ⟨0, rfl, rfl⟩

/-- C21. In data mode, with `L` bytes in the data segment, `unpackOp` on a statement whose
first field is `lbl:` records `lbl` at `DATASTART/4 + L` (the sum fitting an `int`) and only
then processes the rest of the statement: whatever the rest is, the result holds that
address; a `.word` on the same line appends its 4 bytes after the address was taken.  With
`DATASTART = 0x10000000` and an empty data segment, `label: .word 1` records
`label -> 0x04000000`. -/
theorem data_label_address (D : Nat) (lbl tok : String) (rest : List String) (pos : Int)
    (s : Assembler) (hne : lbl ≠ "") (hcolon : ':' ∉ lbl.data)
    (hdata : s.m_inDataSegment = true)
    (hfit : s.m_dataSegment.length + D / 4 < 2147483648) :
    let address : Int := ((D / 4 : Nat) : Int) + (s.m_dataSegment.length : Int)
    let s1 : Assembler := { s with m_labelPosMap := labelSet s.m_labelPosMap lbl address }
    (∀ r, unpackOp D ((lbl ++ ":") :: rest) pos s = some r →
      mapFind r.2.m_labelPosMap lbl = some address) ∧
    unpackOp D [lbl ++ ":"] pos s = some (pos, s1) ∧
    unpackOp D [lbl ++ ":", ".word", tok] pos s =
      some (pos, appendData s1 (wordBytesLoop 4 (getImmediate tok).1 [])) ∧
    (unpackOp 0x10000000 ["label:", ".word", "1"] 0
        { freshAssembler with m_inDataSegment := true }).map
      (fun r => (r.1, r.2.m_labelPosMap, r.2.m_dataSegment)) =
      some (0, [("label", 0x04000000)], [1, 0, 0, 0]) := by
  have haddr : wrapInt ((s.m_dataSegment.length : Int) + ((D / 4 : Nat) : Int)) =
      ((D / 4 : Nat) : Int) + (s.m_dataSegment.length : Int) := by
    unfold wrapInt
    omega
  have hsel : (if s.m_inDataSegment = true then
      wrapInt ((s.m_dataSegment.length : Int) + ((D / 4 : Nat) : Int)) else pos) =
      ((D / 4 : Nat) : Int) + (s.m_dataSegment.length : Int) := by
    rw [if_pos hdata]
    exact haddr
  intro address s1
  have hop : ∀ fs : List String, unpackOp D ((lbl ++ ":") :: fs) pos s =
      if fs.isEmpty then some (pos, s1) else unpackOperation fs pos s1 := by
    intro fs
    rw [unpackOp_label D lbl fs pos s hne hcolon]
    simp only [hsel]
  refine ⟨?_, ?_, ?_, by decide⟩
  · intro r hr
    rw [hop rest] at hr
    split_ifs at hr
    · cases hr
      exact mapFind_mapSetBy_self _ _ _ _
    · rw [(unpackOperation_step _ _ _ r hr).1]
      exact mapFind_mapSetBy_self _ _ _ _
  · rw [hop []]
    rfl
  · rw [hop [".word", tok]]
    simp [unpackOperation, pseudoOps, assembleAssemblerDirective]

/-- Witness of C21: the label `msg` defined when the data segment holds 8 bytes is recorded
at `0x04000008`; the `.word 7` of the same line lands behind those 8 bytes. -/
theorem data_label_address_witness :
    unpackOp 0x10000000 ["msg:", ".word", "7"] 3
        (⟨false, true, true, [], [], [], [], [1, 0, 0, 0, 2, 0, 0, 0]⟩ : Assembler) =
      some (3, (⟨false, true, true, [], [], [("msg", 0x04000008)], [],
        [1, 0, 0, 0, 2, 0, 0, 0, 7, 0, 0, 0]⟩ : Assembler)) :=
  (data_label_address 0x10000000 "msg" "7" [] 3
      ⟨false, true, true, [], [], [], [], [1, 0, 0, 0, 2, 0, 0, 0]⟩
      (by decide) (by decide) rfl (by decide)).2.2.1.trans (by decide)

/-! ## Labels in the two segments -/

/-- C22 (failing input). With `DATASTART = 0x10000000`, the program `.data`, `.word 1`,
`foo: .word 2` places the word 2 at byte 4 of the data segment, that is at the byte address
`0x10000004`, and records `foo -> 0x04000004`, four times which is `0x10000010`, not
`0x10000004`: the length of the data segment is added in bytes to a base counted in words. -/
theorem data_label_not_word_address :
    (assembleBinaryFile 0x10000000 splitQuotes [".data", ".word\t1", "foo:\t.word\t2"]
        freshAssembler).map
      (fun a => (a.m_dataSegment, mapFind a.m_labelPosMap "foo",
        (mapFind a.m_labelPosMap "foo").map (fun v => 4 * v),
        (mapFind a.m_labelPosMap "foo").map (fun v => decide (4 * v = 0x10000000 + 4)))) =
      some ([1, 0, 0, 0, 2, 0, 0, 0], some 0x04000004, some 0x10000010, some false) := by
  decide

/-- C23 (counterexample). The line `a:b:<tab>nop` reaches `unpackOp` as the fields `a:`,
`b:`, `nop`.  After `a` is recorded the remaining fields go to the operation dispatch, which
stores the row `b: nop` and records no label `b`; the statement without its first label,
`b:`, `nop`, given to `unpackOp` at the same cursor, records `b` and stores the row of
`nop`. -/
theorem second_label_stored_as_row :
    lineFields splitQuotes "a:b:\tnop" = ["a:", "b:", "nop"] ∧
    (unpackOp 0x10000000 ["a:", "b:", "nop"] 0 freshAssembler).map
      (fun r => (r.1, r.2.m_instructionsMap, r.2.m_labelPosMap)) =
      some (1, [(0, ["b:", "nop"])], [("a", 0)]) ∧
    (unpackOp 0x10000000 ["b:", "nop"] 0
        (⟨false, false, false, [], [], [("a", 0)], [], []⟩ : Assembler)).map
      (fun r => (r.1, r.2.m_instructionsMap, r.2.m_labelPosMap)) =
      some (1, [(0, ["addi", "x0", "x0", "0"])], [("a", 0), ("b", 0)]) :=
  ⟨by decide, by decide, by decide⟩

/-- C23 (amended). In text mode `unpackOp` at cursor `p` on a statement whose first field is
`lbl:` records `lbl -> p`, whatever follows.  With no further field the result is the cursor
`p` and the state changed in the symbol table only; further fields whose first one has no
colon are processed as `unpackOp` processes them alone at cursor `p` in the state that holds
the label.  In a first pass started by `restart` at cursor 0, the cursor, and so the
address of a text label, is the number of rows stored by the statements before it: in
`call foo`, `lbl: nop` the label is recorded at 2. -/
theorem text_label_address (D : Nat) (lbl : String) (rest : List String) (p : Int)
    (s : Assembler) (hne : lbl ≠ "") (hcolon : ':' ∉ lbl.data)
    (htext : s.m_inDataSegment = false) :
    let s1 : Assembler := { s with m_labelPosMap := labelSet s.m_labelPosMap lbl p }
    (∀ r, unpackOp D ((lbl ++ ":") :: rest) p s = some r →
      mapFind r.2.m_labelPosMap lbl = some p) ∧
    unpackOp D [lbl ++ ":"] p s = some (p, s1) ∧
    (∀ f fs, rest = f :: fs → ':' ∉ f.data →
      unpackOp D ((lbl ++ ":") :: rest) p s = unpackOp D rest p s1) ∧
    (∀ prior pre, unpackLines D pre 0 (restart prior) = some (p, s) →
      p = (s.m_instructionsMap.length : Int)) ∧
    (unpackLines 0x10000000 [["call", "foo"], ["lbl:", "nop"]] 0 (restart freshAssembler)).map
      (fun r => (r.1, r.2.m_instructionsMap.length, r.2.m_labelPosMap)) =
      some (3, 3, [("lbl", 2)]) := by
  intro s1
  have hsel : (if s.m_inDataSegment = true then
      wrapInt ((s.m_dataSegment.length : Int) + ((D / 4 : Nat) : Int)) else p) = p := by
    rw [htext]
    rfl
  have hop : ∀ fs : List String, unpackOp D ((lbl ++ ":") :: fs) p s =
      if fs.isEmpty then some (p, s1) else unpackOperation fs p s1 := by
    intro fs
    rw [unpackOp_label D lbl fs p s hne hcolon]
    simp only [hsel]
  refine ⟨?_, ?_, ?_, ?_, ?_⟩
  · intro r hr
    rw [hop rest] at hr
    split_ifs at hr
    · cases hr
      exact mapFind_mapSetBy_self _ _ _ _
    · rw [(unpackOperation_step _ _ _ r hr).1]
      exact mapFind_mapSetBy_self _ _ _ _
  · rw [hop []]
    rfl
  · intro f fs hfs hf
    subst hfs
    have hc : f.data.contains ':' = false := by simpa using hf
    rw [hop (f :: fs), unpackOp_of_no_colon D f fs p s1 hc]
    rfl
  · intro prior pre hpre
    have h := (unpackLines_step D pre 0 (restart prior) (DenseRows_restart prior) _ hpre).2.1
    exact DenseRows_length h
  · decide

/-- Witness of C23 (amended): the label `loop` at cursor 2, alone and before a `nop`. -/
theorem text_label_address_witness :
    unpackOp 0x10000000 ["loop:"] 2
        (⟨false, false, false, [(0, ["addi", "x0", "x0", "0"]), (1, ["addi", "x0", "x0", "0"])],
          [], [], [], []⟩ : Assembler) =
      some (2, (⟨false, false, false,
        [(0, ["addi", "x0", "x0", "0"]), (1, ["addi", "x0", "x0", "0"])],
        [], [("loop", 2)], [], []⟩ : Assembler)) ∧
    unpackOp 0x10000000 ["loop:", "nop"] 2
        (⟨false, false, false, [(0, ["addi", "x0", "x0", "0"]), (1, ["addi", "x0", "x0", "0"])],
          [], [], [], []⟩ : Assembler) =
      unpackOp 0x10000000 ["nop"] 2 (⟨false, false, false,
        [(0, ["addi", "x0", "x0", "0"]), (1, ["addi", "x0", "x0", "0"])],
        [], [("loop", 2)], [], []⟩ : Assembler) :=
  ⟨(text_label_address 0x10000000 "loop" [] 2
      ⟨false, false, false, [(0, ["addi", "x0", "x0", "0"]), (1, ["addi", "x0", "x0", "0"])],
        [], [], [], []⟩ (by decide) (by decide) rfl).2.1.trans (by decide),
   ((text_label_address 0x10000000 "loop" ["nop"] 2
      ⟨false, false, false, [(0, ["addi", "x0", "x0", "0"]), (1, ["addi", "x0", "x0", "0"])],
        [], [], [], []⟩ (by decide) (by decide) rfl).2.2.1 "nop" [] rfl (by decide)).trans
    (by decide)⟩

/-! ## The error flag -/

/-- C24 (failing input). The directive `.globl main` passes through `unpackOp` without the
error flag being touched: it appends no byte, sets `m_hasData` and keeps the cursor, in every
state; the program `.globl main`, `nop` ends with the flag unset.  The else branch that sets
the flag for an unknown mnemonic in `unpackPseudoOp` and `assembleInstruction` has no
counterpart in `assembleAssemblerDirective`. -/
theorem unknown_directive_sets_no_error :
    (∀ (D : Nat) (pos : Int) (s : Assembler),
      unpackOp D [".globl", "main"] pos s =
        some (pos, { s with m_dataSegment := s.m_dataSegment ++ [], m_hasData := true })) ∧
    (assembleBinaryFile 0x10000000 splitQuotes [".globl\tmain", "nop"] freshAssembler).map
      (fun a => (a.m_error, a.m_hasData, a.m_dataSegment, a.m_textSegment)) =
      some (false, true, [], [0x13, 0, 0, 0]) ∧
    (assembleBinaryFile 0x10000000 splitQuotes ["foo\tmain", "nop"] freshAssembler).map
      (fun a => a.m_error) = some true := by
  refine ⟨fun D pos s => ?_, by decide, by decide⟩
  rw [unpackOp_of_no_colon D ".globl" ["main"] pos s (by decide)]
  rfl

/-- C25 (failing input). A branch or a `jal` to a label that no statement defines leaves
the error flag unset: reading the label inserts it with the address 0 and the word is
emitted with the offset counted from row 0.  The same undefined label in a `jalr` row sets
the flag. -/
theorem undefined_branch_label_sets_no_error :
    (assembleBinaryFile 0x10000000 splitQuotes ["nop", "beq\tx1,x2,foo"] freshAssembler).map
      (fun a => (a.m_error, a.m_labelPosMap, a.m_textSegment.length)) =
      some (false, [("foo", 0)], 8) ∧
    (assembleBinaryFile 0x10000000 splitQuotes ["nop", "jal\tx1,foo"] freshAssembler).map
      (fun a => (a.m_error, a.m_labelPosMap, a.m_textSegment.length)) =
      some (false, [("foo", 0)], 8) ∧
    (assembleBinaryFile 0x10000000 splitQuotes ["nop", "jalr\tx0,x1,foo"] freshAssembler).map
      (fun a => (a.m_error, a.m_labelPosMap, a.m_textSegment.length)) =
      some (true, [("foo", 0)], 8) :=
  ⟨by decide, by decide, by decide⟩

/-- C26 (failing input). `slli x1,x2,foo` and `lui x1,foo`, with `foo` neither a number nor
a label, are encoded with the immediate 0 and leave the error flag unset; `addi x1,x2,foo`
sets it. -/
theorem unparsable_immediate_sets_no_error :
    getImmediate "foo" = (0, false) ∧
    (assembleBinaryFile 0x10000000 splitQuotes ["slli\tx1,x2,foo"] freshAssembler).map
      (fun a => (a.m_error, a.m_labelPosMap, a.m_textSegment)) =
      some (false, [], uintToByteArr (0x13 ||| shl32 1 12 ||| shl32 1 7 ||| shl32 2 15)) ∧
    (assembleBinaryFile 0x10000000 splitQuotes ["lui\tx1,foo"] freshAssembler).map
      (fun a => (a.m_error, a.m_labelPosMap, a.m_textSegment)) =
      some (false, [], uintToByteArr (0x37 ||| shl32 1 7)) ∧
    (assembleBinaryFile 0x10000000 splitQuotes ["addi\tx1,x2,foo"] freshAssembler).map
      (fun a => (a.m_error, a.m_labelPosMap)) = some (true, [("foo", 0)]) :=
  ⟨by decide, by decide, by decide, by decide⟩

theorem unpackLines_error (D : Nat) (lines : List (List String)) (line : Int) (s : Assembler)
    (herr : s.m_error = true) :
    ∀ r, unpackLines D lines line s = some r → r.2.m_error = true := by
  induction lines generalizing line s with
  | nil =>
    intro r hr
    simp only [unpackLines, Option.some.injEq] at hr
    subst hr
    exact herr
  | cons fields rest ih =>
    intro r hr
    simp only [unpackLines] at hr
    split_ifs at hr
    · simp only [Option.bind_eq_some] at hr
      obtain ⟨u, hu, hrest⟩ := hr
      exact ih _ _ ((unpackOp_step D fields line s u hu).1 herr) r hrest
    · exact ih _ _ herr r hr

theorem appendText_extends {o : Option (List Nat × Assembler)} {s s' : Assembler}
    (hframe : ∀ bytes u, o = some (bytes, u) → u.m_textSegment = s.m_textSegment)
    (h : appendText o = some s') : s.m_textSegment <+: s'.m_textSegment := by
  cases o with
  | none => simp [appendText] at h
  | some p =>
    obtain ⟨bytes, u⟩ := p
    have h1 := hframe bytes u rfl
    simp only [appendText, Option.map_some', Option.some.injEq] at h
    subst h
    exact ⟨bytes, by rw [h1]⟩

theorem assembleInstruction_extends (fields : List String) (row : Int) (s : Assembler) :
    ∀ s', assembleInstruction fields row s = some s' →
      s.m_textSegment <+: s'.m_textSegment := by
  intro s' h
  cases fields with
  | nil => simp [assembleInstruction] at h
  | cons instruction rest =>
    simp only [assembleInstruction, List.getElem?_cons_zero, Option.bind_eq_bind,
      Option.some_bind] at h
    by_cases h1 : instruction ∈ opImmInstructions
    · rw [if_pos h1] at h
      exact appendText_extends (fun _ _ hh => (assembleOpImmInstruction_frame hh).2.2.1) h
    rw [if_neg h1] at h
    by_cases h2 : instruction ∈ opInstructions
    · rw [if_pos h2] at h
      exact appendText_extends (fun _ _ hh => (assembleOpInstruction_frame hh).2.2.1) h
    rw [if_neg h2] at h
    by_cases h3 : instruction ∈ storeInstructions
    · rw [if_pos h3] at h
      exact appendText_extends (fun _ _ hh => (assembleStoreInstruction_frame hh).2.2.1) h
    rw [if_neg h3] at h
    by_cases h4 : instruction ∈ loadInstructions
    · rw [if_pos h4] at h
      exact appendText_extends (fun _ _ hh => (assembleLoadInstruction_frame hh).2.2.1) h
    rw [if_neg h4] at h
    by_cases h5 : instruction ∈ branchInstructions
    · rw [if_pos h5] at h
      exact appendText_extends (fun _ _ hh => (assembleBranchInstruction_frame hh).2.2.1) h
    rw [if_neg h5] at h
    by_cases h6 : instruction = "jalr"
    · rw [if_pos h6] at h
      exact appendText_extends (fun _ _ hh => (assembleJalrInstruction_frame hh).2.2.1) h
    rw [if_neg h6] at h
    by_cases h7 : instruction = "lui"
    · rw [if_pos h7] at h
      simp only [Option.bind_eq_some] at h
      obtain ⟨f1, -, f2, -, h⟩ := h
      refine appendText_extends (fun bytes u hh => ?_) h
      simp only [Option.some.injEq, Prod.mk.injEq] at hh
      rw [← hh.2]
    rw [if_neg h7] at h
    by_cases h8 : instruction = "auipc"
    · rw [if_pos h8] at h
      exact appendText_extends (fun _ _ hh => (assembleAuipcInstruction_frame hh).2.2.1) h
    rw [if_neg h8] at h
    by_cases h9 : instruction = "jal"
    · rw [if_pos h9] at h
      simp only [Option.bind_eq_some] at h
      obtain ⟨f1, -, f2, -, h⟩ := h
      refine appendText_extends (fun bytes u hh => ?_) h
      simp only [Option.some.injEq, Prod.mk.injEq] at hh
      rw [← hh.2]
      exact (labelPosAt_frame s f2).2.1
    rw [if_neg h9] at h
    by_cases h10 : instruction = "ecall"
    · rw [if_pos h10] at h
      refine appendText_extends (fun bytes u hh => ?_) h
      simp only [Option.some.injEq, Prod.mk.injEq] at hh
      rw [← hh.2]
    rw [if_neg h10] at h
    simp only [Option.some.injEq] at h
    subst h
    exact List.prefix_refl _

theorem assembleRows_extends (rows : List (Int × List String)) (s : Assembler) :
    ∀ s', assembleRows rows s = some s' → s.m_textSegment <+: s'.m_textSegment := by
  induction rows generalizing s with
  | nil =>
    intro s' h
    simp only [assembleRows, Option.some.injEq] at h
    subst h
    exact List.prefix_refl _
  | cons item rest ih =>
    intro s' h
    simp only [assembleRows, Option.bind_eq_some] at h
    obtain ⟨u, hu, hrest⟩ := h
    exact (assembleInstruction_extends _ _ _ u hu).trans (ih u s' hrest)

theorem unknown_operation (f0 : String) (rest : List String) (p : Int) (s : Assembler)
    (hdot : f0.data.head? ≠ some '.') (hpseudo : f0 ∉ pseudoOps ∨ f0 = "begz") :
    (∃ u, unpackOperation (f0 :: rest) p s = some (p, u) ∧ u.m_error = true ∧
      u.m_instructionsMap = s.m_instructionsMap) ∨
    (∃ u, unpackOperation (f0 :: rest) p s = some (p + 1, u) ∧
      u.m_instructionsMap = rowSet s.m_instructionsMap p (f0 :: rest)) := by
  by_cases hp : f0 ∈ pseudoOps
  · have hf : f0 = "begz" := by
      rcases hpseudo with h | h
      · exact absurd hp h
      · exact h
    subst hf
    refine Or.inl ⟨{ s with m_error := true }, ?_, rfl, rfl⟩
    simp [unpackOperation, pseudoOps, unpackPseudoOp]
  · refine Or.inr ?_
    simp only [unpackOperation, List.getElem?_cons_zero, Option.bind_eq_bind, Option.some_bind,
      if_neg hp, if_neg hdot]
    cases hl : (f0 :: rest).getLast? with
    | none => simp at hl
    | some last =>
      simp only [Option.some_bind]
      split
      · exact ⟨_, rfl, rfl⟩
      · exact ⟨_, rfl, rfl⟩

theorem mem_of_unknown_statement (D : Nat) (stmt : List String) (f0 : String)
    (rest : List String) (p : Int) (s : Assembler) (r : Int × Assembler)
    (hstmt : (stmt = f0 :: rest ∧ ':' ∉ f0.data) ∨
      ∃ lbl, lbl ≠ "" ∧ ':' ∉ lbl.data ∧ stmt = (lbl ++ ":") :: f0 :: rest)
    (hdot : f0.data.head? ≠ some '.') (hpseudo : f0 ∉ pseudoOps ∨ f0 = "begz")
    (hd : DenseRows s.m_instructionsMap p) (hr : unpackOp D stmt p s = some r) :
    r.2.m_error = true ∨ (p, f0 :: rest) ∈ r.2.m_instructionsMap := by
  have key : ∀ s1 : Assembler, s1.m_instructionsMap = s.m_instructionsMap →
      unpackOperation (f0 :: rest) p s1 = some r →
      r.2.m_error = true ∨ (p, f0 :: rest) ∈ r.2.m_instructionsMap := by
    intro s1 hs1 h
    rcases unknown_operation f0 rest p s1 hdot hpseudo with ⟨u, hu, he, -⟩ | ⟨u, hu, hm⟩
    · rw [hu] at h
      cases h
      exact Or.inl he
    · rw [hu] at h
      cases h
      refine Or.inr ?_
      show (p, f0 :: rest) ∈ u.m_instructionsMap
      rw [hm, hs1, (DenseRows_setRow hd (f0 :: rest)).1]
      simp
  rcases hstmt with ⟨rfl, hc⟩ | ⟨lbl, hne, hc, rfl⟩
  · rw [unpackOp_of_no_colon D f0 rest p s (by simpa using hc)] at hr
    exact key s rfl hr
  · rw [unpackOp_label D lbl (f0 :: rest) p s hne hc] at hr
    simp only [List.isEmpty_cons, Bool.false_eq_true, if_false] at hr
    refine key _ ?_ hr
    rfl

/-- C27. If a statement of the source, with or without a label before it, has a mnemonic
that `assembleInstruction` does not encode and that `unpackPseudoOp` does not expand (it is
not in `pseudoOps`, or it is the entry `begz`, which has no expansion), and that is not a
directive, then every run of `assembleBinaryFile` over the source that returns, returns with
the error flag set.  The second pass only appends: the text segment reached after any
initial part of the rows is a prefix of the final text segment. -/
theorem unknown_mnemonic_sets_error (D : Nat) (sq : List String → List String)
    (doc : List String) (prior a : Assembler) (stmt : List String) (f0 : String)
    (rest : List String)
    (hrun : assembleBinaryFile D sq doc prior = some a)
    (hmem : stmt ∈ doc.map (lineFields sq))
    (hstmt : (stmt = f0 :: rest ∧ ':' ∉ f0.data) ∨
      ∃ lbl, lbl ≠ "" ∧ ':' ∉ lbl.data ∧ stmt = (lbl ++ ":") :: f0 :: rest)
    (hdot : f0.data.head? ≠ some '.')
    (hunknown : knownInstruction (f0 :: rest) = false)
    (hpseudo : f0 ∉ pseudoOps ∨ f0 = "begz") :
    a.m_error = true ∧
    ∀ r, unpackLines D (doc.map (lineFields sq)) 0 (restart prior) = some r →
      ∀ done todo u, r.2.m_instructionsMap = done ++ todo →
        assembleRows done r.2 = some u → u.m_textSegment <+: a.m_textSegment := by
  simp only [assembleBinaryFile, assembleLines, Option.bind_eq_some] at hrun
  obtain ⟨r, hr, ha⟩ := hrun
  generalize doc.map (lineFields sq) = lines at hmem hr
  refine ⟨?_, ?_⟩
  · obtain ⟨pre, post, rfl⟩ := List.append_of_mem hmem
    rw [unpackLines_append] at hr
    simp only [Option.bind_eq_some] at hr
    obtain ⟨r1, hr1, hr⟩ := hr
    have hlen : stmt.length > 0 := by
      rcases hstmt with ⟨rfl, -⟩ | ⟨lbl, -, -, rfl⟩ <;> simp
    simp only [unpackLines, if_pos hlen, Option.bind_eq_some] at hr
    obtain ⟨r2, hr2, hr⟩ := hr
    obtain ⟨-, d1, -⟩ := unpackLines_step D pre 0 (restart prior) (DenseRows_restart prior) r1 hr1
    have d2 := (RowsAdded_extends d1 (unpackOp_step D stmt r1.1 r1.2 r2 hr2).2).1
    obtain ⟨e3, -, added, hadd⟩ := unpackLines_step D post r2.1 r2.2 d2 r hr
    obtain ⟨-, -, s1, s2⟩ := assembleRows_text ha
    rcases mem_of_unknown_statement D stmt f0 rest r1.1 r1.2 r2 hstmt hdot hpseudo d1 hr2
      with he | hrow
    · exact s1 (e3 he)
    · cases hb : a.m_error with
      | true => rfl
      | false =>
        have hk := s2 hb (r1.1, f0 :: rest) (by rw [hadd]; exact List.mem_append_left _ hrow)
        rw [hunknown] at hk
        cases hk
  · intro r' hr' done todo u hsplit hu
    rw [hr] at hr'
    cases hr'
    rw [hsplit, assembleRows_append, hu] at ha
    exact assembleRows_extends todo u a ha

/-- Witness of C27: the source `nop`, `lbl:<tab>foo<tab>x1`, `nop`. -/
theorem unknown_mnemonic_sets_error_witness :
    (⟨true, false, false,
      [(0, ["addi", "x0", "x0", "0"]), (1, ["foo", "x1"]), (2, ["addi", "x0", "x0", "0"])],
      [], [("lbl", 1)], [0x13, 0, 0, 0, 0x13, 0, 0, 0], []⟩ : Assembler).m_error = true :=
  (unknown_mnemonic_sets_error 0x10000000 splitQuotes ["nop", "lbl:\tfoo\tx1", "nop"]
    freshAssembler _ ["lbl:", "foo", "x1"] "foo" ["x1"] (by decide) (by decide)
    (Or.inr ⟨"lbl", by decide, by decide, by decide⟩) (by decide) (by decide)
    (Or.inl (by decide))).1

/-- C28. From a state whose error flag is set, every first-pass step (`unpackOp`,
`unpackPseudoOp`, `assembleAssemblerDirective`, and a whole first pass) and every encoding
step (`assembleInstruction`, each of its seven helpers, and a whole second pass) that
returns, returns a state whose flag is still set; `restart` returns a state whose flag is
unset. -/
theorem error_flag_sticky (D : Nat) (fields : List String) (pos row : Int) (s : Assembler)
    (herr : s.m_error = true) :
    (∀ r, unpackOp D fields pos s = some r → r.2.m_error = true) ∧
    (∀ r, unpackPseudoOp fields pos s = some r → r.2.m_error = true) ∧
    (∀ u, assembleAssemblerDirective fields s = some u → u.m_error = true) ∧
    (∀ lines r, unpackLines D lines pos s = some r → r.2.m_error = true) ∧
    (∀ u, assembleInstruction fields row s = some u → u.m_error = true) ∧
    (∀ b u, assembleOpImmInstruction fields row s = some (b, u) → u.m_error = true) ∧
    (∀ b u, assembleOpInstruction fields row s = some (b, u) → u.m_error = true) ∧
    (∀ b u, assembleStoreInstruction fields row s = some (b, u) → u.m_error = true) ∧
    (∀ b u, assembleLoadInstruction fields row s = some (b, u) → u.m_error = true) ∧
    (∀ b u, assembleBranchInstruction fields row s = some (b, u) → u.m_error = true) ∧
    (∀ b u, assembleAuipcInstruction fields row s = some (b, u) → u.m_error = true) ∧
    (∀ b u, assembleJalrInstruction fields row s = some (b, u) → u.m_error = true) ∧
    (∀ rows u, assembleRows rows s = some u → u.m_error = true) ∧
    (restart s).m_error = false := by
  refine ⟨?_, ?_, ?_, ?_, ?_, ?_, ?_, ?_, ?_, ?_, ?_, ?_, ?_, rfl⟩
  · exact fun r hr => (unpackOp_step D fields pos s r hr).1 herr
  · exact fun r hr => (unpackPseudoOp_labels fields pos s r hr).2.2 herr
  · intro u hu
    rw [(assembleAssemblerDirective_labels fields s u hu).2.1]
    exact herr
  · exact fun lines r hr => unpackLines_error D lines pos s herr r hr
  · exact fun u hu => (assembleInstruction_text hu).2.2.1 herr
  · exact fun b u hu => (assembleOpImmInstruction_frame hu).2.2.2 herr
  · exact fun b u hu => (assembleOpInstruction_frame hu).2.2.2 herr
  · exact fun b u hu => (assembleStoreInstruction_frame hu).2.2.2 herr
  · exact fun b u hu => (assembleLoadInstruction_frame hu).2.2.2 herr
  · exact fun b u hu => (assembleBranchInstruction_frame hu).2.2.2 herr
  · exact fun b u hu => (assembleAuipcInstruction_frame hu).2.2.2 herr
  · exact fun b u hu => (assembleJalrInstruction_frame hu).2.2.2 herr
  · exact fun rows u hu => (assembleRows_text hu).2.2.1 herr

/-- Witness of C28: with the flag set, the statement `nop` in the first pass and the row
`addi x0,x0,0` in the second pass leave it set. -/
theorem error_flag_sticky_witness :
    ((1 : Int), (⟨true, false, false, [(0, ["addi", "x0", "x0", "0"])], [], [], [], []⟩ :
      Assembler)).2.m_error = true ∧
    (⟨true, false, false, [], [], [], [0x13, 0, 0, 0], []⟩ : Assembler).m_error = true :=
  ⟨(error_flag_sticky 0x10000000 ["nop"] 0 0 ⟨true, false, false, [], [], [], [], []⟩ rfl).1
      _ (by decide),
   (error_flag_sticky 0x10000000 ["addi", "x0", "x0", "0"] 0 0
      ⟨true, false, false, [], [], [], [], []⟩ rfl).2.2.2.2.1 _ (by decide)⟩

/-! ## State kept between runs, and register names -/

/-- C29 (failing input). `restart` leaves `m_inDataSegment` as it was.  The source `.data`,
`.word 1` ends in data mode; the source `foo:`, `la x5,foo` assembled by the same assembler
afterwards records `foo` at `DATASTART/4` and emits the `auipc` word `97 02 00 10`, where a
new assembler records `foo` at 0 and emits `97 02 00 00`. -/
theorem restart_keeps_segment_mode :
    (∀ s : Assembler, (restart s).m_inDataSegment = s.m_inDataSegment) ∧
    ((assembleBinaryFile 0x10000000 splitQuotes [".data", ".word\t1"] freshAssembler).bind
        (fun a1 => assembleBinaryFile 0x10000000 splitQuotes ["foo:", "la\tx5,foo"] a1)).map
      (fun a => (a.m_error, a.m_labelPosMap, a.m_textSegment, a.m_dataSegment)) =
      some (false, [("foo", 0x04000000)], [0x97, 0x02, 0, 0x10, 0x93, 0x82, 0x02, 0], []) ∧
    (assembleBinaryFile 0x10000000 splitQuotes ["foo:", "la\tx5,foo"] freshAssembler).map
      (fun a => (a.m_error, a.m_labelPosMap, a.m_textSegment, a.m_dataSegment)) =
      some (false, [("foo", 0)], [0x97, 0x02, 0, 0, 0x93, 0x82, 0x02, 0], []) :=
  ⟨fun _ => rfl, by decide, by decide⟩

/-- C30 (failing input). `getRegisterNumber` returns `n` for each name `x<n>` with `n` from
0 to 31, and it rejects no name that starts with `x`: `x32` gives 32, `xyz` gives 0 and
`x-1` gives `2^32 - 1`.  The row `addi x32,x0,0` is assembled with the error flag unset,
bit 12 of the word taking the bit of the register number that does not fit the field. -/
theorem register_number_unchecked :
    (∀ n < 32, getRegisterNumber ("x" ++ toString n) = n) ∧
    getRegisterNumber "x32" = 32 ∧ getRegisterNumber "xyz" = 0 ∧
    getRegisterNumber "x-1" = 4294967295 ∧
    (assembleBinaryFile 0x10000000 splitQuotes ["addi\tx32,x0,0"] freshAssembler).map
      (fun a => (a.m_error, a.m_textSegment)) = some (false, [0x13, 0x10, 0, 0]) :=
  ⟨by decide, by decide, by decide, by decide, by decide⟩

/-! ## The label-use map, immediates in the rows, and the symbol table in the second pass -/

/-- C32 (failing input). What `unpackOp` leaves in the label-use map, from the cursor 0 and
an empty map: `beq x1,x2,loop` and both rows of `call foo` are recorded with the label; the
branch pseudo-ops `bnez x1,loop` and `bgt x1,x2,loop` record nothing; `la x5,foo` records its
`auipc` row only; the two rows of `lw x5,foo` and of `sw x5,foo,x6` are recorded with the
register `x5` in place of the label. -/
theorem label_use_map_misses_rows :
    (unpackOp 0x10000000 ["beq", "x1", "x2", "loop"] 0 freshAssembler).map
      (fun r => (r.2.m_instructionsMap, r.2.m_lineLabelUsageMap)) =
      some ([(0, ["beq", "x1", "x2", "loop"])], [(0, "loop")]) ∧
    (unpackOp 0x10000000 ["call", "foo"] 0 freshAssembler).map
      (fun r => (r.2.m_instructionsMap, r.2.m_lineLabelUsageMap)) =
      some ([(0, ["auipc", "x6", "foo"]), (1, ["jalr", "x1", "x6", "foo"])],
        [(0, "foo"), (1, "foo")]) ∧
    (unpackOp 0x10000000 ["bnez", "x1", "loop"] 0 freshAssembler).map
      (fun r => (r.2.m_instructionsMap, r.2.m_lineLabelUsageMap)) =
      some ([(0, ["bne", "x1", "x0", "loop"])], []) ∧
    (unpackOp 0x10000000 ["bgt", "x1", "x2", "loop"] 0 freshAssembler).map
      (fun r => (r.2.m_instructionsMap, r.2.m_lineLabelUsageMap)) =
      some ([(0, ["blt", "x2", "x1", "loop"])], []) ∧
    (unpackOp 0x10000000 ["la", "x5", "foo"] 0 freshAssembler).map
      (fun r => (r.2.m_instructionsMap, r.2.m_lineLabelUsageMap)) =
      some ([(0, ["auipc", "x5", "foo"]), (1, ["addi", "x5", "x5", "foo"])], [(0, "foo")]) ∧
    (unpackOp 0x10000000 ["lw", "x5", "foo"] 0 freshAssembler).map
      (fun r => (r.2.m_instructionsMap, r.2.m_lineLabelUsageMap)) =
      some ([(0, ["auipc", "x5", "foo"]), (1, ["lw", "x5", "foo", "x5"])],
        [(0, "x5"), (1, "x5")]) ∧
    (unpackOp 0x10000000 ["sw", "x5", "foo", "x6"] 0 freshAssembler).map
      (fun r => (r.2.m_instructionsMap, r.2.m_lineLabelUsageMap)) =
      some ([(0, ["auipc", "x6", "foo"]), (1, ["sw", "x5", "0", "x6"])],
        [(0, "x5"), (1, "x5")]) :=
  ⟨by decide, by decide, by decide, by decide, by decide, by decide, by decide⟩

/-- C35 (failing input). `sw x1,0x10,x2` is stored with the field `0x10` as written and
assembled with the error flag set, the symbol table extended by `0x10 -> 0` and the
immediate 4, where `sw x1,16,x2` gives the immediate 16 and no error; `lui x5,0x12` is stored
as written and assembled as `lui x5,0`, where `lui x5,18` gives `b7 22 01 00`.  The load
`lw x1,0x10,x2` is stored as `lw x1,16,x2` and gives the word of the decimal form. -/
theorem hex_immediate_not_converted :
    (assembleBinaryFile 0x10000000 splitQuotes ["sw\tx1,0x10,x2"] freshAssembler).map
      (fun a => (a.m_error, a.m_instructionsMap, a.m_textSegment)) =
      some (true, [(0, ["sw", "x1", "0x10", "x2"])], [0x23, 0x22, 0x11, 0]) ∧
    (assembleBinaryFile 0x10000000 splitQuotes ["sw\tx1,0x10,x2"] freshAssembler).map
      (fun a => a.m_labelPosMap) = some [("0x10", 0)] ∧
    (assembleBinaryFile 0x10000000 splitQuotes ["sw\tx1,16,x2"] freshAssembler).map
      (fun a => (a.m_error, a.m_instructionsMap, a.m_textSegment)) =
      some (false, [(0, ["sw", "x1", "16", "x2"])], [0x23, 0x28, 0x11, 0]) ∧
    (assembleBinaryFile 0x10000000 splitQuotes ["lui\tx5,0x12"] freshAssembler).map
      (fun a => (a.m_error, a.m_instructionsMap, a.m_textSegment)) =
      some (false, [(0, ["lui", "x5", "0x12"])], [0xb7, 0x02, 0, 0]) ∧
    (assembleBinaryFile 0x10000000 splitQuotes ["lui\tx5,18"] freshAssembler).map
      (fun a => (a.m_error, a.m_instructionsMap, a.m_textSegment)) =
      some (false, [(0, ["lui", "x5", "18"])], [0xb7, 0x22, 0x01, 0]) ∧
    (assembleBinaryFile 0x10000000 splitQuotes ["lw\tx1,0x10,x2"] freshAssembler).map
      (fun a => (a.m_error, a.m_instructionsMap, a.m_textSegment)) =
      some (false, [(0, ["lw", "x1", "16", "x2"])], [0x83, 0x20, 0x01, 0x01]) ∧
    (assembleBinaryFile 0x10000000 splitQuotes ["lw\tx1,16,x2"] freshAssembler).map
      (fun a => (a.m_error, a.m_instructionsMap, a.m_textSegment)) =
      some (false, [(0, ["lw", "x1", "16", "x2"])], [0x83, 0x20, 0x01, 0x01]) :=
  ⟨by decide, by decide, by decide, by decide, by decide, by decide, by decide⟩

/-- C37 (failing input). For all operands, rows and states the encoder returns for `srl`
what it returns for `add`, and for `srai` what it returns for `srli`: the source
`srl x1,x2,x3` is assembled to the word of `add x1,x2,x3`, `b3 00 31 00`, and `srai x1,x2,3`
to the word of `srli x1,x2,3`, `93 50 31 00`. -/
theorem srl_encoded_as_add :
    (∀ (rd rs1 rs2 : String) (row : Int) (s : Assembler),
      assembleOpInstruction ["srl", rd, rs1, rs2] row s =
        assembleOpInstruction ["add", rd, rs1, rs2] row s) ∧
    (∀ (rd rs1 imm : String) (row : Int) (s : Assembler),
      assembleOpImmInstruction ["srai", rd, rs1, imm] row s =
        assembleOpImmInstruction ["srli", rd, rs1, imm] row s) ∧
    (assembleBinaryFile 0x10000000 splitQuotes ["srl\tx1,x2,x3"] freshAssembler).map
      (fun a => (a.m_error, a.m_textSegment)) = some (false, [0xb3, 0x00, 0x31, 0x00]) ∧
    (assembleBinaryFile 0x10000000 splitQuotes ["add\tx1,x2,x3"] freshAssembler).map
      (fun a => (a.m_error, a.m_textSegment)) = some (false, [0xb3, 0x00, 0x31, 0x00]) ∧
    (assembleBinaryFile 0x10000000 splitQuotes ["srai\tx1,x2,3"] freshAssembler).map
      (fun a => (a.m_error, a.m_textSegment)) = some (false, [0x93, 0x50, 0x31, 0x00]) ∧
    (assembleBinaryFile 0x10000000 splitQuotes ["srli\tx1,x2,3"] freshAssembler).map
      (fun a => (a.m_error, a.m_textSegment)) = some (false, [0x93, 0x50, 0x31, 0x00]) :=
  ⟨fun _ _ _ _ _ => rfl, fun _ _ _ _ _ => rfl, by decide, by decide, by decide, by decide⟩

/-- C38 (failing input). For the source `foo: nop`, `beq x1,x2,bar` the symbol table after
the first pass is `foo -> 0`; the second pass reads `bar` through the inserting index
operator and returns the table `bar -> 0`, `foo -> 0`.  A row whose label is defined leaves
the table as it was. -/
theorem second_pass_inserts_label :
    (unpackLines 0x10000000 [["foo:", "nop"], ["beq", "x1", "x2", "bar"]] 0
        (restart freshAssembler)).map (fun r => r.2.m_labelPosMap) = some [("foo", 0)] ∧
    (assembleLines 0x10000000 [["foo:", "nop"], ["beq", "x1", "x2", "bar"]]
        freshAssembler).map (fun a => (a.m_error, a.m_labelPosMap)) =
      some (false, [("bar", 0), ("foo", 0)]) ∧
    (assembleLines 0x10000000 [["foo:", "nop"], ["beq", "x1", "x2", "foo"]]
        freshAssembler).map (fun a => (a.m_error, a.m_labelPosMap)) =
      some (false, [("foo", 0)]) ∧
    (assembleInstruction ["beq", "x1", "x2", "bar"] 1
        (⟨false, false, false, [], [], [("foo", 0)], [], []⟩ : Assembler)).map
      (fun a => a.m_labelPosMap) = some [("bar", 0), ("foo", 0)] :=
  ⟨by decide, by decide, by decide, by decide⟩

/-! ## Dense rows -/

theorem pseudoOps_no_dot : ∀ f ∈ pseudoOps, f.data.head? ≠ some '.' := by decide

theorem mapContains_iff_mem_keys {ν : Type} (m : List (Int × ν)) (k : Int) :
    mapContains m k = true ↔ k ∈ m.map Prod.fst := by
  simp [mapContains]

/-- C33. After a first pass started by `restart` at cursor 0 over any sequence of
statements, the cursor is a natural number `n` and the keys of the instruction map are
`0, 1, ..., n - 1` in this order, so a row is in the map exactly when it lies in
`[0, cursor)`.  Every statement that `unpackOp` processes leaves the cursor where it was or
advances it by 1 or 2; it leaves it, and the instruction map, where they were for a line
that is a label alone and for a directive. -/
theorem rows_dense_from_zero (D : Nat) (lines : List (List String)) (prior : Assembler)
    (r : Int × Assembler) (h : unpackLines D lines 0 (restart prior) = some r) :
    0 ≤ r.1 ∧
    r.2.m_instructionsMap.map Prod.fst = (List.range r.1.toNat).map Int.ofNat ∧
    (∀ k : Int, mapContains r.2.m_instructionsMap k = true ↔ 0 ≤ k ∧ k < r.1) ∧
    (∀ fields pos s u, unpackOp D fields pos s = some u →
      u.1 = pos ∨ u.1 = pos + 1 ∨ u.1 = pos + 2) ∧
    (∀ lbl pos s, lbl ≠ "" → ':' ∉ lbl.data →
      (unpackOp D [lbl ++ ":"] pos s).map (fun u => (u.1, u.2.m_instructionsMap)) =
        some (pos, s.m_instructionsMap)) ∧
    (∀ f rest pos s u, f.data.head? = some '.' → ':' ∉ f.data →
      unpackOp D (f :: rest) pos s = some u →
      u.1 = pos ∧ u.2.m_instructionsMap = s.m_instructionsMap) := by
  obtain ⟨n, hn, hk⟩ :=
    (unpackLines_step D lines 0 (restart prior) (DenseRows_restart prior) r h).2.1
  have hkeys : r.2.m_instructionsMap.map Prod.fst = (List.range r.1.toNat).map Int.ofNat := by
    rw [hk, hn]
    rfl
  refine ⟨by omega, hkeys, ?_, ?_, ?_, ?_⟩
  · intro k
    rw [mapContains_iff_mem_keys, hk, hn]
    simp only [List.mem_map, List.mem_range]
    constructor
    · rintro ⟨i, hi, rfl⟩
      exact ⟨Int.ofNat_nonneg i, Int.ofNat_lt.mpr hi⟩
    · rintro ⟨h0, h1⟩
      refine ⟨k.toNat, by omega, ?_⟩
      show ((k.toNat : Nat) : Int) = k
      omega
  · intro fields pos s u hu
    rcases (unpackOp_step D fields pos s u hu).2 with ⟨e, -⟩ | ⟨row, e, -⟩ | ⟨r1, r2, e, -⟩
    · exact Or.inl e
    · exact Or.inr (Or.inl e)
    · exact Or.inr (Or.inr e)
  · intro lbl pos s hne hc
    rw [unpackOp_label D lbl [] pos s hne hc]
    rfl
  · intro f rest pos s u hdot hc hu
    rw [unpackOp_of_no_colon D f rest pos s (by simpa using hc)] at hu
    have hp : f ∉ pseudoOps := fun hf => pseudoOps_no_dot f hf hdot
    simp only [unpackOperation, List.getElem?_cons_zero, Option.bind_eq_bind,
      Option.some_bind, if_neg hp, if_pos hdot, Option.map_eq_some'] at hu
    obtain ⟨a, ha, rfl⟩ := hu
    exact ⟨rfl, (assembleAssemblerDirective_labels (f :: rest) s a ha).2.2⟩

/-- Witness of C33: `nop`, `call foo`, `.data`, `msg:`, `li x5,4096` leave the cursor 5 and
the rows 0 to 4. -/
theorem rows_dense_from_zero_witness :
    ((5 : Int), (⟨false, false, true,
      [(0, ["addi", "x0", "x0", "0"]), (1, ["auipc", "x6", "foo"]),
       (2, ["jalr", "x1", "x6", "foo"]), (3, ["lui", "x5", "2"]),
       (4, ["addi", "x5", "x5", "0"])],
      [(1, "foo"), (2, "foo")], [("msg", 0x04000000)], [], []⟩ :
        Assembler)).2.m_instructionsMap.map Prod.fst =
      (List.range ((5 : Int), (⟨false, false, true,
      [(0, ["addi", "x0", "x0", "0"]), (1, ["auipc", "x6", "foo"]),
       (2, ["jalr", "x1", "x6", "foo"]), (3, ["lui", "x5", "2"]),
       (4, ["addi", "x5", "x5", "0"])],
      [(1, "foo"), (2, "foo")], [("msg", 0x04000000)], [], []⟩ :
        Assembler)).1.toNat).map Int.ofNat :=
  (rows_dense_from_zero 0x10000000
    [["nop"], ["call", "foo"], [".data"], ["msg:"], ["li", "x5", "4096"]] freshAssembler
    _ (by decide)).2.1

/-! ## The helper `splitColon` -/

/-- The parts that `split` finds around the colons: the parts before a colon, then the part
after the last colon; none of them holds a colon and the text is their concatenation with
the colons put back. -/
theorem splitChars_colon (cs : List Char) :
    ∃ (labels : List (List Char)) (last : List Char),
      (∀ p ∈ labels, ':' ∉ p) ∧ ':' ∉ last ∧
      splitChars (fun c => decide (c = ':')) cs = labels ++ [last] ∧
      cs = labels.flatMap (fun p => p ++ [':']) ++ last := by
  induction cs with
  | nil => exact ⟨[], [], by simp, by simp, rfl, rfl⟩
  | cons c rest ih =>
    obtain ⟨labels, last, h1, h2, h3, h4⟩ := ih
    by_cases hc : c = ':'
    · subst hc
      refine ⟨[] :: labels, last, ?_, h2, ?_, ?_⟩
      · intro p hp
        rcases List.mem_cons.mp hp with rfl | hp
        · simp
        · exact h1 p hp
      · simp [splitChars, h3]
      · simp [← h4]
    · cases labels with
      | nil =>
        refine ⟨[], c :: last, by simp, ?_, ?_, ?_⟩
        · simp only [List.mem_cons, not_or]
          exact ⟨fun h => hc h.symm, h2⟩
        · simp [splitChars, hc, h3]
        · simpa using h4
      | cons l0 ls =>
        refine ⟨(c :: l0) :: ls, last, ?_, h2, ?_, ?_⟩
        · intro p hp
          rcases List.mem_cons.mp hp with rfl | hp
          · simp only [List.mem_cons, not_or]
            exact ⟨fun h => hc h.symm, h1 l0 (List.mem_cons_self _ _)⟩
          · exact h1 p (List.mem_cons_of_mem _ hp)
        · simp [splitChars, hc, h3]
        · simp [h4]

theorem appendColons_parts (labels : List (List Char)) (last : List Char) :
    appendColons ((labels ++ [last]).map String.mk) =
      labels.map (fun p => String.mk p ++ ":") ++ [String.mk last] := by
  induction labels with
  | nil => rfl
  | cons l0 ls ih =>
    cases ls with
    | nil => rfl
    | cons l1 rest =>
      simp only [List.cons_append, List.map_cons, appendColons] at ih ⊢
      exact congrArg _ ih

/-- The fields that `splitColon` returns, in terms of the parts around the colons. -/
theorem splitColon_parts (string : String) :
    ∃ (labels : List (List Char)) (last : List Char),
      (∀ p ∈ labels, ':' ∉ p) ∧ ':' ∉ last ∧
      string.data = labels.flatMap (fun p => p ++ [':']) ++ last ∧
      splitColon string = labels.map (fun p => String.mk p ++ ":") ++
        (if last = [] then [] else [String.mk last]) := by
  obtain ⟨labels, last, h1, h2, h3, h4⟩ := splitChars_colon string.data
  refine ⟨labels, last, h1, h2, h4, ?_⟩
  have e : split (fun c => decide (c = ':')) string = (labels ++ [last]).map String.mk := by
    simp only [split, h3]
  have hkeep : ∀ p : List Char, decide (String.mk p ++ ":" ≠ "") = true := by
    intro p
    have : (String.mk p ++ ":").data ≠ "".data := by simp
    simp only [decide_eq_true_eq]
    exact fun h => this (by rw [h])
  unfold splitColon
  rw [e, appendColons_parts, removeAllEmpty, List.filter_append]
  congr 1
  · rw [List.filter_eq_self]
    intro f hf
    obtain ⟨p, -, rfl⟩ := List.mem_map.mp hf
    exact hkeep p
  · by_cases hl : last = []
    · subst hl
      simp
    · have : String.mk last ≠ "" := fun h => hl (by simpa using congrArg String.data h)
      simp [hl, this]

theorem join_data (l : List String) (acc : String) :
    (l.foldl (fun r s => r ++ s) acc).data = acc.data ++ l.flatMap String.data := by
  induction l generalizing acc with
  | nil => simp
  | cons x rest ih => simp [ih, List.append_assoc]

/-- C34. For every string, the fields that `splitColon` returns concatenate to the string,
none of them is empty, every field before the last is a colon-free text followed by one
colon, and the last field is such a text or a colon-free text; `lbl:add` gives `lbl:`, `add`
and `lbl:` gives `lbl:`. -/
theorem splitColon_keeps_text (string : String) :
    String.join (splitColon string) = string ∧
    (∀ f ∈ splitColon string, f ≠ "") ∧
    (∀ i f, i + 1 < (splitColon string).length → (splitColon string)[i]? = some f →
      ∃ p : String, f = p ++ ":" ∧ ':' ∉ p.data) ∧
    (∀ f ∈ splitColon string, ':' ∉ f.data ∨ ∃ p : String, f = p ++ ":" ∧ ':' ∉ p.data) ∧
    splitColon "lbl:add" = ["lbl:", "add"] ∧ splitColon "lbl:" = ["lbl:"] := by
  obtain ⟨labels, last, h1, h2, h3, h4⟩ := splitColon_parts string
  refine ⟨?_, ?_, ?_, ?_, by decide, by decide⟩
  · apply String.ext
    rw [String.join, join_data, h4, h3]
    by_cases hl : last = []
    · simp [hl, List.flatMap, Function.comp_def]
    · simp [hl, List.flatMap, Function.comp_def]
  · intro f hf
    rw [h4] at hf
    rcases List.mem_append.mp hf with hf | hf
    · obtain ⟨p, -, rfl⟩ := List.mem_map.mp hf
      intro h
      have := congrArg String.data h
      simp at this
    · by_cases hl : last = []
      · simp [hl] at hf
      · simp only [if_neg hl, List.mem_singleton] at hf
        subst hf
        intro h
        exact hl (by simpa using congrArg String.data h)
  · intro i f hi hf
    rw [h4] at hi hf
    have hlen : i < (labels.map (fun p => String.mk p ++ ":")).length := by
      by_cases hl : last = []
      · simp [hl] at hi ⊢; omega
      · simp [hl] at hi ⊢; omega
    rw [List.getElem?_append_left hlen] at hf
    have hm : f ∈ labels.map (fun p => String.mk p ++ ":") := List.getElem?_mem hf
    obtain ⟨p, hp, rfl⟩ := List.mem_map.mp hm
    exact ⟨String.mk p, rfl, h1 p hp⟩
  · intro f hf
    rw [h4] at hf
    rcases List.mem_append.mp hf with hf | hf
    · obtain ⟨p, hp, rfl⟩ := List.mem_map.mp hf
      exact Or.inr ⟨String.mk p, rfl, h1 p hp⟩
    · by_cases hl : last = []
      · simp [hl] at hf
      · simp only [if_neg hl, List.mem_singleton] at hf
        subst hf
        exact Or.inl h2

/-! ## The word of `jal` -/

theorem jtype_fields (op rd x : Nat) (hop : op < 2 ^ 7) (hrd : rd < 2 ^ 5) :
    bitsOf (op ||| shl32 rd 7 ||| (shl32 (x &&& 0x7fe) 20 ||| shl32 (x &&& 0x800) 9 |||
      (x &&& 0xff000) ||| shl32 (x &&& 0x100000) 11)) 6 0 = op ∧
    bitsOf (op ||| shl32 rd 7 ||| (shl32 (x &&& 0x7fe) 20 ||| shl32 (x &&& 0x800) 9 |||
      (x &&& 0xff000) ||| shl32 (x &&& 0x100000) 11)) 11 7 = rd ∧
    bitsOf (op ||| shl32 rd 7 ||| (shl32 (x &&& 0x7fe) 20 ||| shl32 (x &&& 0x800) 9 |||
      (x &&& 0xff000) ||| shl32 (x &&& 0x100000) 11)) 19 12 = x / 4096 % 256 ∧
    bitsOf (op ||| shl32 rd 7 ||| (shl32 (x &&& 0x7fe) 20 ||| shl32 (x &&& 0x800) 9 |||
      (x &&& 0xff000) ||| shl32 (x &&& 0x100000) 11)) 20 20 = x / 2048 % 2 ∧
    bitsOf (op ||| shl32 rd 7 ||| (shl32 (x &&& 0x7fe) 20 ||| shl32 (x &&& 0x800) 9 |||
      (x &&& 0xff000) ||| shl32 (x &&& 0x100000) 11)) 30 21 = x / 2 % 1024 ∧
    bitsOf (op ||| shl32 rd 7 ||| (shl32 (x &&& 0x7fe) 20 ||| shl32 (x &&& 0x800) 9 |||
      (x &&& 0xff000) ||| shl32 (x &&& 0x100000) 11)) 31 31 = x / 1048576 % 2 := by
  have e1 : shl32 (x &&& 0x7fe) 20 = shl32 (x / 2 % 1024) 21 := by
    have e : (0x7fe : Nat) = (2 ^ 10 - 1) <<< 1 := by decide
    rw [e, and_shiftLeft_mask, Nat.and_pow_two_sub_one_eq_mod]
    simp only [shl32, Nat.shiftLeft_eq, Nat.shiftRight_eq_div_pow]
    omega
  have e2 : shl32 (x &&& 0x800) 9 = shl32 (x / 2048 % 2) 20 := by
    have e : (0x800 : Nat) = (2 ^ 1 - 1) <<< 11 := by decide
    rw [e, and_shiftLeft_mask, Nat.and_pow_two_sub_one_eq_mod]
    simp only [shl32, Nat.shiftLeft_eq, Nat.shiftRight_eq_div_pow]
    omega
  have e3 : x &&& 0xff000 = shl32 (x / 4096 % 256) 12 := by
    have e : (0xff000 : Nat) = (2 ^ 8 - 1) <<< 12 := by decide
    rw [e, and_shiftLeft_mask, Nat.and_pow_two_sub_one_eq_mod]
    simp only [shl32, Nat.shiftLeft_eq, Nat.shiftRight_eq_div_pow]
    omega
  have e4 : shl32 (x &&& 0x100000) 11 = shl32 (x / 1048576 % 2) 31 := by
    have e : (0x100000 : Nat) = (2 ^ 1 - 1) <<< 20 := by decide
    rw [e, and_shiftLeft_mask, Nat.and_pow_two_sub_one_eq_mod]
    simp only [shl32, Nat.shiftLeft_eq, Nat.shiftRight_eq_div_pow]
    omega
  have h1 : x / 2 % 1024 < 2 ^ 10 := by omega
  have h2 : x / 2048 % 2 < 2 ^ 1 := by omega
  have h3 : x / 4096 % 256 < 2 ^ 8 := by omega
  have h4 : x / 1048576 % 2 < 2 ^ 1 := by omega
  rw [e1, e2, e3, e4]
  refine ⟨?_, ?_, ?_, ?_, ?_, ?_⟩
  · rw [bitsOf_lor, bitsOf_lor, bitsOf_lor, bitsOf_lor, bitsOf_lor,
      bitsOf_shl32_of_lt rd 7 _ _ (by decide), bitsOf_shl32_of_lt _ 21 _ _ (by decide),
      bitsOf_shl32_of_lt _ 20 _ _ (by decide), bitsOf_shl32_of_lt _ 12 _ _ (by decide),
      bitsOf_shl32_of_lt _ 31 _ _ (by decide), bitsOf_low]
    simp only [Nat.or_zero]
    exact Nat.mod_eq_of_lt hop
  · rw [bitsOf_lor, bitsOf_lor, bitsOf_lor, bitsOf_lor, bitsOf_lor,
      bitsOf_of_lt op 7 _ _ hop (by decide), bitsOf_shl32_of_lt _ 21 _ _ (by decide),
      bitsOf_shl32_of_lt _ 20 _ _ (by decide), bitsOf_shl32_of_lt _ 12 _ _ (by decide),
      bitsOf_shl32_of_lt _ 31 _ _ (by decide), bitsOf_shl32_self rd 7 11 (by decide)]
    simp only [Nat.or_zero, Nat.zero_or]
    exact Nat.mod_eq_of_lt hrd
  · rw [bitsOf_lor, bitsOf_lor, bitsOf_lor, bitsOf_lor, bitsOf_lor,
      bitsOf_of_lt op 7 _ _ hop (by decide), bitsOf_shl32_of_ge rd 7 5 _ _ hrd (by decide),
      bitsOf_shl32_of_lt _ 21 _ _ (by decide),
      bitsOf_shl32_of_lt _ 20 _ _ (by decide),
      bitsOf_shl32_of_lt _ 31 _ _ (by decide), bitsOf_shl32_self _ 12 19 (by decide)]
    simp only [Nat.or_zero, Nat.zero_or]
    exact Nat.mod_eq_of_lt h3
  · rw [bitsOf_lor, bitsOf_lor, bitsOf_lor, bitsOf_lor, bitsOf_lor,
      bitsOf_of_lt op 7 _ _ hop (by decide), bitsOf_shl32_of_ge rd 7 5 _ _ hrd (by decide),
      bitsOf_shl32_of_lt _ 21 _ _ (by decide),
      bitsOf_shl32_of_ge _ 12 8 _ _ h3 (by decide),
      bitsOf_shl32_of_lt _ 31 _ _ (by decide), bitsOf_shl32_self _ 20 20 (by decide)]
    simp only [Nat.or_zero, Nat.zero_or]
    exact Nat.mod_eq_of_lt h2
  · rw [bitsOf_lor, bitsOf_lor, bitsOf_lor, bitsOf_lor, bitsOf_lor,
      bitsOf_of_lt op 7 _ _ hop (by decide), bitsOf_shl32_of_ge rd 7 5 _ _ hrd (by decide),
      bitsOf_shl32_of_ge _ 20 1 _ _ h2 (by decide),
      bitsOf_shl32_of_ge _ 12 8 _ _ h3 (by decide),
      bitsOf_shl32_of_lt _ 31 _ _ (by decide), bitsOf_shl32_self _ 21 30 (by decide)]
    simp only [Nat.or_zero, Nat.zero_or]
    exact Nat.mod_eq_of_lt h1
  · rw [bitsOf_lor, bitsOf_lor, bitsOf_lor, bitsOf_lor, bitsOf_lor,
      bitsOf_of_lt op 7 _ _ hop (by decide), bitsOf_shl32_of_ge rd 7 5 _ _ hrd (by decide),
      bitsOf_shl32_of_ge _ 21 10 _ _ h1 (by decide),
      bitsOf_shl32_of_ge _ 20 1 _ _ h2 (by decide),
      bitsOf_shl32_of_ge _ 12 8 _ _ h3 (by decide), bitsOf_shl32_self _ 31 31 (by decide)]
    simp only [Nat.or_zero, Nat.zero_or]
    exact Nat.mod_eq_of_lt h4

/-- C36. For a register field that resolves to a number in [0, 31] and a row `r` whose
label is at row `t` with `-2^20 ≤ (t - r) * 4 < 2^20`, `assembleInstruction` on the row
`jal rd,lbl` appends 4 bytes to the text segment and changes nothing else; their word has
the opcode `0x6F`, bits 11:7 = rd, and a J-type immediate that decodes to `(t - r) * 4`. -/
theorem jal_immediate_roundtrip (rd lbl : String) (r t : Int) (s : Assembler)
    (hrd : getRegisterNumber rd ≤ 31) (ht : mapFind s.m_labelPosMap lbl = some t)
    (hlo : -1048576 ≤ (t - r) * 4) (hhi : (t - r) * 4 < 1048576) :
    ∃ bytes : List Nat,
      assembleInstruction ["jal", rd, lbl] r s =
        some { s with m_textSegment := s.m_textSegment ++ bytes } ∧
      bytes.length = 4 ∧
      bitsOf (byteArrToUint bytes) 6 0 = 0x6F ∧
      bitsOf (byteArrToUint bytes) 11 7 = getRegisterNumber rd ∧
      decodeJImmediate (byteArrToUint bytes) = (t - r) * 4 := by
  have hk : assembleInstruction ["jal", rd, lbl] r s =
      some { s with m_textSegment := s.m_textSegment ++
        uintToByteArr (JAL ||| shl32 (getRegisterNumber rd) 7 |||
          (shl32 (toUInt32 (wrapInt ((t - r) * 4)) &&& 0x7fe) 20 |||
           shl32 (toUInt32 (wrapInt ((t - r) * 4)) &&& 0x800) 9 |||
           (toUInt32 (wrapInt ((t - r) * 4)) &&& 0xff000) |||
           shl32 (toUInt32 (wrapInt ((t - r) * 4)) &&& 0x100000) 11)) } := by
    simp [assembleInstruction, opImmInstructions, opInstructions, storeInstructions,
      loadInstructions, branchInstructions, labelPosAt_of_find ht, appendText]
  have hlt : JAL ||| shl32 (getRegisterNumber rd) 7 |||
      (shl32 (toUInt32 (wrapInt ((t - r) * 4)) &&& 0x7fe) 20 |||
       shl32 (toUInt32 (wrapInt ((t - r) * 4)) &&& 0x800) 9 |||
       (toUInt32 (wrapInt ((t - r) * 4)) &&& 0xff000) |||
       shl32 (toUInt32 (wrapInt ((t - r) * 4)) &&& 0x100000) 11) < 2 ^ 32 := by
    have hm : toUInt32 (wrapInt ((t - r) * 4)) &&& 0xff000 < 2 ^ 32 :=
      Nat.lt_of_le_of_lt Nat.and_le_right (by decide)
    exact Nat.or_lt_two_pow (Nat.or_lt_two_pow (by decide) (shl32_lt _ _))
      (Nat.or_lt_two_pow (Nat.or_lt_two_pow (Nat.or_lt_two_pow (shl32_lt _ _) (shl32_lt _ _))
        hm) (shl32_lt _ _))
  obtain ⟨g1, g2, g3, g4, g5, g6⟩ := jtype_fields JAL (getRegisterNumber rd)
    (toUInt32 (wrapInt ((t - r) * 4))) (by decide) (by omega)
  refine ⟨_, hk, uintToByteArr_length _, ?_, ?_, ?_⟩
  · rw [byteArrToUint_uintToByteArr _ hlt, g1]
    rfl
  · rw [byteArrToUint_uintToByteArr _ hlt, g2]
  · rw [byteArrToUint_uintToByteArr _ hlt]
    unfold decodeJImmediate
    simp only [g3, g4, g5, g6]
    simp only [toUInt32, wrapInt]
    split_ifs <;> omega

/-- Witness of C36: `jal x1,back` at row 5 with `back` at row 2 encodes the offset -12. -/
theorem jal_immediate_roundtrip_witness :
    ∃ bytes : List Nat,
      assembleInstruction ["jal", "x1", "back"] 5
          (⟨false, false, false, [], [], [("back", 2)], [], []⟩ : Assembler) =
        some { (⟨false, false, false, [], [], [("back", 2)], [], []⟩ : Assembler) with
          m_textSegment :=
            (⟨false, false, false, [], [], [("back", 2)], [], []⟩ :
              Assembler).m_textSegment ++ bytes } ∧
      bytes.length = 4 ∧
      bitsOf (byteArrToUint bytes) 6 0 = 0x6F ∧
      bitsOf (byteArrToUint bytes) 11 7 = getRegisterNumber "x1" ∧
      decodeJImmediate (byteArrToUint bytes) = (2 - 5) * 4 :=
  jal_immediate_roundtrip "x1" "back" 5 2 ⟨false, false, false, [], [], [("back", 2)], [], []⟩
    (by decide) (by decide) (by decide) (by decide)

/-! ## The immediate parser -/

theorem digitValue_facts {c : Char} {k : Nat} (h : digitValue c = some k) :
    isSpace c = false ∧ c ≠ '+' ∧ c ≠ '-' ∧ (k < 16 → c ≠ 'x' ∧ c ≠ 'X') ∧
    (k < 10 → c ≠ 'b') := by
  refine ⟨?_, ?_, ?_, ?_, ?_⟩
  · unfold digitValue at h
    unfold isSpace
    split_ifs at h <;> simp <;> omega
  · rintro rfl
    simp [digitValue] at h
  · rintro rfl
    simp [digitValue] at h
  · intro hk
    constructor
    · rintro rfl
      simp [digitValue] at h
      omega
    · rintro rfl
      simp [digitValue] at h
      omega
  · intro hk
    rintro rfl
    simp [digitValue] at h
    omega

theorem parseDigits_chars {base : Nat} {cs : List Char} {acc v : Nat}
    (h : parseDigits base cs acc = some v) :
    ∀ c ∈ cs, ∃ k, digitValue c = some k ∧ k < base := by
  induction cs generalizing acc with
  | nil => simp
  | cons c rest ih =>
    intro x hx
    unfold parseDigits at h
    cases hd : digitValue c with
    | none => simp [hd] at h
    | some d =>
      simp only [hd] at h
      by_cases hb : d < base
      · rw [if_pos hb] at h
        rcases List.mem_cons.mp hx with rfl | hx
        · exact ⟨d, hd, hb⟩
        · exact ih h x hx
      · rw [if_neg hb] at h
        cases h

theorem parseNumber_chars {base : Nat} {cs : List Char} {v : Nat}
    (h : parseNumber base cs = some v) :
    cs ≠ [] ∧ ∀ c ∈ cs, ∃ k, digitValue c = some k ∧ k < base := by
  cases cs with
  | nil => simp [parseNumber] at h
  | cons c rest => exact ⟨by simp, parseDigits_chars (by simpa [parseNumber] using h)⟩

theorem dropWhile_of_all_false {α : Type} (p : α → Bool) (l : List α)
    (h : ∀ a ∈ l, p a = false) : l.dropWhile p = l := by
  cases l with
  | nil => rfl
  | cons a rest => simp [List.dropWhile, h a (List.mem_cons_self _ _)]

theorem trimmed_of_no_space (cs : List Char) (h : ∀ c ∈ cs, isSpace c = false) :
    trimmed cs = cs := by
  unfold trimmed
  rw [dropWhile_of_all_false _ cs h,
    dropWhile_of_all_false _ cs.reverse (fun c hc => h c (List.mem_reverse.mp hc)),
    List.reverse_reverse]

theorem removeAll2_of_not_mem (a b : Char) (cs : List Char) (h : b ∉ cs) :
    removeAll2 a b cs = cs := by
  induction cs with
  | nil => rfl
  | cons x tl ih =>
    cases tl with
    | nil => rfl
    | cons y rest =>
      have hy : y ≠ b := fun e => h (by simp [e])
      have ht : b ∉ y :: rest := fun e => h (List.mem_cons_of_mem _ e)
      rw [removeAll2, if_neg (fun e => hy e.2), ih ht]

theorem toInt_decimal (sp d : List Char) (v : Nat) (hsp : sp = [] ∨ sp = ['+'] ∨ sp = ['-'])
    (hd : parseNumber 10 d = some v) (hv : v < 2147483648) :
    toInt (String.mk (sp ++ d)) = ((if sp = ['-'] then -(v : Int) else (v : Int)), true) := by
  obtain ⟨hne, hch⟩ := parseNumber_chars hd
  have hns : ∀ c ∈ d, isSpace c = false := fun c hc => by
    obtain ⟨k, hk, -⟩ := hch c hc
    exact (digitValue_facts hk).1
  obtain ⟨c0, rest, rfl⟩ := List.exists_cons_of_ne_nil hne
  obtain ⟨k0, hk0, -⟩ := hch c0 (List.mem_cons_self _ _)
  obtain ⟨-, hp, hm, -, -⟩ := digitValue_facts hk0
  rcases hsp with rfl | rfl | rfl
  · have ht : trimmed (c0 :: rest) = c0 :: rest := trimmed_of_no_space _ hns
    simp only [toInt, List.nil_append, ht, if_neg hm, if_neg hp, hd]
    simp
    omega
  · have ht : trimmed ('+' :: c0 :: rest) = '+' :: c0 :: rest :=
      trimmed_of_no_space _ (fun c hc => by
        rcases List.mem_cons.mp hc with rfl | hc
        · decide
        · exact hns c hc)
    simp only [toInt, List.singleton_append, ht]
    simp
    rw [hd]
    simp
    omega
  · have ht : trimmed ('-' :: c0 :: rest) = '-' :: c0 :: rest :=
      trimmed_of_no_space _ (fun c hc => by
        rcases List.mem_cons.mp hc with rfl | hc
        · decide
        · exact hns c hc)
    simp only [toInt, List.singleton_append, ht]
    simp
    rw [hd]
    simp
    omega

theorem toInt_prefixed_fails (sp d : List Char) (l : Char)
    (hsp : sp = [] ∨ sp = ['+'] ∨ sp = ['-']) (hl : l = 'x' ∨ l = 'b')
    (hns : ∀ c ∈ d, isSpace c = false) :
    toInt (String.mk (sp ++ '0' :: l :: d)) = (0, false) := by
  have hnsl : ∀ c ∈ '0' :: l :: d, isSpace c = false := by
    intro c hc
    rcases List.mem_cons.mp hc with rfl | hc
    · decide
    · rcases List.mem_cons.mp hc with rfl | hc
      · rcases hl with rfl | rfl <;> decide
      · exact hns c hc
  have hfail : parseNumber 10 ('0' :: l :: d) = none := by
    rcases hl with rfl | rfl <;> simp [parseNumber, parseDigits, digitValue]
  rcases hsp with rfl | rfl | rfl
  · have ht : trimmed ('0' :: l :: d) = '0' :: l :: d := trimmed_of_no_space _ hnsl
    simp [toInt, ht, hfail]
  · have ht : trimmed ('+' :: '0' :: l :: d) = '+' :: '0' :: l :: d :=
      trimmed_of_no_space _ (fun c hc => by
        rcases List.mem_cons.mp hc with rfl | hc
        · decide
        · exact hnsl c hc)
    simp [toInt, ht, hfail]
  · have ht : trimmed ('-' :: '0' :: l :: d) = '-' :: '0' :: l :: d :=
      trimmed_of_no_space _ (fun c hc => by
        rcases List.mem_cons.mp hc with rfl | hc
        · decide
        · exact hnsl c hc)
    simp [toInt, ht, hfail]

theorem toUInt_digits (base : Nat) (d : List Char) (v : Nat) (hb : base ≤ 16)
    (hd : parseNumber base d = some v) (hv : v < 2147483648) :
    toUInt d base = (v, true) := by
  obtain ⟨hne, hch⟩ := parseNumber_chars hd
  have hns : ∀ c ∈ d, isSpace c = false := fun c hc => by
    obtain ⟨k, hk, -⟩ := hch c hc
    exact (digitValue_facts hk).1
  have ht : trimmed d = d := trimmed_of_no_space _ hns
  obtain ⟨c0, rest, rfl⟩ := List.exists_cons_of_ne_nil hne
  obtain ⟨k0, hk0, -⟩ := hch c0 (List.mem_cons_self _ _)
  obtain ⟨-, hp, -, -, -⟩ := digitValue_facts hk0
  unfold toUInt
  simp only [ht, if_neg hp]
  have hfin : (match parseNumber base (c0 :: rest) with
      | some v => if v ≤ 4294967295 then (v, true) else (0, false)
      | none => (0, false)) = (v, true) := by
    rw [hd]
    simp
    omega
  cases rest with
  | nil => exact hfin
  | cons x r2 =>
    cases r2 with
    | nil => exact hfin
    | cons y r3 =>
      obtain ⟨k1, hk1, hk1b⟩ := hch x (by simp)
      obtain ⟨-, -, -, hx, -⟩ := digitValue_facts hk1
      have hx2 := hx (by omega)
      simp only [hx2.1, hx2.2, or_self, false_and, and_false, if_false]
      exact hfin

theorem getImmediate_prefixed (sp d : List Char) (l : Char) (base v : Nat)
    (hsp : sp = [] ∨ sp = ['+'] ∨ sp = ['-'])
    (hl : (l = 'x' ∧ base = 16) ∨ (l = 'b' ∧ base = 2))
    (hd : parseNumber base d = some v) (hv : v < 2147483648) :
    getImmediate (String.mk (sp ++ '0' :: l :: d)) =
      ((if sp = ['-'] then -(v : Int) else (v : Int)), true) := by
  obtain ⟨-, hch⟩ := parseNumber_chars hd
  have hns : ∀ c ∈ d, isSpace c = false := fun c hc => by
    obtain ⟨k, hk, -⟩ := hch c hc
    exact (digitValue_facts hk).1
  have hrm : removeAll2 '0' l ('0' :: l :: d) = d := by
    have hnot : l ∉ d := by
      intro hmem
      obtain ⟨k, hk, hkb⟩ := hch l hmem
      obtain ⟨-, -, -, hx, hbb⟩ := digitValue_facts hk
      rcases hl with ⟨rfl, rfl⟩ | ⟨rfl, rfl⟩
      · exact (hx hkb).1 rfl
      · exact hbb (by omega) rfl
    rw [removeAll2, if_pos ⟨rfl, rfl⟩, removeAll2_of_not_mem _ _ _ hnot]
  have hu : toUInt d base = (v, true) :=
    toUInt_digits base d v (by rcases hl with ⟨-, rfl⟩ | ⟨-, rfl⟩ <;> decide) hd hv
  have hfail := toInt_prefixed_fails sp d l hsp
    (by rcases hl with ⟨rfl, -⟩ | ⟨rfl, -⟩ <;> simp) hns
  have hw : wrapInt (v : Int) = v := by
    unfold wrapInt
    omega
  have hwn : wrapInt (-(v : Int)) = -(v : Int) := by
    unfold wrapInt
    omega
  have hwp : wrapInt (1 * (v : Int)) = v := by
    unfold wrapInt
    omega
  have hx : ("0x" : String).data = ['0', 'x'] := rfl
  have hb : ("0b" : String).data = ['0', 'b'] := rfl
  unfold getImmediate
  simp only [hfail, Bool.false_eq_true, if_false]
  rcases hsp with rfl | rfl | rfl
  · rcases hl with ⟨rfl, rfl⟩ | ⟨rfl, rfl⟩
    · simp [hx, hrm, hu, hw, hwp]
    · simp [hx, hb, hrm, hu, hw, hwp]
  · rcases hl with ⟨rfl, rfl⟩ | ⟨rfl, rfl⟩
    · simp [hx, hrm, hu, hw, hwp]
    · simp [hx, hb, hrm, hu, hw, hwp]
  · rcases hl with ⟨rfl, rfl⟩ | ⟨rfl, rfl⟩
    · simp [hx, hrm, hu, hw, hwn]
    · simp [hx, hb, hrm, hu, hw, hwn]

theorem dropWhile_append_last {α : Type} (p : α → Bool) (xs : List α) (c : α)
    (hc : p c = false) : (xs ++ [c]).dropWhile p = xs.dropWhile p ++ [c] := by
  induction xs with
  | nil => simp [List.dropWhile, hc]
  | cons x rest ih =>
    by_cases hx : p x = true
    · simp [List.dropWhile, hx, ih]
    · simp [List.dropWhile, hx]

theorem trimmed_head (c : Char) (rest : List Char) (hc : isSpace c = false) :
    ∃ rest', trimmed (c :: rest) = c :: rest' := by
  unfold trimmed
  have h1 : (c :: rest).dropWhile isSpace = c :: rest := by simp [List.dropWhile, hc]
  rw [h1, List.reverse_cons, dropWhile_append_last _ _ _ hc, List.reverse_append]
  exact ⟨_, rfl⟩

theorem getImmediate_fails (tok : String) (c : Char) (rest : List Char)
    (htok : tok.data = c :: rest) (hs : isSpace c = false) (hp : c ≠ '+') (hm : c ≠ '-')
    (hdig : ∀ k, digitValue c = some k → 10 ≤ k) : getImmediate tok = (0, false) := by
  obtain ⟨rest', ht⟩ := trimmed_head c rest hs
  have hpd : parseNumber 10 (c :: rest') = none := by
    simp only [parseNumber, parseDigits]
    cases h : digitValue c with
    | none => rfl
    | some k =>
      have := hdig k h
      simp only
      rw [if_neg (by omega)]
  have hfail : toInt tok = (0, false) := by
    simp only [toInt, htok, ht, if_neg hm, if_neg hp, hpd]
  have h0 : c ≠ '0' := by
    rintro rfl
    have := hdig 0 (by decide)
    omega
  have hx : ("0x" : String).data = ['0', 'x'] := rfl
  have hb : ("0b" : String).data = ['0', 'b'] := rfl
  unfold getImmediate
  simp only [hfail, Bool.false_eq_true, if_false, htok]
  have h0' : ¬ '0' = c := fun h => h0 h.symm
  simp [hp, hm, hx, hb, h0']
  rfl

theorem digitValue_digitChar : ∀ n < 16, digitValue (Nat.digitChar n) = some n := by decide

theorem parseDigits_digitChars (base : Nat) (hb : base ≤ 16) (ds : List Nat)
    (hds : ∀ n ∈ ds, n < base) (acc : Nat) :
    parseDigits base (ds.map Nat.digitChar) acc =
      some (ds.foldl (fun a n => a * base + n) acc) := by
  induction ds generalizing acc with
  | nil => rfl
  | cons n rest ih =>
    have hn : n < base := hds n (List.mem_cons_self _ _)
    simp only [List.map_cons, parseDigits, digitValue_digitChar n (by omega), if_pos hn,
      List.foldl_cons]
    exact ih (fun m hm => hds m (List.mem_cons_of_mem _ hm)) _

/-- C31 (counterexample). `0x0x10` and `0b0b1` are not a sign, a prefix and a digit string,
and `getImmediate` reports success for them: every `0x` (or `0b`) is removed before the
digits are read. -/
theorem getImmediate_accepts_repeated_prefix :
    getImmediate "0x0x10" = (16, true) ∧ getImmediate "0b0b1" = (1, true) ∧
    getImmediate "-0x0x0x7" = (-7, true) :=
  ⟨by decide, by decide, by decide⟩

/-- C31 (amended). For a sign that is absent, `+` or `-`, and a digit string `d` of value
`v < 2^31` in base 10, 16 or 2 (`parseNumber` reads `d` as `v`: `d` is not empty, every
character is a digit of the base, and `v` is their positional value), `getImmediate` on
the sign followed by `d`, by `0x` and `d`, or by `0b` and `d`, reports success and returns
`v`, or `-v` when the sign is `-`.  For a token whose first character is not a decimal
digit, a sign or white space, as in a label name, it reports failure with the value 0. -/
theorem getImmediate_three_bases (sign : String) (d : List Char) (v : Nat)
    (hsign : sign = "" ∨ sign = "+" ∨ sign = "-") (hv : v < 2147483648) :
    (parseNumber 10 d = some v →
      getImmediate (sign ++ String.mk d) =
        ((if sign = "-" then -(v : Int) else (v : Int)), true)) ∧
    (parseNumber 16 d = some v →
      getImmediate (sign ++ "0x" ++ String.mk d) =
        ((if sign = "-" then -(v : Int) else (v : Int)), true)) ∧
    (parseNumber 2 d = some v →
      getImmediate (sign ++ "0b" ++ String.mk d) =
        ((if sign = "-" then -(v : Int) else (v : Int)), true)) ∧
    (∀ (tok : String) (c : Char) (rest : List Char), tok.data = c :: rest →
      isSpace c = false → c ≠ '+' → c ≠ '-' → (∀ k, digitValue c = some k → 10 ≤ k) →
      getImmediate tok = (0, false)) ∧
    (∀ (base : Nat) (n : Nat) (ds : List Nat), base ≤ 16 → (∀ m ∈ n :: ds, m < base) →
      parseNumber base ((n :: ds).map Nat.digitChar) =
        some ((n :: ds).foldl (fun a m => a * base + m) 0)) := by
  have hsp : sign.data = [] ∨ sign.data = ['+'] ∨ sign.data = ['-'] := by
    rcases hsign with rfl | rfl | rfl
    · exact Or.inl rfl
    · exact Or.inr (Or.inl rfl)
    · exact Or.inr (Or.inr rfl)
  have hneg : (sign = "-") ↔ (sign.data = ['-']) := by
    constructor
    · rintro rfl
      rfl
    · intro h
      exact String.ext h
  have hite : (if sign = "-" then -(v : Int) else (v : Int)) =
      (if sign.data = ['-'] then -(v : Int) else (v : Int)) := by
    by_cases h : sign = "-"
    · rw [if_pos h, if_pos (hneg.mp h)]
    · rw [if_neg h, if_neg (fun h2 => h (hneg.mpr h2))]
  have e10 : sign ++ String.mk d = String.mk (sign.data ++ d) := String.ext (by simp)
  have e16 : sign ++ "0x" ++ String.mk d = String.mk (sign.data ++ '0' :: 'x' :: d) :=
    String.ext (by simp)
  have e2 : sign ++ "0b" ++ String.mk d = String.mk (sign.data ++ '0' :: 'b' :: d) :=
    String.ext (by simp)
  refine ⟨?_, ?_, ?_, ?_, ?_⟩
  · intro hd
    have h := toInt_decimal sign.data d v hsp hd hv
    rw [e10, hite]
    unfold getImmediate
    simp only [h, if_true]
  · intro hd
    rw [e16, hite]
    exact getImmediate_prefixed sign.data d 'x' 16 v hsp (Or.inl ⟨rfl, rfl⟩) hd hv
  · intro hd
    rw [e2, hite]
    exact getImmediate_prefixed sign.data d 'b' 2 v hsp (Or.inr ⟨rfl, rfl⟩) hd hv
  · intro tok c rest htok hs hp hm hdig
    exact getImmediate_fails tok c rest htok hs hp hm hdig
  · intro base n ds hb hds
    exact parseDigits_digitChars base hb (n :: ds) hds 0

/-- Witness of C31 (amended): `-0x1f`, `+0b101`, `2047` and the label `loop`. -/
theorem getImmediate_three_bases_witness :
    getImmediate "-0x1f" = (-31, true) ∧ getImmediate "+0b101" = (5, true) ∧
    getImmediate "2047" = (2047, true) ∧ getImmediate "loop" = (0, false) :=
  ⟨((getImmediate_three_bases "-" ['1', 'f'] 31 (Or.inr (Or.inr rfl)) (by decide)).2.1
      (by decide)).trans (by decide),
   ((getImmediate_three_bases "+" ['1', '0', '1'] 5 (Or.inr (Or.inl rfl)) (by decide)).2.2.1
      (by decide)).trans (by decide),
   ((getImmediate_three_bases "" ['2', '0', '4', '7'] 2047 (Or.inl rfl) (by decide)).1
      (by decide)).trans (by decide),
   (getImmediate_three_bases "" [] 0 (Or.inl rfl) (by decide)).2.2.2.1 "loop" 'l'
      ['o', 'o', 'p'] rfl (by decide) (by decide) (by decide) (by decide)⟩

end Ripes
